import Mathlib

/-!
Verification of the KleisDoc document persistence engine
(`kleis_kernel/kleisdoc.py`): the expression-tree codec, the section
hierarchy reconstruction, the record extractors, placeholder
substitution, and the document model.  Python strings are modelled as
`List Char`; Python dicts keyed by strings as association lists that
replace in place (matching CPython's insertion-order semantics);
mutation through shared references is modelled with an explicit store
where it matters.
-/

namespace Kleisdoc

abbrev Str := List Char

/-- Python `str.strip()` whitespace set (ASCII part). -/
def isPySpace (c : Char) : Bool :=
  c = ' ' || c = '\t' || c = '\n' || c = '\r' || c = '\x0b' || c = '\x0c'

/-- Python `s.lstrip()`. -/
def lstrip (s : Str) : Str := s.dropWhile isPySpace

/-- Python `s.rstrip()`. -/
def rstrip (s : Str) : Str := (s.reverse.dropWhile isPySpace).reverse

/-- Python `s.strip()`. -/
def pstrip (s : Str) : Str := rstrip (lstrip s)

/-- Python `s.startswith(p)`. -/
def startsWith (p s : Str) : Bool := p.isPrefixOf s

/-! ## Section hierarchy reconstruction (`_build_section_hierarchy`)

Python `Section` objects are mutable and shared (a section sits in a
parent's `content` list and is also referenced from the stack), so the
loop is embedded with an explicit store of nodes addressed by index;
`stack` holds `(level, index)` with the head as stack top, and
`parent.content.append(section)` becomes an in-place update of the
parent's store node.  `α` is the type of non-section content items of a
flat section (text/equation/figure items recovered by the extractors
before the hierarchy pass runs). -/

structure FlatSec (α : Type) where
  level : Nat
  title : Str
  prims : List α
  deriving Repr, DecidableEq

/-- A store node: the `content` list of one Python `Section` object,
holding plain items and indices of child sections. -/
structure SecNode (α : Type) where
  level : Nat
  title : Str
  items : List (α ⊕ Nat)
  deriving Repr, DecidableEq

/-- In-place update of one list cell (Python mutation of `store[i]`). -/
def modifyAt {β : Type} (f : β → β) : Nat → List β → List β
  | _, [] => []
  | 0, x :: xs => f x :: xs
  | n + 1, x :: xs => x :: modifyAt f n xs

/-- `parent.content.append(section)` on the store. -/
def appendChild {α : Type} (store : List (SecNode α)) (p c : Nat) : List (SecNode α) :=
  modifyAt (fun nd => { nd with items := nd.items ++ [Sum.inr c] }) p store

/-- `while stack and stack[-1][0] >= section.level: stack.pop()`
(head of the list is the stack top). -/
def popGE (l : Nat) : List (Nat × Nat) → List (Nat × Nat)
  | [] => []
  | (lv, i) :: rest => if l ≤ lv then popGE l rest else (lv, i) :: rest

structure BuildSt (α : Type) where
  store : List (SecNode α)
  roots : List Nat
  stack : List (Nat × Nat)
  deriving Repr

/-- One iteration of the `for section in flat_sections` loop: allocate
the incoming section in the store, pop the stack, either record a new
top-level root or append the section to the remaining top's content,
then push `(level, section)`. -/
def buildStep {α : Type} (st : BuildSt α) (sec : FlatSec α) : BuildSt α :=
  let idx := st.store.length
  let store := st.store ++ [⟨sec.level, sec.title, sec.prims.map Sum.inl⟩]
  let stack := popGE sec.level st.stack
  match stack with
  | [] =>
      { store := store, roots := st.roots ++ [idx], stack := [(sec.level, idx)] }
  | (_, pidx) :: _ =>
      { store := appendChild store pidx idx, roots := st.roots,
        stack := (sec.level, idx) :: stack }

def buildHierarchySt {α : Type} (flat : List (FlatSec α)) : BuildSt α :=
  flat.foldl buildStep ⟨[], [], []⟩

/-- The tree a fully built Python `Section` denotes: level, title, and
content interleaving plain items with nested sections. -/
inductive STree (α : Type) where
  | node (level : Nat) (title : Str) (content : List (α ⊕ STree α))

/-- Materialise the object graph rooted at store index `i` (fuelled;
`store.length` fuel suffices because children are allocated after, hence
at strictly larger indices than, their parents). -/
def readoutN {α : Type} (store : List (SecNode α)) : Nat → Nat → STree α
  | 0, _ => .node 0 [] []
  | fuel + 1, i =>
    match store.get? i with
    | none => .node 0 [] []
    | some nd =>
        .node nd.level nd.title
          (nd.items.map fun it =>
            match it with
            | Sum.inl a => Sum.inl a
            | Sum.inr j => Sum.inr (readoutN store fuel j))

def readout {α : Type} (store : List (SecNode α)) (i : Nat) : STree α :=
  readoutN store store.length i

/-- `_build_section_hierarchy`: the returned `root_sections`, read out
as trees. -/
def buildHierarchy {α : Type} (flat : List (FlatSec α)) : List (STree α) :=
  let st := buildHierarchySt flat
  st.roots.map (readout st.store)

/-! ### Pure rendition of the specification's stack pass (§4.3)

"Pop the stack while its top has `level >= incoming.level`; if the stack
is now empty the section is a new top-level root; otherwise append it to
the content of the stack's top section; push `(level, section)`."  In
this value-oriented rendition a frame's content collects only finished
children, and a frame is attached to its parent (or to the root list)
when it is popped, which happens exactly once. -/

structure Frame (α : Type) where
  level : Nat
  title : Str
  content : List (α ⊕ STree α)

def closeFrame {α : Type} (f : Frame α) : STree α := .node f.level f.title f.content

/-- Pop frames whose level is `≥ l`, attaching each closed frame to the
frame below it, or to the root list when it was the bottom frame. -/
def specPop {α : Type} (l : Nat) :
    List (STree α) → List (Frame α) → List (STree α) × List (Frame α)
  | roots, [] => (roots, [])
  | roots, f :: rest =>
    if l ≤ f.level then
      match rest with
      | [] => specPop l (roots ++ [closeFrame f]) []
      | g :: gs =>
          specPop l roots ({ g with content := g.content ++ [Sum.inr (closeFrame f)] } :: gs)
    else (roots, f :: rest)
termination_by roots stack => stack.length
decreasing_by all_goals simp

def specStep {α : Type} (st : List (STree α) × List (Frame α)) (sec : FlatSec α) :
    List (STree α) × List (Frame α) :=
  let (roots, stack) := specPop sec.level st.1 st.2
  (roots, ⟨sec.level, sec.title, sec.prims.map Sum.inl⟩ :: stack)

/-- The specification algorithm: left-to-right pass, then close every
frame still open (popping at level 0 pops everything). -/
def specReconstruct {α : Type} (flat : List (FlatSec α)) : List (STree α) :=
  let st := flat.foldl specStep ([], [])
  (specPop 0 st.1 st.2).1

/-! ### Equivalence of the store-based loop and the pure stack pass

The correspondence is maintained by an invariant: every finished
section occupies a contiguous, downward-closed segment of the store
that the loop never touches again, so its readout is stable; stack
frames mirror store nodes up to the trailing reference to the
currently open child. -/

/-- Indices of child sections referenced from a content list. -/
def childRefs {α : Type} (items : List (α ⊕ Nat)) : List Nat :=
  items.filterMap fun it =>
    match it with
    | Sum.inl _ => none
    | Sum.inr j => some j

/-- The store segment `[c, e)` is closed: children of its nodes stay
inside it, at strictly larger indices. -/
def subClosed {α : Type} (store : List (SecNode α)) (c e : Nat) : Prop :=
  ∀ i nd, c ≤ i → i < e → store.get? i = some nd →
    ∀ j ∈ childRefs nd.items, i < j ∧ j < e

theorem length_modifyAt {β : Type} (f : β → β) (p : Nat) (l : List β) :
    (modifyAt f p l).length = l.length := by
  induction l generalizing p with
  | nil => cases p <;> rfl
  | cons x xs ih => cases p with
    | zero => rfl
    | succ n => simpa [modifyAt] using ih n

theorem get?_modifyAt {β : Type} (f : β → β) (p i : Nat) (l : List β) :
    (modifyAt f p l).get? i = if i = p then (l.get? p).map f else l.get? i := by
  induction l generalizing p i with
  | nil => cases p <;> cases i <;> simp [modifyAt]
  | cons x xs ih =>
    cases p with
    | zero => cases i <;> simp [modifyAt]
    | succ n =>
      cases i with
      | zero => simp [modifyAt]
      | succ m => simpa [modifyAt] using ih n m

theorem length_appendChild {α : Type} (store : List (SecNode α)) (p c : Nat) :
    (appendChild store p c).length = store.length := by
  simp [appendChild, length_modifyAt]

theorem get?_appendChild {α : Type} (store : List (SecNode α)) (p c i : Nat) :
    (appendChild store p c).get? i =
      if i = p then (store.get? p).map
        (fun nd => { nd with items := nd.items ++ [Sum.inr c] })
      else store.get? i :=
  get?_modifyAt _ p i store

theorem get?_append_left {β : Type} (l₁ l₂ : List β) (i : Nat) (h : i < l₁.length) :
    (l₁ ++ l₂).get? i = l₁.get? i := by
  rw [List.get?_append h]

/-- Readout only dereferences the segment `[i, e)` when that segment is
closed, so any two sufficient fuels agree. -/
theorem readout_fuel_agree {α : Type} {store : List (SecNode α)} {c e : Nat}
    (hc : subClosed store c e) :
    ∀ n i f₁ f₂, e - i ≤ n → c ≤ i → i < e → e - i ≤ f₁ → e - i ≤ f₂ →
      readoutN store f₁ i = readoutN store f₂ i := by
  intro n
  induction n with
  | zero => intro i _ _ h _ hlt _ _; omega
  | succ n ih =>
    intro i f₁ f₂ hn hci hie hf₁ hf₂
    have h1 : 1 ≤ e - i := by omega
    obtain ⟨g₁, rfl⟩ : ∃ g, f₁ = g + 1 := ⟨f₁ - 1, by omega⟩
    obtain ⟨g₂, rfl⟩ : ∃ g, f₂ = g + 1 := ⟨f₂ - 1, by omega⟩
    cases hget : store.get? i with
    | none => simp only [readoutN, hget]
    | some nd =>
      simp only [readoutN, hget]
      congr 1
      apply List.map_congr_left
      intro it hit
      cases it with
      | inl a => rfl
      | inr j =>
        have hj : i < j ∧ j < e := by
          refine hc i nd hci hie hget j ?_
          simp only [childRefs, List.mem_filterMap]
          exact ⟨Sum.inr j, hit, rfl⟩
        have := ih j g₁ g₂ (by omega) (by omega) hj.2 (by omega) (by omega)
        simpa using this

/-- Readout within a closed segment is unaffected by store changes
outside that segment. -/
theorem readout_stable {α : Type} {store store' : List (SecNode α)} {c e : Nat}
    (hc : subClosed store c e)
    (hagree : ∀ q, c ≤ q → q < e → store'.get? q = store.get? q) :
    ∀ f i, c ≤ i → i < e → readoutN store' f i = readoutN store f i := by
  intro f
  induction f with
  | zero => intro i _ _; rfl
  | succ f ih =>
    intro i hci hie
    cases hget : store.get? i with
    | none => simp only [readoutN, hagree i hci hie, hget]
    | some nd =>
      simp only [readoutN, hagree i hci hie, hget]
      congr 1
      apply List.map_congr_left
      intro it hit
      cases it with
      | inl a => rfl
      | inr j =>
        have hj : i < j ∧ j < e := by
          refine hc i nd hci hie hget j ?_
          simp only [childRefs, List.mem_filterMap]
          exact ⟨Sum.inr j, hit, rfl⟩
        have := ih j (by omega) hj.2
        simpa using this

/-- `subClosed` transfers to a store agreeing on the segment. -/
theorem subClosed_stable {α : Type} {store store' : List (SecNode α)} {c e : Nat}
    (hc : subClosed store c e)
    (hagree : ∀ q, c ≤ q → q < e → store'.get? q = store.get? q) :
    subClosed store' c e := by
  intro i nd hci hie hget
  exact hc i nd hci hie (by rw [← hagree i hci hie]; exact hget)

theorem subClosed_mono_left {α : Type} {store : List (SecNode α)} {c c' e : Nat}
    (hc : subClosed store c e) (h : c ≤ c') : subClosed store c' e :=
  fun i nd hci hie hget => hc i nd (le_trans h hci) hie hget

/-- A finished section: root index `r` of a closed segment ending at
`e`, whose readout is the tree `t`. -/
def SubtreeRec {α : Type} (store : List (SecNode α)) (e r : Nat) (t : STree α) : Prop :=
  r < e ∧ subClosed store r e ∧ readoutN store (e - r) r = t

/-- Correspondence between a store content item and a pure content item. -/
def ItemRel {α : Type} (store : List (SecNode α)) (e : Nat) :
    (α ⊕ Nat) → (α ⊕ STree α) → Prop
  | Sum.inl a, Sum.inl b => a = b
  | Sum.inr c, Sum.inr t => SubtreeRec store e c t
  | _, _ => False

/-- Correspondence between the imperative stack (store indices) and the
pure frame stack.  `e` bounds the segment holding the head frame's
finished children; `oc` is the head node's trailing open-child
reference, absent for the stack top. -/
def StackRel {α : Type} (store : List (SecNode α)) :
    Nat → Option Nat → List (Nat × Nat) → List (Frame α) → Prop
  | _, _, [], [] => True
  | e, oc, (l, i) :: rest, f :: fs =>
      ∃ nd pre, store.get? i = some nd ∧ nd.level = l ∧ f.level = l ∧
        nd.title = f.title ∧
        nd.items = pre ++ (match oc with | none => [] | some c => [Sum.inr c]) ∧
        List.Forall₂ (ItemRel store e) pre f.content ∧
        (∀ c ∈ childRefs pre, i < c) ∧
        i < e ∧
        StackRel store i (some i) rest fs
  | _, _, _, _ => False

/-- The loop invariant tying a `BuildSt` to the pure state. -/
structure Inv {α : Type} (imp : BuildSt α) (R : List (STree α)) (F : List (Frame α)) : Prop where
  hasc : subClosed imp.store 0 imp.store.length
  hsr : StackRel imp.store imp.store.length none imp.stack F
  hroots :
    match imp.stack.getLast? with
    | none => List.Forall₂ (SubtreeRec imp.store imp.store.length) imp.roots R
    | some bot => ∃ rs, imp.roots = rs ++ [bot.2] ∧
        List.Forall₂ (SubtreeRec imp.store bot.2) rs R

theorem SubtreeRec_rebind {α : Type} {store : List (SecNode α)} {e e' r : Nat} {t : STree α}
    (h : SubtreeRec store e r t) (he : e ≤ e') (hcl : subClosed store r e') :
    SubtreeRec store e' r t := by
  obtain ⟨hr, hc, hread⟩ := h
  refine ⟨lt_of_lt_of_le hr he, hcl, ?_⟩
  rw [readout_fuel_agree hc (e - r) r (e' - r) (e - r) (le_refl _) (le_refl _) hr
    (by omega) (le_refl _)]
  exact hread

theorem SubtreeRec_stable {α : Type} {store store' : List (SecNode α)} {e r : Nat} {t : STree α}
    (h : SubtreeRec store e r t)
    (hagree : ∀ q, r ≤ q → q < e → store'.get? q = store.get? q) :
    SubtreeRec store' e r t := by
  obtain ⟨hr, hc, hread⟩ := h
  exact ⟨hr, subClosed_stable hc hagree, by rw [readout_stable hc hagree (e - r) r (le_refl _) hr]; exact hread⟩

theorem ItemRel_rebind {α : Type} {store : List (SecNode α)} {e e' : Nat}
    {x : α ⊕ Nat} {y : α ⊕ STree α}
    (h : ItemRel store e x y) (he : e ≤ e') (hbig : subClosed store 0 e') :
    ItemRel store e' x y := by
  cases x with
  | inl a => cases y with
    | inl b => exact h
    | inr t => exact h.elim
  | inr c => cases y with
    | inl b => exact h.elim
    | inr t => exact SubtreeRec_rebind h he (subClosed_mono_left hbig (Nat.zero_le c))

theorem ItemRel_stable {α : Type} {store store' : List (SecNode α)} {e : Nat}
    {x : α ⊕ Nat} {y : α ⊕ STree α}
    (h : ItemRel store e x y)
    (hagree : ∀ q, q < e → store'.get? q = store.get? q) :
    ItemRel store' e x y := by
  cases x with
  | inl a => cases y with
    | inl b => exact h
    | inr t => exact h.elim
  | inr c => cases y with
    | inl b => exact h.elim
    | inr t => exact SubtreeRec_stable h (fun q _ hq => hagree q hq)

/-- `StackRel` only inspects the store strictly below `e`. -/
theorem StackRel_stable {α : Type} {store store' : List (SecNode α)} :
    ∀ {e : Nat} {oc : Option Nat} {stack : List (Nat × Nat)} {F : List (Frame α)},
      StackRel store e oc stack F →
      (∀ q, q < e → store'.get? q = store.get? q) →
      StackRel store' e oc stack F := by
  intro e oc stack
  induction stack generalizing e oc with
  | nil => intro F h hagree; cases F with
    | nil => trivial
    | cons f fs => exact h.elim
  | cons p rest ih =>
    intro F h hagree
    obtain ⟨l, i⟩ := p
    cases F with
    | nil => exact h.elim
    | cons f fs =>
      obtain ⟨nd, pre, hget, hlv, hflv, htl, hitems, hrel, hlb, hie, htail⟩ := h
      refine ⟨nd, pre, ?_, hlv, hflv, htl, hitems, ?_, hlb, hie, ?_⟩
      · rw [hagree i hie]; exact hget
      · exact List.Forall₂.imp (fun _ _ hxy => ItemRel_stable hxy hagree) hrel
      · exact ih htail (fun q hq => hagree q (lt_trans hq hie))

/-- Rebind the head frame's segment bound to a larger one. -/
theorem StackRel_rebind {α : Type} {store : List (SecNode α)} {e e' : Nat} {oc : Option Nat}
    {stack : List (Nat × Nat)} {F : List (Frame α)}
    (h : StackRel store e oc stack F) (he : e ≤ e') (hbig : subClosed store 0 e') :
    StackRel store e' oc stack F := by
  cases stack with
  | nil => cases F with
    | nil => trivial
    | cons f fs => exact h.elim
  | cons p rest =>
    obtain ⟨l, i⟩ := p
    cases F with
    | nil => exact h.elim
    | cons f fs =>
      obtain ⟨nd, pre, hget, hlv, hflv, htl, hitems, hrel, hlb, hie, htail⟩ := h
      exact ⟨nd, pre, hget, hlv, hflv, htl, hitems,
        List.Forall₂.imp (fun _ _ hxy => ItemRel_rebind hxy he hbig) hrel, hlb,
        lt_of_lt_of_le hie he, htail⟩

theorem StackRel_length {α : Type} {store : List (SecNode α)} :
    ∀ {e : Nat} {oc : Option Nat} {stack : List (Nat × Nat)} {F : List (Frame α)},
      StackRel store e oc stack F → stack.length = F.length := by
  intro e oc stack
  induction stack generalizing e oc with
  | nil => intro F h; cases F with
    | nil => rfl
    | cons f fs => exact h.elim
  | cons p rest ih =>
    intro F h
    obtain ⟨l, i⟩ := p
    cases F with
    | nil => exact h.elim
    | cons f fs =>
      obtain ⟨_, _, _, _, _, _, _, _, _, _, htail⟩ := h
      simpa using ih htail

theorem getLast?_mem {β : Type} : ∀ {l : List β} {a : β}, l.getLast? = some a → a ∈ l := by
  intro l
  induction l with
  | nil => intro a h; simp at h
  | cons x xs ih =>
    intro a h
    cases xs with
    | nil => simp_all
    | cons y ys =>
      rw [List.getLast?_cons_cons] at h
      exact List.mem_cons_of_mem _ (ih h)

/-- All stack indices are bounded by the head segment bound, and the last
(bottom) index bounds them all from below. -/
theorem StackRel_last_le {α : Type} {store : List (SecNode α)} :
    ∀ {e : Nat} {oc : Option Nat} {stack : List (Nat × Nat)} {F : List (Frame α)}
      {bot : Nat × Nat},
      StackRel store e oc stack F → stack.getLast? = some bot →
      ∀ p ∈ stack, bot.2 ≤ p.2 ∧ p.2 < e := by
  intro e oc stack
  induction stack generalizing e oc with
  | nil => intro F bot _ hlast; simp at hlast
  | cons hd rest ih =>
    intro F bot h hlast p hp
    obtain ⟨l, i⟩ := hd
    cases F with
    | nil => exact h.elim
    | cons f fs =>
      obtain ⟨nd, pre, hget, hlv, hflv, htl, hitems, hrel, hlb, hie, htail⟩ := h
      cases rest with
      | nil =>
        simp only [List.getLast?_singleton, Option.some_inj] at hlast
        simp only [List.mem_singleton] at hp
        subst hlast; subst hp
        exact ⟨le_refl _, hie⟩
      | cons q qs =>
        have hlast' : (q :: qs).getLast? = some bot := by
          rw [List.getLast?_cons_cons] at hlast; exact hlast
        have hb : bot.2 < i := (ih htail hlast' bot (getLast?_mem hlast')).2
        rcases List.mem_cons.mp hp with rfl | hp'
        · exact ⟨le_of_lt hb, hie⟩
        · obtain ⟨h1, h2⟩ := ih htail hlast' p hp'
          exact ⟨h1, lt_trans h2 hie⟩

theorem forall₂_append {β γ : Type} {R : β → γ → Prop} :
    ∀ {l₁ u₁ : List β} {l₂ u₂ : List γ}, List.Forall₂ R l₁ l₂ → List.Forall₂ R u₁ u₂ →
      List.Forall₂ R (l₁ ++ u₁) (l₂ ++ u₂) := by
  intro l₁ u₁ l₂ u₂ h hu
  induction h with
  | nil => simpa using hu
  | cons hxy htl ih => exact List.Forall₂.cons hxy ih

theorem childRefs_append {α : Type} (a b : List (α ⊕ Nat)) :
    childRefs (a ++ b) = childRefs a ++ childRefs b := by
  simp [childRefs, List.filterMap_append]

theorem childRefs_map_inl {α : Type} (l : List α) :
    childRefs (l.map Sum.inl) = [] := by
  induction l with
  | nil => rfl
  | cons x xs ih => simpa [childRefs, List.filterMap_cons] using ih

theorem childRefs_inr {α : Type} (c : Nat) :
    childRefs (α := α) [Sum.inr c] = [c] := rfl

theorem forall₂_inl_refl {α : Type} (store : List (SecNode α)) (e : Nat) (l : List α) :
    List.Forall₂ (ItemRel store e) (l.map Sum.inl) (l.map Sum.inl) := by
  induction l with
  | nil => exact List.Forall₂.nil
  | cons x xs ih => exact List.Forall₂.cons rfl ih

theorem popGE_zero : ∀ s : List (Nat × Nat), popGE 0 s = [] := by
  intro s
  induction s with
  | nil => rfl
  | cons p rest ih => obtain ⟨lv, i⟩ := p; simpa [popGE] using ih

theorem get?_append_length {β : Type} (l : List β) (x : β) :
    (l ++ [x]).get? l.length = some x := by
  induction l with
  | nil => rfl
  | cons y ys ih => simpa using ih

/-- Fold a Forall₂-related content list through the readout map. -/
theorem map_items_eq {α : Type} {store : List (SecNode α)} {e i f : Nat} :
    ∀ {pre : List (α ⊕ Nat)} {content : List (α ⊕ STree α)},
      List.Forall₂ (ItemRel store e) pre content →
      (∀ c ∈ childRefs pre, i < c) → e ≤ f + i + 1 →
      (pre.map fun it =>
        match it with
        | Sum.inl a => Sum.inl a
        | Sum.inr j => Sum.inr (readoutN store f j)) = content := by
  intro pre content h
  induction h with
  | nil => intro _ _; rfl
  | @cons x y l₁ l₂ hxy htl ih =>
    intro hlb hef
    have htail := ih (fun c hc => hlb c (by
      cases x with
      | inl a => simpa [childRefs, List.filterMap_cons] using hc
      | inr j => simp only [childRefs, List.filterMap_cons] at hc ⊢; exact List.mem_cons_of_mem _ hc)) hef
    cases x with
    | inl a =>
      cases y with
      | inl b => simp only [List.map_cons, htail]; cases hxy; rfl
      | inr t => exact hxy.elim
    | inr c =>
      cases y with
      | inl b => exact hxy.elim
      | inr t =>
        obtain ⟨hce, hcl, hread⟩ := hxy
        have hic : i < c := hlb c (by simp [childRefs, List.filterMap_cons])
        have : readoutN store f c = t := by
          rw [readout_fuel_agree hcl (e - c) c f (e - c) (le_refl _) (le_refl _) hce
            (by omega) (le_refl _)]
          exact hread
        simp only [List.map_cons, htail, this]

/-- The readout of a store node whose items are fully related to a pure
content list is the corresponding closed tree. -/
theorem readout_of_rel {α : Type} {store : List (SecNode α)} {e i : Nat} {nd : SecNode α}
    {pre : List (α ⊕ Nat)} {content : List (α ⊕ STree α)}
    (hget : store.get? i = some nd) (hitems : nd.items = pre)
    (hrel : List.Forall₂ (ItemRel store e) pre content)
    (hlb : ∀ c ∈ childRefs pre, i < c)
    (hie : i < e) :
    readoutN store (e - i) i = STree.node nd.level nd.title content := by
  obtain ⟨f, hf⟩ : ∃ f, e - i = f + 1 := ⟨e - i - 1, by omega⟩
  rw [hf]
  simp only [readoutN, hget]
  congr 1
  rw [hitems]
  exact map_items_eq hrel hlb (by omega)

/-- Turning the head of a popped-into stack into top form: the node's
trailing open-child reference becomes an ordinary finished child. -/
theorem expose {α : Type} {store : List (SecNode α)} {len e₀ c₀ : Nat}
    {l i : Nat} {rest : List (Nat × Nat)} {f : Frame α} {fs : List (Frame α)} {t : STree α}
    (hbig : subClosed store 0 len) (he : e₀ ≤ len) (hco : e₀ ≤ c₀)
    (hrec : SubtreeRec store len c₀ t)
    (h : StackRel store e₀ (some c₀) ((l, i) :: rest) (f :: fs)) :
    StackRel store len none ((l, i) :: rest)
      ({ f with content := f.content ++ [Sum.inr t] } :: fs) := by
  obtain ⟨nd, pre, hget, hlv, hflv, htl, hitems, hrel, hlb, hie, htail⟩ := h
  refine ⟨nd, pre ++ [Sum.inr c₀], hget, hlv, hflv, htl, by simpa using hitems, ?_, ?_, ?_, htail⟩
  · exact forall₂_append
      (List.Forall₂.imp (fun _ _ hxy => ItemRel_rebind hxy he hbig) hrel)
      (List.Forall₂.cons hrec List.Forall₂.nil)
  · intro c hc
    rw [childRefs_append, childRefs_inr] at hc
    rcases List.mem_append.mp hc with hc | hc
    · exact hlb c hc
    · simp only [List.mem_singleton] at hc
      subst hc
      exact lt_of_lt_of_le hie hco
  · exact lt_of_lt_of_le hie he

/-- Popping correspondence: the imperative `popGE` discards stack
entries whose nodes stay in the store, while the pure `specPop` closes
the matching frames; the results remain related, and a full pop
produces the closed bottom tree as a new root. -/
theorem pop_corr {α : Type} {store : List (SecNode α)} {len : Nat}
    (hbig : subClosed store 0 len) (l : Nat) :
    ∀ (stack : List (Nat × Nat)) (F : List (Frame α)) (R : List (STree α)),
      StackRel store len none stack F →
      (popGE l stack = [] →
        (stack = [] ∧ specPop l R F = (R, [])) ∨
        (∃ bot T, stack.getLast? = some bot ∧ SubtreeRec store len bot.2 T ∧
          specPop l R F = (R ++ [T], []))) ∧
      (∀ p rest', popGE l stack = p :: rest' →
        ∃ F', specPop l R F = (R, F') ∧ StackRel store len none (p :: rest') F' ∧
          (p :: rest').getLast? = stack.getLast?) := by
  intro stack
  induction stack with
  | nil =>
    intro F R h
    cases F with
    | nil =>
      constructor
      · intro _; exact Or.inl ⟨rfl, by simp [specPop]⟩
      · intro p rest' hpop; simp [popGE] at hpop
    | cons f fs => exact h.elim
  | cons hd rest ih =>
    intro F R h
    obtain ⟨lv, i⟩ := hd
    cases F with
    | nil => exact h.elim
    | cons f fs =>
      obtain ⟨nd, pre, hget, hlv, hflv, htl, hitems, hrel, hlb, hie, htail⟩ := h
      by_cases hcmp : l ≤ lv
      · -- the head frame is popped
        have hpop : popGE l ((lv, i) :: rest) = popGE l rest := by
          simp [popGE, hcmp]
        have hrecI : SubtreeRec store len i (closeFrame f) := by
          refine ⟨hie, subClosed_mono_left hbig (Nat.zero_le i), ?_⟩
          have := readout_of_rel hget (by simpa using hitems) hrel hlb hie
          rw [this]
          simp [closeFrame, hlv, hflv, htl]
        cases rest with
        | nil =>
          cases fs with
          | cons g gs => exact htail.elim
          | nil =>
            have hspec : specPop l R [f] = (R ++ [closeFrame f], []) := by
              simp [specPop, hflv, hcmp]
            constructor
            · intro _
              exact Or.inr ⟨(lv, i), closeFrame f, by simp, hrecI, hspec⟩
            · intro p rest' hp
              rw [hpop] at hp
              simp [popGE] at hp
        | cons q qs =>
          cases fs with
          | nil => exact htail.elim
          | cons g gs =>
            obtain ⟨lq, iq⟩ := q
            have hexp : StackRel store len none ((lq, iq) :: qs)
                ({ g with content := g.content ++ [Sum.inr (closeFrame f)] } :: gs) :=
              expose hbig (le_of_lt hie) (le_refl i) hrecI htail
            have hspec : specPop l R (f :: g :: gs) =
                specPop l R ({ g with content := g.content ++ [Sum.inr (closeFrame f)] } :: gs) := by
              rw [specPop.eq_def]
              simp [hflv, hcmp]
            obtain ⟨ih1, ih2⟩ := ih _ R hexp
            constructor
            · intro hze
              rw [hpop] at hze
              rcases ih1 hze with ⟨habs, _⟩ | ⟨bot, T, hlast, hrec, heq⟩
              · exact absurd habs (by simp)
              · refine Or.inr ⟨bot, T, ?_, hrec, by rw [hspec]; exact heq⟩
                rw [List.getLast?_cons_cons]
                exact hlast
            · intro p rest' hp
              rw [hpop] at hp
              obtain ⟨F', heq, hsr, hlast⟩ := ih2 p rest' hp
              refine ⟨F', by rw [hspec]; exact heq, hsr, ?_⟩
              rw [hlast, List.getLast?_cons_cons]
      · -- no pop: the head frame survives
        have hpop : popGE l ((lv, i) :: rest) = (lv, i) :: rest := by
          simp [popGE, hcmp]
        have hspec : specPop l R (f :: fs) = (R, f :: fs) := by
          rw [specPop.eq_def]
          simp [hflv, hcmp]
        constructor
        · intro hze; rw [hpop] at hze; simp at hze
        · intro p rest' hp
          rw [hpop] at hp
          refine ⟨f :: fs, hspec, ?_, by rw [← hp]⟩
          rw [← hp]
          exact ⟨nd, pre, hget, hlv, hflv, htl, hitems, hrel, hlb, hie, htail⟩

theorem StackRel_head_lt {α : Type} {store : List (SecNode α)} {e : Nat} {oc : Option Nat}
    {l i : Nat} {rest : List (Nat × Nat)} {F : List (Frame α)}
    (h : StackRel store e oc ((l, i) :: rest) F) : i < e := by
  cases F with
  | nil => exact h.elim
  | cons f fs =>
    obtain ⟨_, _, _, _, _, _, _, _, _, hie, _⟩ := h
    exact hie

theorem forall₂_itemrel_stable {α : Type} {store store' : List (SecNode α)} {e : Nat} :
    ∀ {pre : List (α ⊕ Nat)} {content : List (α ⊕ STree α)},
      List.Forall₂ (ItemRel store e) pre content →
      (∀ c ∈ childRefs pre, ∀ q, c ≤ q → q < e → store'.get? q = store.get? q) →
      List.Forall₂ (ItemRel store' e) pre content := by
  intro pre content h
  induction h with
  | nil => intro _; exact List.Forall₂.nil
  | @cons x y l₁ l₂ hxy htl ih =>
    intro hagree
    have htail := ih (fun c hc => hagree c (by
      cases x with
      | inl a => simpa [childRefs, List.filterMap_cons] using hc
      | inr j => simp only [childRefs, List.filterMap_cons] at hc ⊢; exact List.mem_cons_of_mem _ hc))
    refine List.Forall₂.cons ?_ htail
    cases x with
    | inl a =>
      cases y with
      | inl b => exact hxy
      | inr t => exact hxy.elim
    | inr c =>
      cases y with
      | inl b => exact hxy.elim
      | inr t =>
        exact SubtreeRec_stable hxy (hagree c (by simp [childRefs, List.filterMap_cons]))

/-- After popping, the surviving top receives the freshly allocated
section as its new open child (`parent.content.append(section)`). -/
theorem attach_open {α : Type} {store : List (SecNode α)} {len : Nat}
    (hlen : len = store.length)
    {lv i : Nat} {rest : List (Nat × Nat)} {F : List (Frame α)}
    (h : StackRel store len none ((lv, i) :: rest) F) (nd' : SecNode α) :
    StackRel (appendChild (store ++ [nd']) i len) len (some len) ((lv, i) :: rest) F := by
  cases F with
  | nil => exact h.elim
  | cons f fs =>
    obtain ⟨nd, pre, hget, hlv, hflv, htl, hitems, hrel, hlb, hie, htail⟩ := h
    have hagree : ∀ q, q < len → q ≠ i →
        (appendChild (store ++ [nd']) i len).get? q = store.get? q := by
      intro q hq hne
      rw [get?_appendChild]
      simp only [if_neg hne]
      exact get?_append_left _ _ _ (by omega)
    refine ⟨{ nd with items := nd.items ++ [Sum.inr len] }, pre, ?_, hlv, hflv, htl, ?_, ?_, ?_, hie, ?_⟩
    · rw [get?_appendChild]
      simp only [if_pos rfl]
      rw [get?_append_left _ _ _ (by omega), hget]
      rfl
    · simp only []
      rw [hitems]
      simp
    · refine forall₂_itemrel_stable hrel ?_
      intro c hc q hcq hq
      exact hagree q hq (by have := hlb c hc; omega)
    · exact hlb
    · refine StackRel_stable htail ?_
      intro q hq
      exact hagree q (by omega) (by omega)

theorem subClosed_snoc {α : Type} {store : List (SecNode α)} {nd : SecNode α}
    (h : subClosed store 0 store.length) (hnd : childRefs nd.items = []) :
    subClosed (store ++ [nd]) 0 (store.length + 1) := by
  intro i nd₁ _ hie hget j hj
  by_cases hi : i < store.length
  · rw [get?_append_left _ _ _ hi] at hget
    have := h i nd₁ (Nat.zero_le _) hi hget j hj
    omega
  · have hieq : i = store.length := by omega
    subst hieq
    rw [get?_append_length] at hget
    cases hget
    rw [hnd] at hj
    simp at hj

theorem subClosed_snocChild {α : Type} {store : List (SecNode α)} {nd : SecNode α} {p : Nat}
    (h : subClosed store 0 store.length) (hnd : childRefs nd.items = [])
    (hp : p < store.length) :
    subClosed (appendChild (store ++ [nd]) p store.length) 0 (store.length + 1) := by
  intro i nd₁ _ hie hget j hj
  rw [get?_appendChild] at hget
  by_cases hip : i = p
  · subst hip
    rw [if_pos rfl, get?_append_left _ _ _ hp] at hget
    cases hmem : store.get? i with
    | none => rw [hmem] at hget; cases hget
    | some nd₀ =>
      rw [hmem] at hget
      rw [Option.map_some', Option.some_inj] at hget
      subst hget
      simp only [childRefs_append, childRefs_inr] at hj
      rcases List.mem_append.mp hj with hj | hj
      · have := h i nd₀ (Nat.zero_le _) hp hmem j hj
        omega
      · simp only [List.mem_singleton] at hj
        subst hj
        omega
  · rw [if_neg hip] at hget
    by_cases hi : i < store.length
    · rw [get?_append_left _ _ _ hi] at hget
      have := h i nd₁ (Nat.zero_le _) hi hget j hj
      omega
    · have hieq : i = store.length := by omega
      subst hieq
      rw [get?_append_length] at hget
      cases hget
      rw [hnd] at hj
      simp at hj

theorem readout_eq_of_rec {α : Type} {store : List (SecNode α)} {e r : Nat} {t : STree α}
    (h : SubtreeRec store e r t) (he : e ≤ store.length) : readout store r = t := by
  obtain ⟨hr, hc, hread⟩ := h
  rw [readout]
  rw [readout_fuel_agree hc (e - r) r store.length (e - r) (le_refl _) (le_refl _) hr
    (by omega) (le_refl _)]
  exact hread

theorem map_readout_eq {α : Type} {store : List (SecNode α)} {e : Nat}
    (he : e ≤ store.length) :
    ∀ {rs : List Nat} {R : List (STree α)},
      List.Forall₂ (SubtreeRec store e) rs R → rs.map (readout store) = R := by
  intro rs R h
  induction h with
  | nil => rfl
  | cons hxy htl ih => simp [readout_eq_of_rec hxy he, ih]

/-- One loop iteration preserves the invariant. -/
theorem step_corr {α : Type} {imp : BuildSt α} {R : List (STree α)} {F : List (Frame α)}
    (hinv : Inv imp R F) (sec : FlatSec α) :
    Inv (buildStep imp sec) (specStep (R, F) sec).1 (specStep (R, F) sec).2 := by
  obtain ⟨hbig, hsr, hroots⟩ := hinv
  have hcorr := pop_corr hbig sec.level imp.stack F R hsr
  cases hpops : popGE sec.level imp.stack with
  | nil =>
    rcases hcorr.1 hpops with ⟨hnil, hspec⟩ | ⟨bot, T, hlast, hrec, hspec⟩
    · -- the stack was already empty: fresh top-level root, roots ++ [idx]
      have himp : buildStep imp sec =
          { store := imp.store ++ [⟨sec.level, sec.title, sec.prims.map Sum.inl⟩],
            roots := imp.roots ++ [imp.store.length],
            stack := [(sec.level, imp.store.length)] } := by
        simp [buildStep, hpops]
      have hst : specStep (R, F) sec =
          (R, [⟨sec.level, sec.title, sec.prims.map Sum.inl⟩]) := by
        simp [specStep, hspec]
      rw [himp, hst]
      have hagree : ∀ q, q < imp.store.length →
          (imp.store ++ [⟨sec.level, sec.title, sec.prims.map Sum.inl⟩] :
            List (SecNode α)).get? q = imp.store.get? q := by
        intro q hq; exact get?_append_left _ _ _ hq
      refine ⟨by simpa using subClosed_snoc hbig (childRefs_map_inl _), ?_, ?_⟩
      · refine ⟨⟨sec.level, sec.title, sec.prims.map Sum.inl⟩, sec.prims.map Sum.inl,
          ?_, rfl, rfl, rfl, by simp, forall₂_inl_refl _ _ _, ?_, by simp, trivial⟩
        · simpa using get?_append_length imp.store _
        · intro c hc; rw [childRefs_map_inl] at hc; simp at hc
      · simp only [List.getLast?_singleton]
        refine ⟨imp.roots, rfl, ?_⟩
        rw [hnil] at hroots
        simp only [List.getLast?_nil] at hroots
        refine List.Forall₂.imp (fun r t hrt => ?_) hroots
        exact SubtreeRec_stable hrt (fun q hrq hq => hagree q hq)
    · -- the whole stack popped: its bottom is finished, new root pushed
      have himp : buildStep imp sec =
          { store := imp.store ++ [⟨sec.level, sec.title, sec.prims.map Sum.inl⟩],
            roots := imp.roots ++ [imp.store.length],
            stack := [(sec.level, imp.store.length)] } := by
        simp [buildStep, hpops]
      have hst : specStep (R, F) sec =
          (R ++ [T], [⟨sec.level, sec.title, sec.prims.map Sum.inl⟩]) := by
        simp [specStep, hspec]
      rw [himp, hst]
      have hagree : ∀ q, q < imp.store.length →
          (imp.store ++ [⟨sec.level, sec.title, sec.prims.map Sum.inl⟩] :
            List (SecNode α)).get? q = imp.store.get? q := by
        intro q hq; exact get?_append_left _ _ _ hq
      have hbotlt : bot.2 < imp.store.length := by
        have := StackRel_last_le hsr hlast bot (getLast?_mem hlast)
        exact this.2
      refine ⟨by simpa using subClosed_snoc hbig (childRefs_map_inl _), ?_, ?_⟩
      · refine ⟨⟨sec.level, sec.title, sec.prims.map Sum.inl⟩, sec.prims.map Sum.inl,
          ?_, rfl, rfl, rfl, by simp, forall₂_inl_refl _ _ _, ?_, by simp, trivial⟩
        · simpa using get?_append_length imp.store _
        · intro c hc; rw [childRefs_map_inl] at hc; simp at hc
      · simp only [List.getLast?_singleton]
        rw [hlast] at hroots
        obtain ⟨rs, hrs, hrel⟩ := hroots
        refine ⟨rs ++ [bot.2], by rw [hrs, List.append_assoc], ?_⟩
        refine forall₂_append ?_ (List.Forall₂.cons ?_ List.Forall₂.nil)
        · refine List.Forall₂.imp (fun r t hrt => ?_) hrel
          refine SubtreeRec_stable ?_ (fun q hrq hq => hagree q (by omega))
          exact SubtreeRec_rebind hrt (le_of_lt hbotlt)
            (subClosed_mono_left hbig (Nat.zero_le _))
        · exact SubtreeRec_stable hrec (fun q hrq hq => hagree q hq)
  | cons ppair rest =>
    obtain ⟨pl, pidx⟩ := ppair
    obtain ⟨F', hspec, hsr', hlast'⟩ := hcorr.2 _ _ hpops
    have hpidx : pidx < imp.store.length := StackRel_head_lt hsr'
    have himp : buildStep imp sec =
        { store := appendChild
            (imp.store ++ [⟨sec.level, sec.title, sec.prims.map Sum.inl⟩]) pidx
            imp.store.length,
          roots := imp.roots,
          stack := (sec.level, imp.store.length) :: (pl, pidx) :: rest } := by
      simp [buildStep, hpops]
    have hst : specStep (R, F) sec =
        (R, ⟨sec.level, sec.title, sec.prims.map Sum.inl⟩ :: F') := by
      simp [specStep, hspec]
    rw [himp, hst]
    have hagree : ∀ q, q < imp.store.length → q ≠ pidx →
        (appendChild (imp.store ++ [⟨sec.level, sec.title, sec.prims.map Sum.inl⟩])
          pidx imp.store.length).get? q = imp.store.get? q := by
      intro q hq hne
      rw [get?_appendChild, if_neg hne]
      exact get?_append_left _ _ _ hq
    refine ⟨by simpa [length_appendChild] using @subClosed_snocChild _ imp.store ⟨sec.level, sec.title, sec.prims.map Sum.inl⟩ pidx hbig (childRefs_map_inl _) hpidx, ?_, ?_⟩
    · refine ⟨⟨sec.level, sec.title, sec.prims.map Sum.inl⟩, sec.prims.map Sum.inl,
        ?_, rfl, rfl, rfl, by simp, forall₂_inl_refl _ _ _, ?_, by simp [length_appendChild], ?_⟩
      · rw [get?_appendChild, if_neg (by omega)]
        simpa using get?_append_length imp.store _
      · intro c hc; rw [childRefs_map_inl] at hc; simp at hc
      · exact attach_open rfl hsr' _
    · rw [List.getLast?_cons_cons, hlast']
      cases hlaststack : imp.stack.getLast? with
      | none =>
        -- then the stack was empty and popGE would be empty, contradiction
        cases hstk : imp.stack with
        | nil => rw [hstk] at hpops; simp [popGE] at hpops
        | cons a as =>
          rw [hstk] at hlaststack
          cases as with
          | nil => simp at hlaststack
          | cons b bs => rw [List.getLast?_cons_cons] at hlaststack
                         exact absurd hlaststack (by
                           cases hx : (b :: bs).getLast? with
                           | none => simp at hx
                           | some v => simp [hx])
      | some bot =>
        rw [hlaststack] at hroots
        obtain ⟨rs, hrs, hrel⟩ := hroots
        have hble : bot.2 ≤ pidx := by
          have := StackRel_last_le hsr' (by rw [hlast']; exact hlaststack)
            (pl, pidx) (List.mem_cons_self _ _)
          exact this.1
        refine ⟨rs, hrs, ?_⟩
        refine List.Forall₂.imp (fun r t hrt => ?_) hrel
        refine SubtreeRec_stable hrt (fun q hrq hq => ?_)
        exact hagree q (by omega) (by omega)

theorem inv_init {α : Type} : Inv (α := α) ⟨[], [], []⟩ [] [] := by
  refine ⟨?_, trivial, ?_⟩
  · intro i nd _ hie _ _ _
    simp at hie
  · simp only [List.getLast?_nil]
    exact List.Forall₂.nil

theorem inv_fold {α : Type} :
    ∀ (flat : List (FlatSec α)) (imp : BuildSt α) (R : List (STree α)) (F : List (Frame α)),
      Inv imp R F →
      Inv (flat.foldl buildStep imp) (flat.foldl specStep (R, F)).1
        (flat.foldl specStep (R, F)).2 := by
  intro flat
  induction flat with
  | nil => intro imp R F h; exact h
  | cons sec rest ih =>
    intro imp R F h
    have hstep := step_corr h sec
    have := ih (buildStep imp sec) (specStep (R, F) sec).1 (specStep (R, F) sec).2 hstep
    simpa using this

/-- The store-based loop and the pure stack pass reconstruct the same
forest. -/
theorem build_eq_spec {α : Type} (flat : List (FlatSec α)) :
    buildHierarchy flat = specReconstruct flat := by
  have hinv := inv_fold flat ⟨[], [], []⟩ [] [] inv_init
  set imp := flat.foldl buildStep (⟨[], [], []⟩ : BuildSt α) with himp
  set RF := flat.foldl specStep (([], []) : List (STree α) × List (Frame α)) with hRF
  obtain ⟨hbig, hsr, hroots⟩ := hinv
  have hcorr := pop_corr hbig 0 imp.stack RF.2 RF.1 hsr
  have hz := popGE_zero imp.stack
  rcases hcorr.1 hz with ⟨hnil, hspec⟩ | ⟨bot, T, hlast, hrec, hspec⟩
  · rw [hnil] at hroots
    simp only [List.getLast?_nil] at hroots
    have : imp.roots.map (readout imp.store) = RF.1 :=
      map_readout_eq (le_refl _) hroots
    simp only [buildHierarchy, specReconstruct, buildHierarchySt, ← himp, ← hRF, hspec]
    exact this
  · rw [hlast] at hroots
    obtain ⟨rs, hrs, hrel⟩ := hroots
    have hbotlt : bot.2 < imp.store.length :=
      (StackRel_last_le hsr hlast bot (getLast?_mem hlast)).2
    have h1 : rs.map (readout imp.store) = RF.1 :=
      map_readout_eq (le_of_lt hbotlt) hrel
    have h2 : readout imp.store bot.2 = T := readout_eq_of_rec hrec (le_refl _)
    simp only [buildHierarchy, specReconstruct, buildHierarchySt, ← himp, ← hRF, hspec]
    rw [hrs]
    simp [h1, h2]

/-! ## Expression-tree codec (`_ast_to_kleis` / `_parse_ast_expr`)

The EditorNode AST dict (`{"Object": ...}`, `{"Const": ...}`,
`{"Operation": {"name": ..., "args": [...]}}`, `{"Placeholder": ...}`,
`{"List": [...]}`) as a tagged union; the Python value `None` is
`Option.none` at the call sites. -/

inductive AstNode where
  | object (name : Str)
  | constE (v : Str)
  | op (name : Str) (args : List AstNode)
  | placeholder (id : Nat) (hint : Str)
  | listNode (items : List AstNode)

/-- Python `s.replace(old, new)` for a single-character `old`. -/
def pyReplaceChar (c : Char) (r : Str) (s : Str) : Str :=
  s.flatMap fun x => if x = c then r else [x]

/-- `_to_kleis_string` on a (non-`None`) string: escape backslashes,
quotes and newlines, then wrap in double quotes. -/
def to_kleis_string (s : Str) : Str :=
  let e := pyReplaceChar '\n' ['\\', 'n']
    (pyReplaceChar '\"' ['\\', '\"'] (pyReplaceChar '\\' ['\\', '\\'] s))
  '\"' :: e ++ ['\"']

/-- Decimal rendering of the placeholder id (Python f-string on an int). -/
def natStr (n : Nat) : Str := (Nat.repr n).data

/-- Python `sep.join(xs)`. -/
def pyJoin (sep : Str) : List Str → Str
  | [] => []
  | [x] => x
  | x :: y :: rest => x ++ sep ++ pyJoin sep (y :: rest)

mutual

/-- `_ast_to_kleis` on a present AST dict (every recursive call site in
the source passes a dict, never `None`; the tagged union covers every
dict shape the encoder dispatches on). -/
def ast_to_kleis_node : AstNode → Str
  | .object s => ("EObject(").data ++ to_kleis_string s ++ [')']
  | .constE v => ("EConst(").data ++ to_kleis_string v ++ [')']
  | .op name args =>
      ("EOp(").data ++ to_kleis_string name ++ (", List(").data ++
        pyJoin ((", ").data) (ast_to_kleis_list args) ++
        ("), \"\", NoMeta)").data
  | .placeholder id hint =>
      ("EPlaceholder(Placeholder(").data ++ natStr id ++ ((", ").data) ++
        to_kleis_string hint ++ ("))").data
  | .listNode items =>
      ("EList(List(").data ++
        pyJoin ((", ").data) (ast_to_kleis_list items) ++
        ("))").data

/-- `", ".join(self._ast_to_kleis(arg) for arg in args)`, the element list. -/
def ast_to_kleis_list : List AstNode → List Str
  | [] => []
  | a :: rest => ast_to_kleis_node a :: ast_to_kleis_list rest

end

/-- `_ast_to_kleis`: encode an optional AST into Kleis constructor text. -/
def ast_to_kleis : Option AstNode → Str
  | none => ("None").data
  | some a => ast_to_kleis_node a

/-- Python `s.find(pat)`: index of the leftmost occurrence. -/
def findSub (pat : Str) : Str → Option Nat
  | [] => if startsWith pat [] then some 0 else none
  | c :: rest =>
      if startsWith pat (c :: rest) then some 0
      else (findSub pat rest).map (· + 1)

/-- The character scan of `_extract_list_args`: split the text after
`List(` into argument slices on depth-0 commas, stopping at the depth-0
closing parenthesis; an unterminated trailing slice is dropped, exactly
as the Python loop never flushes it. -/
def scanArgs : Str → Nat → Str → List Str
  | [], _, _ => []
  | c :: rest, depth, cur =>
    if c = '(' then scanArgs rest (depth + 1) (cur ++ [c])
    else if c = ')' then
      if depth = 0 then [cur]
      else scanArgs rest (depth - 1) (cur ++ [c])
    else if c = ',' ∧ depth = 0 then cur :: scanArgs rest 0 []
    else scanArgs rest depth (cur ++ [c])

/-- `_extract_list_args`: locate the first `List(`, scan its argument
slices, strip each, skip empties, parse the rest and keep successes. -/
def extract_list_args (parseF : Str → Option AstNode) (s : Str) : List AstNode :=
  match findSub (("List(").data) s with
  | none => []
  | some i =>
      (scanArgs (s.drop (i + 5)) 0 []).filterMap fun chunk =>
        let a := pstrip chunk
        if a = [] then none else parseF a

/-- The anchored match `Ctor\("([^"]*)"\)` (with `ctor` covering the
text up to and including the opening quote): the group is the longest
quote-free span, which must be followed by `")`. -/
def matchCtorStr (ctor : Str) (s : Str) : Option Str :=
  if startsWith ctor s then
    let rest := s.drop ctor.length
    let name := rest.takeWhile (· ≠ '\"')
    let after := rest.drop name.length
    if startsWith (("\")").data) after then some name else none
  else none

/-- Python regex `\s` (ASCII part). -/
def isRegexSpace (c : Char) : Bool := isPySpace c

/-- The anchored match `EOp\("([^"]*)",\s*List\(`. -/
def matchEOpName (s : Str) : Option Str :=
  if startsWith (("EOp(\"").data) s then
    let rest := s.drop 5
    let name := rest.takeWhile (· ≠ '\"')
    let after := rest.drop name.length
    match after with
    | '\"' :: ',' :: after2 =>
        if startsWith (("List(").data) (after2.dropWhile isRegexSpace) then some name
        else none
    | _ => none
  else none

/-- `_parse_ast_expr`, fuelled (the Python recursion always descends
into strict substrings, so `length + 1` fuel suffices, see
`parse_ast`).  The Python body is a chain of `if` statements whose
prefixes (`None`, `EObject(`, `EConst(`, `EOp(`) are mutually
exclusive, so a failed anchored match after a successful prefix test
falls through to the final `return None`. -/
def parse_ast_expr : Nat → Str → Option AstNode
  | 0, _ => none
  | fuel + 1, s0 =>
    let s := pstrip s0
    if startsWith (("None").data) s then none
    else if startsWith (("EObject(").data) s then
      match matchCtorStr (("EObject(\"").data) s with
      | some name => some (.object name)
      | none => none
    else if startsWith (("EConst(").data) s then
      match matchCtorStr (("EConst(\"").data) s with
      | some v => some (.constE v)
      | none => none
    else if startsWith (("EOp(").data) s then
      match matchEOpName s with
      | some name => some (.op name (extract_list_args (parse_ast_expr fuel) s))
      | none => none
    else none

/-- The decoder as called on a complete text. -/
def parse_ast (s : Str) : Option AstNode := parse_ast_expr (s.length + 1) s

/-! ### The round-trip fragment

Strings free of the quote, backslash, newline and parenthesis
characters survive `_to_kleis_string` unchanged and do not confuse the
depth scan; `Symbol`/`Literal`/`Apply` trees over such strings are the
fragment on which decode inverts encode. -/

def goodChar (c : Char) : Bool :=
  c ≠ '\"' && c ≠ '\\' && c ≠ '\n' && c ≠ '(' && c ≠ ')'

def goodStr (s : Str) : Bool := s.all goodChar

/-- Trees built from `EObject`/`EConst`/`EOp` over benign strings. -/
inductive GoodTree : AstNode → Prop where
  | object {name : Str} : goodStr name = true → GoodTree (.object name)
  | constE {v : Str} : goodStr v = true → GoodTree (.constE v)
  | op {name : Str} {args : List AstNode} : goodStr name = true →
      (∀ a ∈ args, GoodTree a) → GoodTree (.op name args)

mutual

/-- Nesting depth of an AST (the decoder consumes one unit of fuel per
level). -/
def astDepth : AstNode → Nat
  | .object _ => 1
  | .constE _ => 1
  | .placeholder _ _ => 1
  | .op _ args => 1 + astDepthList args
  | .listNode items => 1 + astDepthList items

def astDepthList : List AstNode → Nat
  | [] => 0
  | a :: rest => max (astDepth a) (astDepthList rest)

end

/-- The depth-scan semantics of `scanArgs`: final depth after a span
containing no splitting comma and no terminating parenthesis. -/
def consume : Str → Nat → Option Nat
  | [], d => some d
  | c :: rest, d =>
    if c = '(' then consume rest (d + 1)
    else if c = ')' then (if d = 0 then none else consume rest (d - 1))
    else if c = ',' ∧ d = 0 then none
    else consume rest d

theorem pyReplaceChar_id {c : Char} {r s : Str} (h : ∀ x ∈ s, x ≠ c) :
    pyReplaceChar c r s = s := by
  induction s with
  | nil => rfl
  | cons x xs ih =>
    simp only [pyReplaceChar, List.flatMap_cons,
      if_neg (h x (List.mem_cons_self _ _))]
    have := ih fun y hy => h y (List.mem_cons_of_mem _ hy)
    simp only [pyReplaceChar] at this
    rw [this]
    rfl

theorem goodStr_mem {s : Str} (h : goodStr s = true) {x : Char} (hx : x ∈ s) :
    x ≠ '\"' ∧ x ≠ '\\' ∧ x ≠ '\n' ∧ x ≠ '(' ∧ x ≠ ')' := by
  have := List.all_eq_true.mp h x hx
  simp only [goodChar, Bool.and_eq_true, decide_eq_true_eq] at this
  tauto

theorem to_kleis_string_good {s : Str} (h : goodStr s = true) :
    to_kleis_string s = '\"' :: s ++ ['\"'] := by
  unfold to_kleis_string
  rw [pyReplaceChar_id (fun x hx => (goodStr_mem h hx).2.1),
    pyReplaceChar_id (fun x hx => (goodStr_mem h hx).1),
    pyReplaceChar_id (fun x hx => (goodStr_mem h hx).2.2.1)]

theorem enc_shape (t : AstNode) :
    ∃ u : Str, ast_to_kleis_node t = 'E' :: u ++ [')'] := by
  cases t with
  | object s =>
    refine ⟨(("Object(").data ++ to_kleis_string s), ?_⟩
    simp [ast_to_kleis_node]
  | constE v =>
    refine ⟨(("Const(").data ++ to_kleis_string v), ?_⟩
    simp [ast_to_kleis_node]
  | op name args =>
    refine ⟨("Op(").data ++ to_kleis_string name ++ (", List(").data ++
      pyJoin ((", ").data) (ast_to_kleis_list args) ++ ("), \"\", NoMeta").data, ?_⟩
    simp [ast_to_kleis_node]
  | placeholder id hint =>
    refine ⟨("Placeholder(Placeholder(").data ++ natStr id ++ ((", ").data) ++
      to_kleis_string hint ++ (")").data, ?_⟩
    simp [ast_to_kleis_node]
  | listNode items =>
    refine ⟨("List(List(").data ++ pyJoin ((", ").data) (ast_to_kleis_list items) ++
      (")").data, ?_⟩
    simp [ast_to_kleis_node]

theorem lstrip_cons_of_not_space {c : Char} {s : Str} (h : isPySpace c = false) :
    lstrip (c :: s) = c :: s := by
  simp [lstrip, List.dropWhile_cons, h]

theorem rstrip_append_of_not_space {c : Char} {s : Str} (h : isPySpace c = false) :
    rstrip (s ++ [c]) = s ++ [c] := by
  simp [rstrip, List.dropWhile_cons, h]

theorem pstrip_enc (t : AstNode) : pstrip (ast_to_kleis_node t) = ast_to_kleis_node t := by
  obtain ⟨u, hu⟩ := enc_shape t
  rw [hu, pstrip]
  rw [show 'E' :: u ++ [')'] = ('E' :: u) ++ [')'] from rfl]
  rw [show lstrip (('E' :: u) ++ [')']) = ('E' :: u) ++ [')'] from
    lstrip_cons_of_not_space (by decide)]
  exact rstrip_append_of_not_space (by decide)

/-- Spaces-only prefixes strip away; the encoded body is untouched. -/
theorem pstrip_spaces_append {cur : Str} (hcur : ∀ x ∈ cur, isPySpace x = true)
    (t : AstNode) : pstrip (cur ++ ast_to_kleis_node t) = ast_to_kleis_node t := by
  induction cur with
  | nil => simpa using pstrip_enc t
  | cons c cs ih =>
    obtain ⟨u, hu⟩ := enc_shape t
    have hstep : lstrip ((c :: cs) ++ ast_to_kleis_node t) =
        lstrip (cs ++ ast_to_kleis_node t) := by
      simp [lstrip, List.dropWhile_cons, hcur c (List.mem_cons_self _ _)]
    rw [pstrip, hstep, ← pstrip]
    exact ih fun x hx => hcur x (List.mem_cons_of_mem _ hx)

theorem pstrip_spaces {cur : Str} (hcur : ∀ x ∈ cur, isPySpace x = true) :
    pstrip cur = [] := by
  induction cur with
  | nil => rfl
  | cons c cs ih =>
    have hstep : lstrip (c :: cs) = lstrip cs := by
      simp [lstrip, List.dropWhile_cons, hcur c (List.mem_cons_self _ _)]
    rw [pstrip, hstep, ← pstrip]
    exact ih fun x hx => hcur x (List.mem_cons_of_mem _ hx)

theorem consume_append (a : Str) :
    ∀ (b : Str) (d : Nat), consume (a ++ b) d = (consume a d).bind (consume b) := by
  induction a with
  | nil => intro b d; rfl
  | cons c rest ih =>
    intro b d
    by_cases h1 : c = '('
    · subst h1; simp [consume, ih]
    · by_cases h2 : c = ')'
      · subst h2
        by_cases h3 : d = 0
        · subst h3; simp [consume]
        · simp [consume, h3, ih]
      · by_cases h3 : c = ',' ∧ d = 0
        · simp [consume, h1, h2, h3]
        · simp [consume, h1, h2, h3, ih]

theorem scanArgs_cons (c : Char) (rest : Str) (d : Nat) (cur : Str) :
    scanArgs (c :: rest) d cur =
      if c = '(' then scanArgs rest (d + 1) (cur ++ [c])
      else if c = ')' then
        (if d = 0 then [cur] else scanArgs rest (d - 1) (cur ++ [c]))
      else if c = ',' ∧ d = 0 then cur :: scanArgs rest 0 []
      else scanArgs rest d (cur ++ [c]) := rfl

theorem consume_cons (c : Char) (rest : Str) (d : Nat) :
    consume (c :: rest) d =
      if c = '(' then consume rest (d + 1)
      else if c = ')' then (if d = 0 then none else consume rest (d - 1))
      else if c = ',' ∧ d = 0 then none
      else consume rest d := rfl

theorem scanArgs_skip {a : Str} :
    ∀ {d d' : Nat}, consume a d = some d' →
      ∀ (rest cur : Str), scanArgs (a ++ rest) d cur = scanArgs rest d' (cur ++ a) := by
  induction a with
  | nil =>
    intro d d' h rest cur
    simp only [consume, Option.some_inj] at h
    subst h
    simp
  | cons c tl ih =>
    intro d d' h rest cur
    rw [consume_cons] at h
    rw [List.cons_append, scanArgs_cons]
    by_cases h1 : c = '('
    · rw [if_pos h1] at h ⊢
      rw [ih h rest (cur ++ [c])]
      subst h1
      simp
    · rw [if_neg h1] at h ⊢
      by_cases h2 : c = ')'
      · rw [if_pos h2] at h ⊢
        by_cases h3 : d = 0
        · rw [if_pos h3] at h; cases h
        · rw [if_neg h3] at h ⊢
          rw [ih h rest (cur ++ [c])]
          subst h2
          simp
      · rw [if_neg h2] at h ⊢
        by_cases h3 : c = ',' ∧ d = 0
        · rw [if_pos h3] at h; cases h
        · rw [if_neg h3] at h ⊢
          rw [ih h rest (cur ++ [c])]
          simp

theorem consume_no_paren {s : Str} (h : ∀ x ∈ s, x ≠ '(' ∧ x ≠ ')') :
    ∀ d : Nat, 0 < d → consume s d = some d := by
  induction s with
  | nil => intro d _; rfl
  | cons c tl ih =>
    intro d hd
    have hc := h c (List.mem_cons_self _ _)
    have htl := ih fun x hx => h x (List.mem_cons_of_mem _ hx)
    have hnot : ¬ (c = ',' ∧ d = 0) := fun hand => by omega
    simp only [consume, if_neg hc.1, if_neg hc.2, if_neg hnot]
    exact htl d hd

@[simp] theorem data_none : ("None").data = ['N', 'o', 'n', 'e'] := rfl
@[simp] theorem data_eobject : ("EObject(").data = ['E', 'O', 'b', 'j', 'e', 'c', 't', '('] := rfl
@[simp] theorem data_eobject_q : ("EObject(\"").data = ['E', 'O', 'b', 'j', 'e', 'c', 't', '(', '\"'] := rfl
@[simp] theorem data_econst : ("EConst(").data = ['E', 'C', 'o', 'n', 's', 't', '('] := rfl
@[simp] theorem data_econst_q : ("EConst(\"").data = ['E', 'C', 'o', 'n', 's', 't', '(', '\"'] := rfl
@[simp] theorem data_eop : ("EOp(").data = ['E', 'O', 'p', '('] := rfl
@[simp] theorem data_eop_q : ("EOp(\"").data = ['E', 'O', 'p', '(', '\"'] := rfl
@[simp] theorem data_listp : ("List(").data = ['L', 'i', 's', 't', '('] := rfl
@[simp] theorem data_qrp : ("\")").data = ['\"', ')'] := rfl
@[simp] theorem data_comma_space : ((", ").data) = [',', ' '] := rfl
@[simp] theorem data_comma_list : ((", List(").data) = [',', ' ', 'L', 'i', 's', 't', '('] := rfl
@[simp] theorem data_op_tail : ("), \"\", NoMeta)").data =
    [')', ',', ' ', '\"', '\"', ',', ' ', 'N', 'o', 'M', 'e', 't', 'a', ')'] := rfl

theorem consume_quoted {s : Str} (h : goodStr s = true) (d : Nat) :
    consume ('\"' :: s ++ ['\"']) (d + 1) = some (d + 1) := by
  rw [List.cons_append, consume_cons, if_neg (by decide), if_neg (by decide),
    if_neg (by simp), consume_append]
  rw [consume_no_paren (fun x hx => ⟨(goodStr_mem h hx).2.2.2.1, (goodStr_mem h hx).2.2.2.2⟩)
    (d + 1) (by omega)]
  simp [consume]

theorem consume_join {encs : List Str}
    (h : ∀ e ∈ encs, ∀ d, consume e d = some d) :
    ∀ d, 0 < d → consume (pyJoin ((", ").data) encs) d = some d := by
  induction encs with
  | nil => intro d _; rfl
  | cons x xs ih =>
    intro d hd
    cases xs with
    | nil => exact h x (List.mem_cons_self _ _) d
    | cons y ys =>
      rw [pyJoin, consume_append, consume_append,
        h x (List.mem_cons_self _ _) d]
      have hsep : consume ((", ").data) d = some d := by
        rw [data_comma_space, consume_cons, if_neg (by decide), if_neg (by decide),
          if_neg (by simp; omega)]
        simp [consume]
      simp only [Option.some_bind] at *
      rw [hsep]
      simp only [Option.some_bind]
      exact ih (fun e he d => h e (List.mem_cons_of_mem _ he) d) d hd

theorem mem_ast_to_kleis_list {args : List AstNode} {e : Str} :
    e ∈ ast_to_kleis_list args → ∃ a ∈ args, e = ast_to_kleis_node a := by
  induction args with
  | nil => intro h; simp [ast_to_kleis_list] at h
  | cons a rest ih =>
    intro h
    rw [ast_to_kleis_list] at h
    rcases List.mem_cons.mp h with rfl | h
    · exact ⟨a, List.mem_cons_self _ _, rfl⟩
    · obtain ⟨b, hb, rfl⟩ := ih h
      exact ⟨b, List.mem_cons_of_mem _ hb, rfl⟩

theorem consume_enc : ∀ {t : AstNode}, GoodTree t →
    ∀ d, consume (ast_to_kleis_node t) d = some d := by
  intro t h
  induction h with
  | @object name hg =>
    intro d
    rw [ast_to_kleis_node, to_kleis_string_good hg, consume_append, consume_append]
    rw [show consume (("EObject(").data) d = some (d + 1) by simp [consume]]
    simp only [Option.some_bind]
    rw [consume_quoted hg d]
    simp [consume]
  | @constE v hg =>
    intro d
    rw [ast_to_kleis_node, to_kleis_string_good hg, consume_append, consume_append]
    rw [show consume (("EConst(").data) d = some (d + 1) by simp [consume]]
    simp only [Option.some_bind]
    rw [consume_quoted hg d]
    simp [consume]
  | @op name args hg hargs ih =>
    intro d
    rw [ast_to_kleis_node, to_kleis_string_good hg]
    rw [consume_append, consume_append, consume_append, consume_append]
    rw [show consume (("EOp(").data) d = some (d + 1) by simp [consume]]
    simp only [Option.some_bind]
    rw [consume_quoted hg d]
    simp only [Option.some_bind]
    rw [show consume ((", List(").data) (d + 1) = some (d + 2) by simp [consume]]
    simp only [Option.some_bind]
    have hjoin : consume (pyJoin ((", ").data) (ast_to_kleis_list args)) (d + 2) =
        some (d + 2) := by
      refine consume_join ?_ (d + 2) (by omega)
      intro e he d
      obtain ⟨a, ha, rfl⟩ := mem_ast_to_kleis_list he
      exact ih a ha d
    rw [hjoin]
    simp only [Option.some_bind]
    rw [consume_cons, if_neg (by decide), if_pos rfl, if_neg (by omega)]
    rw [show d + 2 - 1 = d + 1 from rfl]
    rw [consume_cons, if_neg (by decide), if_neg (by decide), if_neg (by simp)]
    rw [show consume ([' ', '\"', '\"', ',', ' ', 'N', 'o', 'M', 'e', 't', 'a', ')']) (d + 1) =
      consume [')'] (d + 1) by
        rw [consume_cons, if_neg (by decide), if_neg (by decide), if_neg (by simp)]
        rw [consume_cons, if_neg (by decide), if_neg (by decide), if_neg (by simp)]
        rw [consume_cons, if_neg (by decide), if_neg (by decide), if_neg (by simp)]
        rw [consume_cons, if_neg (by decide), if_neg (by decide), if_neg (by simp)]
        rw [consume_cons, if_neg (by decide), if_neg (by decide), if_neg (by simp)]
        rw [consume_cons, if_neg (by decide), if_neg (by decide), if_neg (by simp)]
        rw [consume_cons, if_neg (by decide), if_neg (by decide), if_neg (by simp)]
        rw [consume_cons, if_neg (by decide), if_neg (by decide), if_neg (by simp)]
        rw [consume_cons, if_neg (by decide), if_neg (by decide), if_neg (by simp)]
        rw [consume_cons, if_neg (by decide), if_neg (by decide), if_neg (by simp)]
        rw [consume_cons, if_neg (by decide), if_neg (by decide), if_neg (by simp)]]
    rw [consume_cons, if_neg (by decide), if_pos rfl, if_neg (by omega)]
    simp [consume]

theorem enc_ne_nil (t : AstNode) : ast_to_kleis_node t ≠ [] := by
  obtain ⟨u, hu⟩ := enc_shape t
  rw [hu]
  simp

theorem takeWhile_append_stop {p : Char → Bool} {u : Str} {c : Char} {w : Str}
    (hu : ∀ x ∈ u, p x = true) (hc : p c = false) :
    (u ++ c :: w).takeWhile p = u := by
  induction u with
  | nil => simp [List.takeWhile_cons, hc]
  | cons x xs ih =>
    simp only [List.cons_append, List.takeWhile_cons, hu x (List.mem_cons_self _ _)]
    rw [ih fun y hy => hu y (List.mem_cons_of_mem _ hy)]
    simp

/-- One fully parsed argument list: scanning the joined encodings up to
the closing parenthesis and parsing each stripped slice recovers the
arguments. -/
theorem scan_parse_join {fuel : Nat} :
    ∀ (args : List AstNode) (cur : Str) (tail : Str),
      (∀ x ∈ cur, isPySpace x = true) →
      (∀ a ∈ args, parse_ast_expr fuel (ast_to_kleis_node a) = some a) →
      (∀ a ∈ args, GoodTree a) →
      (scanArgs (pyJoin ((", ").data) (ast_to_kleis_list args) ++ ')' :: tail) 0 cur).filterMap
        (fun chunk =>
          let a := pstrip chunk
          if a = [] then none else parse_ast_expr fuel a) = args := by
  intro args
  induction args with
  | nil =>
    intro cur tail hcur _ _
    rw [show ast_to_kleis_list [] = [] from rfl, show pyJoin ((", ").data) [] = [] from rfl,
      List.nil_append, scanArgs_cons, if_neg (by decide), if_pos rfl, if_pos rfl]
    simp [pstrip_spaces hcur]
  | cons a rest ih =>
    intro cur tail hcur hparse hgood
    rw [show ast_to_kleis_list (a :: rest) = ast_to_kleis_node a :: ast_to_kleis_list rest
      from rfl]
    cases rest with
    | nil =>
      rw [show ast_to_kleis_list ([] : List AstNode) = [] from rfl]
      rw [show pyJoin ((", ").data) [ast_to_kleis_node a] = ast_to_kleis_node a from rfl]
      rw [scanArgs_skip (consume_enc (hgood a (List.mem_cons_self _ _)) 0) (')' :: tail) cur]
      rw [scanArgs_cons, if_neg (by decide), if_pos rfl, if_pos rfl]
      rw [List.filterMap_cons]
      simp only [pstrip_spaces_append hcur a]
      rw [if_neg (enc_ne_nil a), hparse a (List.mem_cons_self _ _)]
      rfl
    | cons b rest2 =>
      rw [show pyJoin ((", ").data) (ast_to_kleis_node a :: ast_to_kleis_list (b :: rest2)) =
        ast_to_kleis_node a ++ (", ").data ++
          pyJoin ((", ").data) (ast_to_kleis_list (b :: rest2)) from rfl]
      rw [List.append_assoc, List.append_assoc]
      rw [scanArgs_skip (consume_enc (hgood a (List.mem_cons_self _ _)) 0) _ cur]
      rw [data_comma_space]
      rw [show ([',', ' '] : Str) ++
        (pyJoin ((", ").data) (ast_to_kleis_list (b :: rest2)) ++ ')' :: tail) =
        ',' :: ' ' :: (pyJoin ((", ").data) (ast_to_kleis_list (b :: rest2)) ++ ')' :: tail)
        from rfl]
      rw [scanArgs_cons, if_neg (by decide), if_neg (by decide), if_pos (by simp)]
      rw [scanArgs_cons, if_neg (by decide), if_neg (by decide), if_neg (by simp)]
      rw [List.filterMap_cons]
      simp only [pstrip_spaces_append hcur a]
      rw [if_neg (enc_ne_nil a), hparse a (List.mem_cons_self _ _)]
      have := ih ([' ']) tail (by intro x hx; simp at hx; subst hx; rfl)
        (fun x hx => hparse x (List.mem_cons_of_mem _ hx))
        (fun x hx => hgood x (List.mem_cons_of_mem _ hx))
      simp only [List.nil_append]
      rw [this]

theorem startsWith_List_paren {s : Str}
    (h : startsWith (("List(").data) s = true) : s.get? 4 = some '(' := by
  obtain ⟨t, rfl⟩ := List.isPrefixOf_iff_prefix.mp h
  rfl

theorem ne_true_of_eq_false {b : Bool} (h : b = false) : ¬ (b = true) := by
  simp [h]

theorem ite_cond_false {γ : Sort _} {b : Bool} {a c : γ} (h : b = false) :
    (if b then a else c) = c := by
  subst h
  rfl

theorem startsWith_self_append (p x : Str) : startsWith p (p ++ x) = true :=
  List.isPrefixOf_iff_prefix.mpr (List.prefix_append p x)

theorem findSub_cons (pat : Str) (c : Char) (rest : Str) :
    findSub pat (c :: rest) = if startsWith pat (c :: rest) then some 0
      else (findSub pat rest).map (· + 1) := rfl

/-- Scanning a parenthesis-free span produces no `List(` hit: any hit
would need `(` as its fifth character. -/
theorem findSub_List_name (rest : Str) :
    ∀ (name : Str), (∀ x ∈ name, x ≠ '(') →
      findSub (("List(").data)
        (name ++ '\"' :: ',' :: ' ' :: (("List(").data ++ rest)) =
        some (name.length + 3) := by
  intro name
  induction name with
  | nil =>
    intro _
    rw [List.nil_append, findSub_cons, ite_cond_false (show startsWith (("List(").data)
      ('\"' :: ',' :: ' ' :: (("List(").data ++ rest)) = false from rfl)]
    rw [findSub_cons, ite_cond_false (show startsWith (("List(").data)
      (',' :: ' ' :: (("List(").data ++ rest)) = false from rfl)]
    rw [findSub_cons, ite_cond_false (show startsWith (("List(").data)
      (' ' :: (("List(").data ++ rest)) = false from rfl)]
    rw [show ((("List(").data ++ rest) : Str) =
      'L' :: 'i' :: 's' :: 't' :: '(' :: rest from rfl, findSub_cons,
      if_pos (show startsWith (("List(").data) ('L' :: 'i' :: 's' :: 't' :: '(' :: rest) = true
        from startsWith_self_append (("List(").data) rest)]
    rfl
  | cons c name ih =>
    intro hpar
    rw [List.cons_append, findSub_cons]
    rw [if_neg ?hsw]
    case hsw =>
      intro hsw
      have h4 := startsWith_List_paren hsw
      rw [show (c :: (name ++ '\"' :: ',' :: ' ' :: (("List(").data ++ rest))).get? 4 =
        (name ++ '\"' :: ',' :: ' ' :: (("List(").data ++ rest)).get? 3 from rfl] at h4
      by_cases h3 : 3 < name.length
      · rw [List.get?_append h3] at h4
        have hmem : '(' ∈ name := List.get?_mem h4
        exact absurd rfl (hpar '(' (List.mem_cons_of_mem _ hmem))
      · rw [List.get?_append_right (by omega)] at h4
        have hj3 : 3 - name.length ≤ 3 := by omega
        set j := 3 - name.length with hj
        clear_value j
        interval_cases j <;> simp at h4
    rw [ih (fun x hx => hpar x (List.mem_cons_of_mem _ hx))]
    simp only [Option.map_some', Option.some_inj, List.length_cons]


theorem goodStr_no_quote {s : Str} (h : goodStr s = true) : ∀ x ∈ s, x ≠ '\"' :=
  fun x hx => (goodStr_mem h hx).1

theorem goodStr_no_paren {s : Str} (h : goodStr s = true) : ∀ x ∈ s, x ≠ '(' :=
  fun x hx => (goodStr_mem h hx).2.2.2.1

theorem takeWhile_no_quote {name : Str} (hq : ∀ x ∈ name, x ≠ '\"') (w : Str) :
    (name ++ '\"' :: w).takeWhile (fun x => x ≠ '\"') = name :=
  takeWhile_append_stop (fun x hx => by simp [hq x hx]) (by simp)

/-- `matchCtorStr` on a well-formed encoding: recovers the quoted name. -/
theorem matchCtorStr_enc {ctor : Str} {name : Str} (hq : ∀ x ∈ name, x ≠ '\"') (w : Str) :
    matchCtorStr ctor (ctor ++ (name ++ '\"' :: ')' :: w)) = some name := by
  simp only [matchCtorStr]
  rw [if_pos (startsWith_self_append ctor _)]
  rw [List.drop_left]
  rw [takeWhile_no_quote hq]
  rw [List.drop_left]
  rw [if_pos (show startsWith (("\")").data) ('\"' :: ')' :: w) = true from
    startsWith_self_append (("\")").data) w)]

/-- `matchEOpName` on a well-formed `EOp` encoding. -/
theorem matchEOpName_enc {name : Str} (hq : ∀ x ∈ name, x ≠ '\"') (X : Str) :
    matchEOpName ('E' :: 'O' :: 'p' :: '(' :: '\"' ::
      (name ++ '\"' :: ',' :: ' ' :: (("List(").data ++ X))) = some name := by
  simp only [matchEOpName]
  rw [if_pos (show startsWith (("EOp(\"").data)
    ('E' :: 'O' :: 'p' :: '(' :: '\"' :: (name ++ '\"' :: ',' :: ' ' :: (("List(").data ++ X))) =
    true from startsWith_self_append (("EOp(\"").data) _)]
  rw [show ('E' :: 'O' :: 'p' :: '(' :: '\"' ::
    (name ++ '\"' :: ',' :: ' ' :: (("List(").data ++ X))).drop 5 =
    name ++ '\"' :: ',' :: ' ' :: (("List(").data ++ X) from rfl]
  rw [takeWhile_no_quote hq]
  rw [List.drop_left]
  show (if startsWith (("List(").data)
      ((' ' :: ((("List(").data) ++ X)).dropWhile isRegexSpace) = true then some name
    else none) = some name
  rw [show ((' ' :: ((("List(").data) ++ X)).dropWhile isRegexSpace : Str) =
    ((("List(").data) ++ X) from rfl]
  rw [if_pos (startsWith_self_append (("List(").data) X)]

theorem depth_le_of_mem {a : AstNode} : ∀ {args : List AstNode}, a ∈ args →
    astDepth a ≤ astDepthList args := by
  intro args
  induction args with
  | nil => intro h; simp at h
  | cons b rest ih =>
    intro h
    rw [astDepthList]
    rcases List.mem_cons.mp h with rfl | h
    · exact le_max_left _ _
    · exact le_trans (ih h) (le_max_right _ _)

/-- `_extract_list_args` on a well-formed `EOp` encoding: locates the
argument `List(` and hands its slices to the parser. -/
theorem extract_enc {name : Str} (hg : goodStr name = true) (JOIN TAIL : Str)
    (P : Str → Option AstNode) :
    extract_list_args P ('E' :: 'O' :: 'p' :: '(' :: '\"' ::
      (name ++ '\"' :: ',' :: ' ' :: (("List(").data ++ (JOIN ++ ')' :: TAIL)))) =
    (scanArgs (JOIN ++ ')' :: TAIL) 0 []).filterMap
      (fun chunk =>
        let a := pstrip chunk
        if a = [] then none else P a) := by
  have hfind : findSub (("List(").data) ('E' :: 'O' :: 'p' :: '(' :: '\"' ::
      (name ++ '\"' :: ',' :: ' ' :: (("List(").data ++ (JOIN ++ ')' :: TAIL)))) =
      some (name.length + 8) := by
    rw [findSub_cons, ite_cond_false (show startsWith (("List(").data)
      ('E' :: 'O' :: 'p' :: '(' :: '\"' ::
        (name ++ '\"' :: ',' :: ' ' :: (("List(").data ++ (JOIN ++ ')' :: TAIL)))) = false
      from rfl)]
    rw [findSub_cons, ite_cond_false (show startsWith (("List(").data)
      ('O' :: 'p' :: '(' :: '\"' ::
        (name ++ '\"' :: ',' :: ' ' :: (("List(").data ++ (JOIN ++ ')' :: TAIL)))) = false
      from rfl)]
    rw [findSub_cons, ite_cond_false (show startsWith (("List(").data)
      ('p' :: '(' :: '\"' ::
        (name ++ '\"' :: ',' :: ' ' :: (("List(").data ++ (JOIN ++ ')' :: TAIL)))) = false
      from rfl)]
    rw [findSub_cons, ite_cond_false (show startsWith (("List(").data)
      ('(' :: '\"' ::
        (name ++ '\"' :: ',' :: ' ' :: (("List(").data ++ (JOIN ++ ')' :: TAIL)))) = false
      from rfl)]
    rw [findSub_cons, ite_cond_false (show startsWith (("List(").data)
      ('\"' ::
        (name ++ '\"' :: ',' :: ' ' :: (("List(").data ++ (JOIN ++ ')' :: TAIL)))) = false
      from rfl)]
    rw [findSub_List_name (JOIN ++ ')' :: TAIL) name (goodStr_no_paren hg)]
    simp only [Option.map_some', Option.some_inj]
  have hstep : extract_list_args P ('E' :: 'O' :: 'p' :: '(' :: '\"' ::
      (name ++ '\"' :: ',' :: ' ' :: (("List(").data ++ (JOIN ++ ')' :: TAIL)))) =
      (scanArgs (('E' :: 'O' :: 'p' :: '(' :: '\"' ::
        (name ++ '\"' :: ',' :: ' ' :: (("List(").data ++ (JOIN ++ ')' :: TAIL))) : Str).drop
          (name.length + 8 + 5)) 0 []).filterMap
        (fun chunk =>
          let a := pstrip chunk
          if a = [] then none else P a) := by
    simp only [extract_list_args]
    rw [hfind]
  rw [hstep]
  have hA : ('E' :: 'O' :: 'p' :: '(' :: '\"' ::
      (name ++ '\"' :: ',' :: ' ' :: (("List(").data ++ (JOIN ++ ')' :: TAIL))) : Str) =
      ('E' :: 'O' :: 'p' :: '(' :: '\"' ::
        (name ++ ['\"', ',', ' ', 'L', 'i', 's', 't', '('])) ++ (JOIN ++ ')' :: TAIL) := by
    simp
  rw [hA]
  rw [show name.length + 8 + 5 = (('E' :: 'O' :: 'p' :: '(' :: '\"' ::
    (name ++ ['\"', ',', ' ', 'L', 'i', 's', 't', '(']) : Str)).length from by simp]
  rw [List.drop_left]

/-- Decode inverts encode on the good fragment, for any fuel at least
the tree depth. -/
theorem parse_enc : ∀ (fuel : Nat) {t : AstNode}, GoodTree t → astDepth t ≤ fuel →
    parse_ast_expr fuel (ast_to_kleis_node t) = some t := by
  intro fuel
  induction fuel with
  | zero =>
    intro t h hd
    exfalso
    cases t <;> simp [astDepth] at hd
  | succ fuel ih =>
    intro t h hd
    cases h with
    | @object name hg =>
      have henc : ast_to_kleis_node (.object name) =
          'E' :: 'O' :: 'b' :: 'j' :: 'e' :: 'c' :: 't' :: '(' :: '\"' ::
            (name ++ '\"' :: ')' :: []) := by
        rw [ast_to_kleis_node, to_kleis_string_good hg]
        simp
      simp only [parse_ast_expr]
      rw [pstrip_enc, henc]
      rw [ite_cond_false (show startsWith (("None").data)
        ('E' :: 'O' :: 'b' :: 'j' :: 'e' :: 'c' :: 't' :: '(' :: '\"' ::
          (name ++ '\"' :: ')' :: [])) = false from rfl)]
      rw [if_pos (show startsWith (("EObject(").data)
        ('E' :: 'O' :: 'b' :: 'j' :: 'e' :: 'c' :: 't' :: '(' :: '\"' ::
          (name ++ '\"' :: ')' :: [])) = true from
        startsWith_self_append (("EObject(").data) _)]
      rw [show ('E' :: 'O' :: 'b' :: 'j' :: 'e' :: 'c' :: 't' :: '(' :: '\"' ::
        (name ++ '\"' :: ')' :: []) : Str) =
        (("EObject(\"").data) ++ (name ++ '\"' :: ')' :: []) from rfl]
      rw [matchCtorStr_enc (goodStr_no_quote hg) []]
    | @constE v hg =>
      have henc : ast_to_kleis_node (.constE v) =
          'E' :: 'C' :: 'o' :: 'n' :: 's' :: 't' :: '(' :: '\"' ::
            (v ++ '\"' :: ')' :: []) := by
        rw [ast_to_kleis_node, to_kleis_string_good hg]
        simp
      simp only [parse_ast_expr]
      rw [pstrip_enc, henc]
      rw [ite_cond_false (show startsWith (("None").data)
        ('E' :: 'C' :: 'o' :: 'n' :: 's' :: 't' :: '(' :: '\"' ::
          (v ++ '\"' :: ')' :: [])) = false from rfl)]
      rw [ite_cond_false (show startsWith (("EObject(").data)
        ('E' :: 'C' :: 'o' :: 'n' :: 's' :: 't' :: '(' :: '\"' ::
          (v ++ '\"' :: ')' :: [])) = false from rfl)]
      rw [if_pos (show startsWith (("EConst(").data)
        ('E' :: 'C' :: 'o' :: 'n' :: 's' :: 't' :: '(' :: '\"' ::
          (v ++ '\"' :: ')' :: [])) = true from
        startsWith_self_append (("EConst(").data) _)]
      rw [show ('E' :: 'C' :: 'o' :: 'n' :: 's' :: 't' :: '(' :: '\"' ::
        (v ++ '\"' :: ')' :: []) : Str) =
        (("EConst(\"").data) ++ (v ++ '\"' :: ')' :: []) from rfl]
      rw [matchCtorStr_enc (goodStr_no_quote hg) []]
    | @op name args hg hargs =>
      have hdepth : ∀ a ∈ args, astDepth a ≤ fuel := by
        intro a ha
        have h1 := depth_le_of_mem ha
        have h2 : astDepth (AstNode.op name args) = 1 + astDepthList args := rfl
        omega
      have hparse : ∀ a ∈ args, parse_ast_expr fuel (ast_to_kleis_node a) = some a :=
        fun a ha => ih (hargs a ha) (hdepth a ha)
      have henc : ast_to_kleis_node (.op name args) =
          'E' :: 'O' :: 'p' :: '(' :: '\"' ::
            (name ++ '\"' :: ',' :: ' ' :: (("List(").data ++
              (pyJoin ((", ").data) (ast_to_kleis_list args) ++ ')' ::
                [',', ' ', '\"', '\"', ',', ' ', 'N', 'o', 'M', 'e', 't', 'a', ')']))) := by
        rw [ast_to_kleis_node, to_kleis_string_good hg]
        simp
      simp only [parse_ast_expr]
      rw [pstrip_enc, henc]
      rw [ite_cond_false (show startsWith (("None").data)
        ('E' :: 'O' :: 'p' :: '(' :: '\"' ::
          (name ++ '\"' :: ',' :: ' ' :: (("List(").data ++
            (pyJoin ((", ").data) (ast_to_kleis_list args) ++ ')' ::
              [',', ' ', '\"', '\"', ',', ' ', 'N', 'o', 'M', 'e', 't', 'a', ')'])))) = false
        from rfl)]
      rw [ite_cond_false (show startsWith (("EObject(").data)
        ('E' :: 'O' :: 'p' :: '(' :: '\"' ::
          (name ++ '\"' :: ',' :: ' ' :: (("List(").data ++
            (pyJoin ((", ").data) (ast_to_kleis_list args) ++ ')' ::
              [',', ' ', '\"', '\"', ',', ' ', 'N', 'o', 'M', 'e', 't', 'a', ')'])))) = false
        from rfl)]
      rw [ite_cond_false (show startsWith (("EConst(").data)
        ('E' :: 'O' :: 'p' :: '(' :: '\"' ::
          (name ++ '\"' :: ',' :: ' ' :: (("List(").data ++
            (pyJoin ((", ").data) (ast_to_kleis_list args) ++ ')' ::
              [',', ' ', '\"', '\"', ',', ' ', 'N', 'o', 'M', 'e', 't', 'a', ')'])))) = false
        from rfl)]
      rw [if_pos (show startsWith (("EOp(").data)
        ('E' :: 'O' :: 'p' :: '(' :: '\"' ::
          (name ++ '\"' :: ',' :: ' ' :: (("List(").data ++
            (pyJoin ((", ").data) (ast_to_kleis_list args) ++ ')' ::
              [',', ' ', '\"', '\"', ',', ' ', 'N', 'o', 'M', 'e', 't', 'a', ')'])))) = true
        from startsWith_self_append (("EOp(").data) _)]
      rw [matchEOpName_enc (goodStr_no_quote hg)]
      rw [extract_enc hg]
      rw [scan_parse_join args []
        [',', ' ', '\"', '\"', ',', ' ', 'N', 'o', 'M', 'e', 't', 'a', ')']
        (by intro x hx; simp at hx) hparse hargs]

theorem enc_mem_list {a : AstNode} : ∀ {args : List AstNode}, a ∈ args →
    ast_to_kleis_node a ∈ ast_to_kleis_list args := by
  intro args
  induction args with
  | nil => intro h; simp at h
  | cons b rest ih =>
    intro h
    rw [ast_to_kleis_list]
    rcases List.mem_cons.mp h with rfl | h
    · exact List.mem_cons_self _ _
    · exact List.mem_cons_of_mem _ (ih h)

theorem pyJoin_member_le {sep : Str} {x : Str} :
    ∀ {xs : List Str}, x ∈ xs → x.length ≤ (pyJoin sep xs).length := by
  intro xs
  induction xs with
  | nil => intro h; simp at h
  | cons y rest ih =>
    intro h
    cases rest with
    | nil =>
      simp only [List.mem_singleton] at h
      subst h
      exact le_refl _
    | cons z rest2 =>
      rw [pyJoin]
      rcases List.mem_cons.mp h with rfl | h
      · simp [List.length_append]
      · have := ih h
        simp only [List.length_append]
        omega

theorem depthList_le {args : List AstNode} {B : Nat}
    (h : ∀ a ∈ args, astDepth a ≤ B) : astDepthList args ≤ B := by
  induction args with
  | nil => simp [astDepthList]
  | cons a rest ih =>
    rw [astDepthList]
    exact max_le (h a (List.mem_cons_self _ _))
      (ih fun x hx => h x (List.mem_cons_of_mem _ hx))

theorem depth_le_enc : ∀ {t : AstNode}, GoodTree t →
    astDepth t ≤ (ast_to_kleis_node t).length := by
  intro t h
  induction h with
  | @object name hg =>
    rw [show astDepth (AstNode.object name) = 1 from rfl]
    exact List.length_pos.mpr (enc_ne_nil _)
  | @constE v hg =>
    rw [show astDepth (AstNode.constE v) = 1 from rfl]
    exact List.length_pos.mpr (enc_ne_nil _)
  | @op name args hg hargs ih =>
    rw [show astDepth (AstNode.op name args) = 1 + astDepthList args from rfl]
    have hlist : astDepthList args ≤
        (pyJoin ((", ").data) (ast_to_kleis_list args)).length := by
      refine depthList_le fun a ha => ?_
      exact le_trans (ih a ha) (pyJoin_member_le (enc_mem_list ha))
    rw [show ((", ").data) = [',', ' '] from rfl] at hlist
    rw [ast_to_kleis_node, to_kleis_string_good hg]
    simp only [List.length_append, List.length_cons]
    omega

/-- C1 (amended): on Symbol/Literal/Apply trees over strings free of
quote, backslash, newline and parentheses, decoding the encoding is the
identity. -/
theorem claim_C1_round_trip_good {t : AstNode} (h : GoodTree t) :
    parse_ast (ast_to_kleis (some t)) = some t := by
  have hle := depth_le_enc h
  rw [show ast_to_kleis (some t) = ast_to_kleis_node t from rfl]
  rw [parse_ast]
  exact parse_enc _ h (by omega)

/-- C1 witness: the specification §8 scenario tree
`Apply("equals", [Symbol("x"), Literal("1")])` round-trips. -/
theorem claim_C1_round_trip_good_witness :
    parse_ast (ast_to_kleis (some (.op ("equals").data
      [.object ("x").data, .constE ("1").data]))) =
      some (.op ("equals").data [.object ("x").data, .constE ("1").data]) := by
  refine claim_C1_round_trip_good ?_
  refine GoodTree.op (by decide) ?_
  intro a ha
  simp only [List.mem_cons, List.mem_singleton, List.not_mem_nil, or_false] at ha
  rcases ha with rfl | rfl
  · exact GoodTree.object (by decide)
  · exact GoodTree.constE (by decide)

/-- C1 counterexample: the claimed law fails on the full §3 grammar —
a `Placeholder` or `Sequence` tree encodes to `EPlaceholder(...)` /
`EList(...)`, which `_parse_ast_expr` has no case for, and a `Symbol`
whose name contains a quote breaks the quoted-span match; each decodes
to `None` instead of the original tree. -/
theorem claim_C1_counterexample :
    parse_ast (ast_to_kleis (some (.placeholder 0 []))) ≠ some (.placeholder 0 []) ∧
    parse_ast (ast_to_kleis (some (.listNode []))) ≠ some (.listNode []) ∧
    parse_ast (ast_to_kleis (some (.object ['\"']))) ≠ some (.object ['\"']) := by
  refine ⟨?_, ?_, ?_⟩ <;> intro hcon
  · rw [show parse_ast (ast_to_kleis (some (.placeholder 0 []))) = none from rfl] at hcon
    cases hcon
  · rw [show parse_ast (ast_to_kleis (some (.listNode []))) = none from rfl] at hcon
    cases hcon
  · rw [show parse_ast (ast_to_kleis (some (.object ['\"']))) = none from rfl] at hcon
    cases hcon

/-- C5: input that does not start (after stripping) with a known
constructor keyword decodes to `none`; the decoder is a total function
by construction. -/
theorem claim_C5_unknown_text_decodes_none (s : Str)
    (h1 : startsWith (("None").data) (pstrip s) = false)
    (h2 : startsWith (("EObject(").data) (pstrip s) = false)
    (h3 : startsWith (("EConst(").data) (pstrip s) = false)
    (h4 : startsWith (("EOp(").data) (pstrip s) = false) :
    parse_ast s = none := by
  rw [parse_ast]
  simp only [parse_ast_expr]
  rw [ite_cond_false h1, ite_cond_false h2, ite_cond_false h3, ite_cond_false h4]

/-- C5 witness: arbitrary prose decodes to `none`. -/
theorem claim_C5_witness : parse_ast (("x = y + 1").data) = none :=
  claim_C5_unknown_text_decodes_none _ (by decide) (by decide) (by decide) (by decide)

/-- C3: the flat level-tagged sequence `[(1,A),(2,B),(2,C),(1,D)]`
reconstructs to roots `A` (children `B`, `C` in order) and `D` (no
children); and in general the store-based loop implements exactly the
single left-to-right stack pass of §4.3. -/
theorem claim_C3_section_hierarchy :
    (buildHierarchy (α := Str)
      [⟨1, ['A'], []⟩, ⟨2, ['B'], []⟩, ⟨2, ['C'], []⟩, ⟨1, ['D'], []⟩] =
      [STree.node 1 ['A'] [Sum.inr (STree.node 2 ['B'] []), Sum.inr (STree.node 2 ['C'] [])],
       STree.node 1 ['D'] []]) ∧
    ∀ (α : Type) (flat : List (FlatSec α)), buildHierarchy flat = specReconstruct flat :=
  ⟨rfl, fun _ flat => build_eq_spec flat⟩

/- ## Document model: Python dicts (assoc lists with in-place overwrite,
insertion order preserved), scalar values, record types. -/

def alookup {α : Type} : List (Str × α) → Str → Option α
  | [], _ => none
  | (k2, v) :: rest, k => if k2 = k then some v else alookup rest k

def aset {α : Type} : List (Str × α) → Str → α → List (Str × α)
  | [], k, v => [(k, v)]
  | (k2, v2) :: rest, k, v =>
      if k2 = k then (k2, v) :: rest else (k2, v2) :: aset rest k v

inductive PyAtom where
  | astr (s : Str)
  | aint (n : Int)
  | abool (b : Bool)
  | afloat (ds : Str)
deriving DecidableEq

structure AuthorRec where
  name : Str
  email : Str
  affiliation : Str
  role : Str
deriving DecidableEq

inductive PyVal where
  | atom (a : PyAtom)
  | vlist (xs : List PyAtom)
  | vauthor (a : AuthorRec)
  | vauthors (xs : List AuthorRec)
deriving DecidableEq

def pyTruthy : PyVal → Bool
  | .atom (.astr s) => !s.isEmpty
  | .atom (.aint n) => !(n == 0)
  | .atom (.abool b) => b
  | .atom (.afloat ds) => !(ds.all (fun c => c == '0' || c == '.'))
  | .vlist xs => !xs.isEmpty
  | .vauthor _ => true
  | .vauthors xs => !xs.isEmpty

def intStr (n : Int) : Str :=
  if n < 0 then '-' :: natStr n.natAbs else natStr n.toNat

def pyStrAtom : PyAtom → Str
  | .astr s => s
  | .aint n => intStr n
  | .abool true => ("True").data
  | .abool false => ("False").data
  | .afloat ds => ds

structure EqRec where
  id : Str
  label : Str
  latex : Str
  typst : Str
  ast : Option AstNode
  numbered : Bool
  verified : Bool

structure FigRec where
  id : Str
  label : Str
  caption : Str
  kleis_code : Option Str
  svg_cache : Option Str
  typst_fragment : Option Str
  image_path : Option Str

structure TabRec where
  label : Str
  headers : List Str
  rows : List (List PyVal)
  caption : Str
  kleis_code : Option Str

structure ThmRec where
  label : Str
  kind : Str
  statement : Str
  proof : Option Str
  name : Option Str

structure AlgRec where
  label : Str
  name : Str
  pseudocode : Str
  caption : Str

structure BibRec where
  key : Str
  entry_type : Str
  title : Str
  authors : Str
  year : Str
  journal : Str
  volume : Str
  pages : Str
  publisher : Str
  doi : Str
  url : Str
  note : Str

structure CrossRef where
  ref_type : Str
  target : Str
  text : Option Str

mutual

inductive PySec where
  | mk (level : Nat) (title : Str) (content : List PyItem)

inductive PyItem where
  | text (s : Str)
  | eqItem (e : EqRec)
  | figItem (f : FigRec)
  | sub (s : PySec)

end

def PySec.level : PySec → Nat
  | .mk l _ _ => l

def PySec.title : PySec → Str
  | .mk _ t _ => t

def PySec.content : PySec → List PyItem
  | .mk _ _ c => c

structure Doc where
  metadata : List (Str × PyVal)
  template_path : Option Str
  sections : List PySec
  equations : List (Str × EqRec)
  figures : List (Str × FigRec)
  bibliography : List (Str × BibRec)
  cross_refs : List CrossRef
  content_blocks : List (Str × PyVal)
  tables : List (Str × TabRec)
  theorems : List (Str × ThmRec)
  algorithms : List (Str × AlgRec)

def appendToSec (secs : List PySec) (i : Nat) (it : PyItem) : List PySec :=
  modifyAt (fun s => .mk s.level s.title (s.content ++ [it])) i secs

def add_equation (d : Doc) (label latex : Str) (ast : Option AstNode)
    (numbered : Bool) (sec : Option Nat) : Doc × EqRec :=
  let eq : EqRec :=
    ⟨("eq_").data ++ natStr d.equations.length, label, latex, [], ast,
      numbered, false⟩
  let d2 := { d with equations := aset d.equations label eq }
  let d3 :=
    match sec with
    | some i => { d2 with sections := appendToSec d2.sections i (.eqItem eq) }
    | none =>
        if d2.sections.isEmpty then d2
        else { d2 with sections :=
                appendToSec d2.sections (d2.sections.length - 1) (.eqItem eq) }
  (d3, eq)

def add_figure (d : Doc) (label caption : Str)
    (kleis_code image_path typst_fragment : Option Str)
    (sec : Option Nat) : Doc × FigRec :=
  let tf := match typst_fragment with
            | some t => if t.isEmpty then none else some t
            | none => none
  let fig : FigRec :=
    ⟨("fig_").data ++ natStr d.figures.length, label, caption,
      kleis_code, none, tf, image_path⟩
  let d2 := { d with figures := aset d.figures label fig }
  let d3 :=
    match sec with
    | some i => { d2 with sections := appendToSec d2.sections i (.figItem fig) }
    | none =>
        if d2.sections.isEmpty then d2
        else { d2 with sections :=
                appendToSec d2.sections (d2.sections.length - 1) (.figItem fig) }
  (d3, fig)

def add_table (d : Doc) (label : Str) (headers : List Str)
    (rows : List (List PyVal)) (caption : Str) (kleis_code : Option Str) :
    Doc × TabRec :=
  let t : TabRec := ⟨label, headers, rows, caption, kleis_code⟩
  ({ d with tables := aset d.tables label t }, t)

def add_theorem (d : Doc) (label kind statement : Str)
    (proof name : Option Str) : Doc × ThmRec :=
  let t : ThmRec := ⟨label, kind, statement, proof, name⟩
  ({ d with theorems := aset d.theorems label t }, t)

def refErr (d : Doc) (ref : CrossRef) : Option Str :=
  if (ref.ref_type == ("bib").data) && (alookup d.bibliography ref.target).isNone then
    some ((("Missing bibliography entry: ").data) ++ ref.target)
  else if (ref.ref_type == ("eq").data) && (alookup d.equations ref.target).isNone then
    some ((("Missing equation: ").data) ++ ref.target)
  else if (ref.ref_type == ("fig").data) && (alookup d.figures ref.target).isNone then
    some ((("Missing figure: ").data) ++ ref.target)
  else if (ref.ref_type == ("tab").data) && (alookup d.tables ref.target).isNone then
    some ((("Missing table: ").data) ++ ref.target)
  else if (ref.ref_type == ("thm").data) && (alookup d.theorems ref.target).isNone then
    some ((("Missing theorem: ").data) ++ ref.target)
  else none

def validate_cross_refs (d : Doc) : List Str :=
  d.cross_refs.foldl (fun errors ref =>
    match refErr d ref with
    | some e => errors ++ [e]
    | none => errors) []

/- ## Placeholder substitution (ASCII model of the regex \\b([A-Z][A-Z0-9_]+)\\b,
Python str.lower / str.replace on the token alphabet, and the or-chain of
dict lookups). -/

def isUpperChar (c : Char) : Bool := 'A' ≤ c && c ≤ 'Z'

def isTokChar (c : Char) : Bool :=
  isUpperChar c || ('0' ≤ c && c ≤ '9') || c == '_'

def isWordChar (c : Char) : Bool := c.isAlphanum || c == '_'

def findTokensF : Nat → Option Char → Str → List Str
  | 0, _, _ => []
  | _ + 1, _, [] => []
  | fuel + 1, prev, c :: rest =>
      let prevWord := match prev with
                      | some p => isWordChar p
                      | none => false
      if !prevWord && isUpperChar c then
        let run := (c :: rest).takeWhile isTokChar
        let after := (c :: rest).drop run.length
        if 2 ≤ run.length &&
            (match after.head? with
             | none => true
             | some a => !isWordChar a) then
          run :: findTokensF fuel run.getLast? after
        else
          findTokensF fuel (some c) rest
      else
        findTokensF fuel (some c) rest

def findTokens (s : Str) : List Str := findTokensF (s.length + 1) none s

def lowerChar (c : Char) : Char :=
  if 'A' ≤ c && c ≤ 'Z' then Char.ofNat (c.toNat + 32) else c

def strLower (s : Str) : Str := s.map lowerChar

def underToHyphen (c : Char) : Char := if c == '_' then '-' else c

def hyphenKey (ph : Str) : Str := (strLower ph).map underToHyphen

def candidateList (md cb : List (Str × PyVal)) (ph : Str) : List (Option PyVal) :=
  [alookup md (hyphenKey ph), alookup md (strLower ph), alookup md ph,
   alookup cb (hyphenKey ph), alookup cb (strLower ph), alookup cb ph]

def pyOr : List (Option PyVal) → Option PyVal
  | [] => none
  | [x] => x
  | x :: rest =>
      match x with
      | some v => if pyTruthy v then some v else pyOr rest
      | none => pyOr rest

def resolveValue (md cb : List (Str × PyVal)) (ph : Str) : Option PyVal :=
  pyOr (candidateList md cb ph)

def linebreakSep : Str := (" #linebreak()\n      ").data

def sq : Char := Char.ofNat 39

def authorRepr (a : AuthorRec) : Str :=
  ("Author(name=").data ++ (sq :: a.name ++ [sq]) ++
    (", email=").data ++ (sq :: a.email ++ [sq]) ++
    (", affiliation=").data ++ (sq :: a.affiliation ++ [sq]) ++
    (", role=").data ++ (sq :: a.role ++ [sq]) ++ (")").data

def renderValue : PyVal → Str
  | .vlist xs => pyJoin linebreakSep (xs.map pyStrAtom)
  | .atom a => pyStrAtom a
  | .vauthor a => authorRepr a
  | .vauthors xs => pyJoin linebreakSep (xs.map authorRepr)

def pyReplaceF : Nat → Str → Str → Str → Str
  | 0, s, _, _ => s
  | fuel + 1, s, old, rep =>
      match s with
      | [] => []
      | c :: rest =>
          if startsWith old (c :: rest) then
            rep ++ pyReplaceF fuel ((c :: rest).drop old.length) old rep
          else c :: pyReplaceF fuel rest old rep

def pyReplace (s old rep : Str) : Str := pyReplaceF (s.length + 1) s old rep

def substToken (md cb : List (Str × PyVal)) (result ph : Str) : Str :=
  match resolveValue md cb ph with
  | none => result
  | some v => pyReplace result ph (renderValue v)

def substitute_placeholders (md cb : List (Str × PyVal)) (template : Str) : Str :=
  (findTokens template).foldl (substToken md cb) template

def occurs (needle : Str) : Str → Bool
  | [] => needle.isEmpty
  | c :: rest => startsWith needle (c :: rest) || occurs needle rest

/- ## Metadata access with an explicit heap of dict objects, to express
aliasing: an address is an index, `get_metadata()` allocates a fresh copy. -/

abbrev MetaDict := List (Str × PyVal)

def hget (h : List MetaDict) (a : Nat) : MetaDict := (h.get? a).getD []

def halloc (h : List MetaDict) (d : MetaDict) : List MetaDict × Nat :=
  (h ++ [d], h.length)

def hsetKey (h : List MetaDict) (a : Nat) (k : Str) (v : PyVal) : List MetaDict :=
  modifyAt (fun dct => aset dct k v) a h

def dict_copy (d : MetaDict) : MetaDict := d

def get_metadata_all (h : List MetaDict) (self_md : Nat) : List MetaDict × Nat :=
  halloc h (dict_copy (hget h self_md))

def get_metadata_key (h : List MetaDict) (self_md : Nat) (key : Str) :
    List MetaDict × Option PyVal :=
  (h, alookup (hget h self_md) key)

def dC4 : Doc :=
  { metadata := [], template_path := none, sections := [], equations := [],
    figures := [], bibliography := [],
    cross_refs := [⟨("sec").data, ("sec:missing").data, none⟩],
    content_blocks := [], tables := [], theorems := [], algorithms := [] }

theorem validate_eq_filterMap (d : Doc) :
    validate_cross_refs d = d.cross_refs.filterMap (refErr d) := by
  have key : ∀ (l : List CrossRef) (acc : List Str),
      l.foldl (fun errors ref => match refErr d ref with
        | some e => errors ++ [e]
        | none => errors) acc = acc ++ l.filterMap (refErr d) := by
    intro l
    induction l with
    | nil => intro acc; simp
    | cons r rest ih =>
      intro acc
      cases h : refErr d r with
      | none => simp [h, ih, List.filterMap_cons]
      | some e => simp [h, ih, List.filterMap_cons]
  simpa using key d.cross_refs []

/-- C4 (amended): a cross-reference of one of the checked kinds (`eq`,
`fig`, `tab`, `thm`, `bib`) whose target label is absent from the
corresponding collection is reported in the error list returned by
`validate_cross_refs`, which always returns a list rather than
aborting; references of kind `sec` are never checked (see the
counterexample). -/
theorem claim_C4_dangling_reported (d : Doc) (ref : CrossRef)
    (hmem : ref ∈ d.cross_refs)
    (hkind :
      (ref.ref_type = ("eq").data ∧ alookup d.equations ref.target = none) ∨
      (ref.ref_type = ("fig").data ∧ alookup d.figures ref.target = none) ∨
      (ref.ref_type = ("tab").data ∧ alookup d.tables ref.target = none) ∨
      (ref.ref_type = ("thm").data ∧ alookup d.theorems ref.target = none) ∨
      (ref.ref_type = ("bib").data ∧ alookup d.bibliography ref.target = none)) :
    ∃ e, refErr d ref = some e ∧ e ∈ validate_cross_refs d := by
  have herr : ∃ e, refErr d ref = some e := by
    rcases hkind with ⟨ht, hm⟩ | ⟨ht, hm⟩ | ⟨ht, hm⟩ | ⟨ht, hm⟩ | ⟨ht, hm⟩
    · have h1 : (ref.ref_type == ("bib").data) = false := by rw [ht]; decide
      have h2 : (ref.ref_type == ("eq").data) = true := by rw [ht]; decide
      exact ⟨(("Missing equation: ").data) ++ ref.target,
        by simp [refErr, h1, h2, hm]⟩
    · have h1 : (ref.ref_type == ("bib").data) = false := by rw [ht]; decide
      have h2 : (ref.ref_type == ("eq").data) = false := by rw [ht]; decide
      have h3 : (ref.ref_type == ("fig").data) = true := by rw [ht]; decide
      exact ⟨(("Missing figure: ").data) ++ ref.target,
        by simp [refErr, h1, h2, h3, hm]⟩
    · have h1 : (ref.ref_type == ("bib").data) = false := by rw [ht]; decide
      have h2 : (ref.ref_type == ("eq").data) = false := by rw [ht]; decide
      have h3 : (ref.ref_type == ("fig").data) = false := by rw [ht]; decide
      have h4 : (ref.ref_type == ("tab").data) = true := by rw [ht]; decide
      exact ⟨(("Missing table: ").data) ++ ref.target,
        by simp [refErr, h1, h2, h3, h4, hm]⟩
    · have h1 : (ref.ref_type == ("bib").data) = false := by rw [ht]; decide
      have h2 : (ref.ref_type == ("eq").data) = false := by rw [ht]; decide
      have h3 : (ref.ref_type == ("fig").data) = false := by rw [ht]; decide
      have h4 : (ref.ref_type == ("tab").data) = false := by rw [ht]; decide
      have h5 : (ref.ref_type == ("thm").data) = true := by rw [ht]; decide
      exact ⟨(("Missing theorem: ").data) ++ ref.target,
        by simp [refErr, h1, h2, h3, h4, h5, hm]⟩
    · have h1 : (ref.ref_type == ("bib").data) = true := by rw [ht]; decide
      exact ⟨(("Missing bibliography entry: ").data) ++ ref.target,
        by simp [refErr, h1, hm]⟩
  rcases herr with ⟨e, he⟩
  refine ⟨e, he, ?_⟩
  rw [validate_eq_filterMap]
  exact List.mem_filterMap.mpr ⟨ref, hmem, he⟩

def dC4w : Doc :=
  { metadata := [], template_path := none, sections := [], equations := [],
    figures := [], bibliography := [],
    cross_refs := [⟨("eq").data, ("eq:gone").data, none⟩],
    content_blocks := [], tables := [], theorems := [], algorithms := [] }

/-- C4 witness: a document with one dangling equation reference gets
exactly that error reported. -/
theorem claim_C4_witness :
    ∃ e, refErr dC4w ⟨("eq").data, ("eq:gone").data, none⟩ = some e ∧
      e ∈ validate_cross_refs dC4w :=
  claim_C4_dangling_reported _ _ (List.mem_singleton.mpr rfl)
    (Or.inl ⟨rfl, rfl⟩)

/-- C4 counterexample: the claim also covers kind `section`, but
`validate_cross_refs` has no branch for `sec` references — a dangling
section reference yields no error at all. -/
theorem claim_C4_counterexample :
    (∃ ref ∈ dC4.cross_refs, ref.ref_type = ("sec").data ∧
      ∀ s ∈ dC4.sections, s.title ≠ ref.target) ∧
    validate_cross_refs dC4 = [] := by
  refine ⟨⟨⟨("sec").data, ("sec:missing").data, none⟩, ?_, rfl, ?_⟩, rfl⟩
  · simp [dC4]
  · intro s hs
    simp [dC4] at hs

theorem aset_length_of_mem {α : Type} :
    ∀ (d : List (Str × α)) (k : Str) (v : α),
      (alookup d k).isSome = true → (aset d k v).length = d.length := by
  intro d k v h
  induction d with
  | nil => simp [alookup] at h
  | cons p rest ih =>
    obtain ⟨k2, v2⟩ := p
    by_cases hk : k2 = k
    · simp [aset, hk]
    · simp only [alookup, if_neg hk] at h
      simp [aset, hk, ih h]

theorem alookup_aset_self {α : Type} :
    ∀ (d : List (Str × α)) (k : Str) (v : α), alookup (aset d k v) k = some v := by
  intro d k v
  induction d with
  | nil => simp [aset, alookup]
  | cons p rest ih =>
    obtain ⟨k2, v2⟩ := p
    by_cases hk : k2 = k
    · simp [aset, hk, alookup]
    · simp [aset, hk, alookup, ih]

theorem mem_keys_aset {α : Type} :
    ∀ (d : List (Str × α)) (k : Str) (v : α) (x : Str),
      x ∈ (aset d k v).map Prod.fst ↔ x ∈ d.map Prod.fst ∨ x = k := by
  intro d k v x
  induction d with
  | nil => simp [aset]
  | cons p rest ih =>
    obtain ⟨k2, v2⟩ := p
    by_cases hk : k2 = k
    · subst hk
      have hs : aset ((k2, v2) :: rest) k2 v = (k2, v) :: rest := by
        simp [aset]
      rw [hs]
      simp only [List.map_cons, List.mem_cons]
      tauto
    · have hs : aset ((k2, v2) :: rest) k v = (k2, v2) :: aset rest k v := by
        simp [aset, hk]
      rw [hs]
      simp only [List.map_cons, List.mem_cons, ih]
      tauto

theorem keys_nodup_aset {α : Type} :
    ∀ (d : List (Str × α)) (k : Str) (v : α),
      (d.map Prod.fst).Nodup → ((aset d k v).map Prod.fst).Nodup := by
  intro d k v h
  induction d with
  | nil => simp [aset]
  | cons p rest ih =>
    obtain ⟨k2, v2⟩ := p
    simp only [List.map_cons, List.nodup_cons] at h
    by_cases hk : k2 = k
    · simp only [aset, if_pos hk, List.map_cons, List.nodup_cons]
      exact ⟨h.1, h.2⟩
    · simp only [aset, if_neg hk, List.map_cons, List.nodup_cons]
      refine ⟨?_, ih h.2⟩
      intro hcon
      rcases (mem_keys_aset rest k v k2).mp hcon with hmem | hkk
      · exact h.1 hmem
      · exact hk hkk

theorem add_equation_equations (d : Doc) (label latex : Str)
    (ast : Option AstNode) (numbered : Bool) (sec : Option Nat) :
    (add_equation d label latex ast numbered sec).1.equations
      = aset d.equations label (add_equation d label latex ast numbered sec).2 := by
  cases sec with
  | none =>
    unfold add_equation
    dsimp only
    split <;> rfl
  | some i => rfl

theorem add_figure_figures (d : Doc) (label caption : Str)
    (kc ip tf : Option Str) (sec : Option Nat) :
    (add_figure d label caption kc ip tf sec).1.figures
      = aset d.figures label (add_figure d label caption kc ip tf sec).2 := by
  cases sec with
  | none =>
    unfold add_figure
    dsimp only
    split <;> rfl
  | some i => rfl

/-- C8: adding an equation, figure, table or theorem under a label that
is already present in the corresponding collection overwrites the prior
entry: the collection keeps its size, the new record is the one stored
under the label, and distinctness of labels is preserved, so no
collection ever holds two entries with the same label. -/
theorem claim_C8_label_overwrite (d : Doc) (label latex caption kind stmt : Str)
    (ast : Option AstNode) (numbered : Bool) (sec : Option Nat)
    (kc ip tf kc2 pf nm : Option Str) (headers : List Str)
    (rows : List (List PyVal))
    (heq : (alookup d.equations label).isSome = true)
    (hfig : (alookup d.figures label).isSome = true)
    (htab : (alookup d.tables label).isSome = true)
    (hthm : (alookup d.theorems label).isSome = true)
    (neq : (d.equations.map Prod.fst).Nodup)
    (nfig : (d.figures.map Prod.fst).Nodup)
    (ntab : (d.tables.map Prod.fst).Nodup)
    (nthm : (d.theorems.map Prod.fst).Nodup) :
    ((add_equation d label latex ast numbered sec).1.equations.length
        = d.equations.length ∧
      alookup (add_equation d label latex ast numbered sec).1.equations label
        = some (add_equation d label latex ast numbered sec).2 ∧
      ((add_equation d label latex ast numbered sec).1.equations.map
        Prod.fst).Nodup) ∧
    ((add_figure d label caption kc ip tf sec).1.figures.length
        = d.figures.length ∧
      alookup (add_figure d label caption kc ip tf sec).1.figures label
        = some (add_figure d label caption kc ip tf sec).2 ∧
      ((add_figure d label caption kc ip tf sec).1.figures.map Prod.fst).Nodup) ∧
    ((add_table d label headers rows caption kc2).1.tables.length
        = d.tables.length ∧
      alookup (add_table d label headers rows caption kc2).1.tables label
        = some (add_table d label headers rows caption kc2).2 ∧
      ((add_table d label headers rows caption kc2).1.tables.map Prod.fst).Nodup) ∧
    ((add_theorem d label kind stmt pf nm).1.theorems.length
        = d.theorems.length ∧
      alookup (add_theorem d label kind stmt pf nm).1.theorems label
        = some (add_theorem d label kind stmt pf nm).2 ∧
      ((add_theorem d label kind stmt pf nm).1.theorems.map Prod.fst).Nodup) := by
  refine ⟨⟨?_, ?_, ?_⟩, ⟨?_, ?_, ?_⟩, ⟨?_, ?_, ?_⟩, ⟨?_, ?_, ?_⟩⟩
  · rw [add_equation_equations]; exact aset_length_of_mem _ _ _ heq
  · rw [add_equation_equations]; exact alookup_aset_self _ _ _
  · rw [add_equation_equations]; exact keys_nodup_aset _ _ _ neq
  · rw [add_figure_figures]; exact aset_length_of_mem _ _ _ hfig
  · rw [add_figure_figures]; exact alookup_aset_self _ _ _
  · rw [add_figure_figures]; exact keys_nodup_aset _ _ _ nfig
  · exact aset_length_of_mem _ _ _ htab
  · exact alookup_aset_self _ _ _
  · exact keys_nodup_aset _ _ _ ntab
  · exact aset_length_of_mem _ _ _ hthm
  · exact alookup_aset_self _ _ _
  · exact keys_nodup_aset _ _ _ nthm

def dC8 : Doc :=
  { metadata := [], template_path := none, sections := [],
    equations := [((("l").data), ⟨[], ("l").data, [], [], none, true, false⟩)],
    figures := [((("l").data), ⟨[], ("l").data, [], none, none, none, none⟩)],
    bibliography := [], cross_refs := [], content_blocks := [],
    tables := [((("l").data), ⟨("l").data, [], [], [], none⟩)],
    theorems := [((("l").data), ⟨("l").data, [], [], none, none⟩)],
    algorithms := [] }

/-- C8 witness: overwriting the label `l` present in each collection of
a concrete document keeps every collection at size one. -/
theorem claim_C8_witness :
    (add_equation dC8 (("l").data) [] none true none).1.equations.length
      = dC8.equations.length ∧
    (add_theorem dC8 (("l").data) [] [] none none).1.theorems.length
      = dC8.theorems.length :=
  ⟨(claim_C8_label_overwrite dC8 (("l").data) [] [] [] [] none true none
      none none none none none none [] []
      rfl rfl rfl rfl (by decide) (by decide) (by decide) (by decide)).1.1,
   (claim_C8_label_overwrite dC8 (("l").data) [] [] [] [] none true none
      none none none none none none [] []
      rfl rfl rfl rfl (by decide) (by decide) (by decide) (by decide)).2.2.2.1⟩

/-- C10: `get_metadata()` with no key returns a copy of the metadata
dict at a fresh address, so writing into the returned dict leaves the
document's stored metadata unchanged; `get_metadata(key)` returns the
stored value for the key (or `none`) and leaves the heap untouched. -/
theorem claim_C10_get_metadata (h : List MetaDict) (a : Nat) (key k : Str)
    (v : PyVal) (ha : a < h.length) :
    (get_metadata_all h a).2 ≠ a ∧
    hget (get_metadata_all h a).1 (get_metadata_all h a).2 = hget h a ∧
    hget (hsetKey (get_metadata_all h a).1 (get_metadata_all h a).2 k v) a
      = hget h a ∧
    (get_metadata_key h a key).1 = h ∧
    (get_metadata_key h a key).2 = alookup (hget h a) key := by
  refine ⟨?_, ?_, ?_, rfl, rfl⟩
  · show h.length ≠ a
    omega
  · show hget (h ++ [dict_copy (hget h a)]) h.length = hget h a
    simp [hget, dict_copy, List.get?_concat_length]
  · show hget (hsetKey (h ++ [dict_copy (hget h a)]) h.length k v) a = hget h a
    simp only [hget, hsetKey, get?_modifyAt]
    rw [if_neg (by omega)]
    rw [get?_append_left h _ a ha]

/-- C10 witness: the frame property at a one-dict heap. -/
theorem claim_C10_witness :
    (get_metadata_all [[]] 0).2 ≠ 0 ∧
    hget (get_metadata_all [[]] 0).1 (get_metadata_all [[]] 0).2 = hget [[]] 0 ∧
    hget (hsetKey (get_metadata_all [[]] 0).1 (get_metadata_all [[]] 0).2
        (("k").data) (PyVal.atom (.aint 1))) 0 = hget [[]] 0 ∧
    (get_metadata_key [[]] 0 (("k").data)).1 = [[]] ∧
    (get_metadata_key [[]] 0 (("k").data)).2
      = alookup (hget [[]] 0) (("k").data) :=
  claim_C10_get_metadata [[]] 0 (("k").data) (("k").data)
    (PyVal.atom (.aint 1)) (by decide)

def firstTruthy : List (Option PyVal) → Option PyVal
  | [] => none
  | x :: rest =>
      match x with
      | some v => if pyTruthy v then some v else firstTruthy rest
      | none => firstTruthy rest

theorem pyOr_cons_cons (x y : Option PyVal) (rest : List (Option PyVal)) :
    pyOr (x :: y :: rest) =
      (match x with
       | some v => if pyTruthy v then some v else pyOr (y :: rest)
       | none => pyOr (y :: rest)) := rfl

theorem pyOr_of_firstTruthy :
    ∀ (xs : List (Option PyVal)) (v : PyVal),
      firstTruthy xs = some v → pyOr xs = some v := by
  intro xs
  induction xs with
  | nil => intro v h; simp [firstTruthy] at h
  | cons x rest ih =>
    intro v h
    cases x with
    | none =>
      have h2 : firstTruthy rest = some v := h
      cases rest with
      | nil => simp [firstTruthy] at h2
      | cons y r2 =>
        rw [pyOr_cons_cons]
        exact ih v h2
    | some w =>
      by_cases ht : pyTruthy w
      · have h2 : some w = some v := by simpa [firstTruthy, ht] using h
        cases rest with
        | nil => simpa [pyOr] using h2
        | cons y r2 => simpa [pyOr_cons_cons, ht] using h2
      · have h2 : firstTruthy rest = some v := by simpa [firstTruthy, ht] using h
        cases rest with
        | nil => simp [firstTruthy] at h2
        | cons y r2 =>
          have hih := ih v h2
          simpa [pyOr_cons_cons, ht] using hih

/-- C6 (amended): whenever some lookup key in the precedence order
(metadata hyphen key, metadata underscore key, metadata literal token,
then the same three against content blocks) is present with a truthy
value, the first such value is the one resolved and substituted for the
token; a present-but-falsy earlier value is skipped over (see the
counterexample). -/
theorem claim_C6_first_hit_wins (md cb : List (Str × PyVal)) (result ph : Str)
    (v : PyVal) (h : firstTruthy (candidateList md cb ph) = some v) :
    resolveValue md cb ph = some v ∧
    substToken md cb result ph = pyReplace result ph (renderValue v) := by
  have hr : resolveValue md cb ph = some v := pyOr_of_firstTruthy _ v h
  exact ⟨hr, by simp [substToken, hr]⟩

/-- C6 witness: `TITLE` resolves through the metadata hyphen-free key
`title` and is substituted with its value. -/
theorem claim_C6_witness :
    resolveValue [((("title").data), PyVal.atom (.astr (("T").data)))] []
      (("TITLE").data) = some (PyVal.atom (.astr (("T").data))) ∧
    substToken [((("title").data), PyVal.atom (.astr (("T").data)))] []
      (("TITLE").data) (("TITLE").data)
      = pyReplace (("TITLE").data) (("TITLE").data)
          (renderValue (PyVal.atom (.astr (("T").data)))) :=
  claim_C6_first_hit_wins _ _ _ _ _ (by decide)

/-- C6 counterexample: the Python `or` chain skips a present-but-falsy
earlier value — with metadata `title` bound to the empty string and a
content block `title` bound to `CB`, the token `TITLE` is substituted
with the content-block value even though the metadata key is present. -/
theorem claim_C6_counterexample :
    alookup [((("title").data), PyVal.atom (.astr []))]
        (hyphenKey (("TITLE").data)) = some (PyVal.atom (.astr [])) ∧
    resolveValue [((("title").data), PyVal.atom (.astr []))]
        [((("title").data), PyVal.atom (.astr (("CB").data)))] (("TITLE").data)
      = some (PyVal.atom (.astr (("CB").data))) ∧
    substitute_placeholders [((("title").data), PyVal.atom (.astr []))]
        [((("title").data), PyVal.atom (.astr (("CB").data)))] (("TITLE").data)
      = ("CB").data :=
  ⟨rfl, rfl, rfl⟩

theorem foldl_substToken_unresolved (md cb : List (Str × PyVal)) :
    ∀ (toks : List Str) (r : Str),
      (∀ ph ∈ toks, resolveValue md cb ph = none) →
      toks.foldl (substToken md cb) r = r := by
  intro toks
  induction toks with
  | nil => intro r _; rfl
  | cons t rest ih =>
    intro r h
    have ht : resolveValue md cb t = none := h t (List.mem_cons_self _ _)
    have hstep : substToken md cb r t = r := by simp [substToken, ht]
    rw [List.foldl_cons, hstep]
    exact ih r (fun ph hph => h ph (List.mem_cons_of_mem _ hph))

/-- C7 (amended): an unresolved token triggers no replacement, and a
style body all of whose tokens are unresolved is returned verbatim;
substitution is a total function and never fails. In general an
unresolved token need not survive verbatim, because the replacement of
another token can rewrite it as a substring (see the counterexample). -/
theorem claim_C7_unresolved_tokens_verbatim (md cb : List (Str × PyVal))
    (template : Str)
    (h : ∀ ph ∈ findTokens template, resolveValue md cb ph = none) :
    substitute_placeholders md cb template = template :=
  foldl_substToken_unresolved md cb _ template h

/-- C7 witness: a body with one unresolved token is returned verbatim. -/
theorem claim_C7_witness :
    substitute_placeholders [] [] (("Dear AUTHOR_NAME,").data)
      = ("Dear AUTHOR_NAME,").data :=
  claim_C7_unresolved_tokens_verbatim [] [] _ (by decide)

/-- C7 counterexample: with body `TITLE SUBTITLE` and only `title` set
in metadata, replacing `TITLE` also rewrites the inside of the
unresolved token `SUBTITLE`, so the output `T SUBT` does not retain
`SUBTITLE` verbatim. -/
theorem claim_C7_counterexample :
    ((("SUBTITLE").data) ∈ findTokens (("TITLE SUBTITLE").data)) ∧
    resolveValue [((("title").data), PyVal.atom (.astr (("T").data)))] []
      (("SUBTITLE").data) = none ∧
    substitute_placeholders
        [((("title").data), PyVal.atom (.astr (("T").data)))] []
        (("TITLE SUBTITLE").data) = ("T SUBT").data ∧
    occurs (("SUBTITLE").data) (("T SUBT").data) = false := by
  refine ⟨?_, rfl, ?_, rfl⟩
  · decide
  · rfl

/- ## Persistence: the text emitted by `save` (lines joined with a newline). -/

mutual

def section_to_kleis (s : PySec) (var2 : Str) : Str :=
  match s with
  | .mk lv ti c =>
    let pair := secItems c var2 0
    let contentLine :=
      if pair.1.isEmpty then ("    content = List()").data
      else ("    content = List(").data ++ pyJoin ((", ").data) pair.1 ++
        (")").data
    let base :=
      pyJoin (("\n").data)
        [("define ").data ++ var2 ++ (" = Section(").data,
         ("    level = ").data ++ natStr lv ++ (",").data,
         ("    title = ").data ++ to_kleis_string ti ++ (",").data,
         contentLine,
         (")").data]
    if pair.2.isEmpty then base
    else base ++ ("\n\n").data ++ pyJoin (("\n\n").data) pair.2

def secItems (items : List PyItem) (var2 : Str) (ctr : Nat) :
    List Str × List Str :=
  match items with
  | [] => ([], [])
  | it :: rest =>
      match it with
      | .text s =>
          let pair := secItems rest var2 ctr
          ((("Text(").data ++ to_kleis_string s ++ (")").data) :: pair.1, pair.2)
      | .eqItem e =>
          let pair := secItems rest var2 ctr
          ((("EqRef(").data ++ to_kleis_string e.label ++ (")").data) :: pair.1,
            pair.2)
      | .figItem f =>
          let pair := secItems rest var2 ctr
          ((("FigRef(").data ++ to_kleis_string f.label ++ (")").data) :: pair.1,
            pair.2)
      | .sub sub =>
          let subVar := var2 ++ ("_sub").data ++ natStr ctr
          let subDef := section_to_kleis sub subVar
          let pair := secItems rest var2 (ctr + 1)
          ((("SectionRef(").data ++ to_kleis_string subVar ++ (")").data) ::
              pair.1,
            subDef :: pair.2)

end

def scanFindF {β : Type} (tm : Str → Option (β × Str)) : Nat → Str → List β
  | 0, _ => []
  | _ + 1, [] => []
  | fuel + 1, c :: rest =>
      match tm (c :: rest) with
      | some pr => pr.1 :: scanFindF tm fuel pr.2
      | none => scanFindF tm fuel rest

def scanFind {β : Type} (tm : Str → Option (β × Str)) (s : Str) : List β :=
  scanFindF tm (s.length + 1) s

def reSearch {β : Type} (tm : Str → Option β) : Str → Option β
  | [] => tm []
  | c :: rest =>
      match tm (c :: rest) with
      | some b => some b
      | none => reSearch tm rest

def expectLit (lit : Str) (s : Str) : Option Str :=
  if startsWith lit s then some (s.drop lit.length) else none

def expectSpaces1 (s : Str) : Option Str :=
  match s with
  | [] => none
  | c :: rest =>
      if isRegexSpace c then some (rest.dropWhile isRegexSpace) else none

def skipSpaces (s : Str) : Str := s.dropWhile isRegexSpace

def takeWord1 (s : Str) : Option (Str × Str) :=
  let w := s.takeWhile isWordChar
  if w.isEmpty then none else some (w, s.drop w.length)

def notQuote (c : Char) : Bool := !(c == '\"')

def takeQuoted (s : Str) : Option (Str × Str) :=
  match s with
  | '\"' :: rest =>
      let v := rest.takeWhile notQuote
      match rest.drop v.length with
      | '\"' :: r2 => some (v, r2)
      | _ => none
  | _ => none

def tryDefineMeta (s : Str) : Option (Str × Str) :=
  match expectLit (("define").data) s with
  | none => none
  | some s1 =>
      match expectSpaces1 s1 with
      | none => none
      | some s2 =>
          match expectLit (("meta_").data) s2 with
          | none => none
          | some s3 =>
              match takeWord1 s3 with
              | none => none
              | some kv =>
                  match expectLit (("=").data) (skipSpaces kv.2) with
                  | none => none
                  | some s4 => some (kv.1, skipSpaces s4)

def tryOptField (fname : Str) (s : Str) : Option (Str × Str) :=
  match expectLit ((",").data) s with
  | none => none
  | some s1 =>
      match expectLit fname (skipSpaces s1) with
      | none => none
      | some s2 =>
          match expectLit (("=").data) (skipSpaces s2) with
          | none => none
          | some s3 => takeQuoted (skipSpaces s3)

def optField2 (fname : Str) (s : Str) : Option Str × Str :=
  match tryOptField fname s with
  | some pr => (some pr.1, pr.2)
  | none => (none, s)

def tryAuthorVal (s : Str) : Option (AuthorRec × Str) :=
  match expectLit (("Author(").data) s with
  | none => none
  | some s1 =>
      match expectLit (("name").data) (skipSpaces s1) with
      | none => none
      | some s2 =>
          match expectLit (("=").data) (skipSpaces s2) with
          | none => none
          | some s3 =>
              match takeQuoted (skipSpaces s3) with
              | none => none
              | some nv =>
                  let p1 := optField2 (("email").data) nv.2
                  let p2 := optField2 (("affiliation").data) p1.2
                  let p3 := optField2 (("role").data) p2.2
                  match expectLit ((")").data) (skipSpaces p3.2) with
                  | none => none
                  | some s7 =>
                      some (⟨nv.1, (p1.1).getD [], (p2.1).getD [],
                        (match p3.1 with
                         | some r => if r.isEmpty then ("primary").data else r
                         | none => ("primary").data)⟩, s7)

def tmMetaAuthor (s : Str) : Option ((Str × PyVal) × Str) :=
  match tryDefineMeta s with
  | none => none
  | some ks =>
      match tryAuthorVal ks.2 with
      | none => none
      | some av => some ((ks.1, PyVal.vauthor av.1), av.2)

def isCommaSpace (c : Char) : Bool := c == ',' || isRegexSpace c

def segBeforeParen (s : Str) : Option (Str × Str) :=
  let a := s.takeWhile (fun c => !(c == ')'))
  match s.drop a.length with
  | ')' :: r2 => some (a, r2)
  | _ => none

def lauF : Nat → Str → Str × Str
  | 0, s => ([], s)
  | fuel + 1, s =>
      match segBeforeParen s with
      | none => ([], s)
      | some ar =>
          if occurs (("Author").data) ar.1 then
            let ws := ar.2.takeWhile isCommaSpace
            let pr := lauF fuel (ar.2.drop ws.length)
            (ar.1 ++ ')' :: ws ++ pr.1, pr.2)
          else ([], s)

def tmMetaListAuthor (s : Str) :
    Option (Option (Str × PyVal) × Str) :=
  match tryDefineMeta s with
  | none => none
  | some ks =>
      match expectLit (("List(").data) ks.2 with
      | none => none
      | some s1 =>
          let pr := lauF s1.length s1
          if pr.1.isEmpty then none
          else
            match expectLit ((")").data) pr.2 with
            | none => none
            | some s2 =>
                let authors :=
                  scanFind tryAuthorVal pr.1
                some ((if authors.isEmpty then none
                       else some (ks.1, PyVal.vauthors authors)), s2)

def tmMetaStr (s : Str) : Option ((Str × PyVal) × Str) :=
  match tryDefineMeta s with
  | none => none
  | some ks =>
      match takeQuoted ks.2 with
      | none => none
      | some qv => some ((ks.1, PyVal.atom (.astr qv.1)), qv.2)

def tmMetaList (s : Str) : Option (Option (Str × PyVal) × Str) :=
  match tryDefineMeta s with
  | none => none
  | some ks =>
      match expectLit (("List(").data) ks.2 with
      | none => none
      | some s1 =>
          let cap := s1.takeWhile (fun c => !(c == ')'))
          match s1.drop cap.length with
          | ')' :: r2 =>
              let entry :=
                if occurs (("Author(").data) cap then none
                else
                  let items := scanFind takeQuoted cap
                  if items.isEmpty then none
                  else some (ks.1, PyVal.vlist (items.map PyAtom.astr))
              some (entry, r2)
          | _ => none

def tmMetaBool (s : Str) : Option ((Str × PyVal) × Str) :=
  match tryDefineMeta s with
  | none => none
  | some ks =>
      match expectLit (("true").data) ks.2 with
      | some r => some ((ks.1, PyVal.atom (.abool true)), r)
      | none =>
          match expectLit (("false").data) ks.2 with
          | some r => some ((ks.1, PyVal.atom (.abool false)), r)
          | none => none

def isDigitCh (c : Char) : Bool := '0' ≤ c && c ≤ '9'

def lastNl (run : Str) : Option Nat :=
  match run.reverse.findIdx? (fun c => c == '\n') with
  | some k => some (run.length - 1 - k)
  | none => none

def numEnd (s : Str) : Option Nat :=
  let run := s.takeWhile isRegexSpace
  if (s.drop run.length).isEmpty then some run.length
  else lastNl run

def natOfDigits (ds : Str) : Nat :=
  ds.foldl (fun acc c => acc * 10 + (c.toNat - 48)) 0

def tmMetaNum (s : Str) : Option ((Str × PyVal) × Str) :=
  match tryDefineMeta s with
  | none => none
  | some ks =>
      let ds := ks.2.takeWhile isDigitCh
      if ds.isEmpty then none
      else
        let after := ks.2.drop ds.length
        let frac : Option (Str × Str) :=
          match after with
          | '.' :: a2 =>
              let ds2 := a2.takeWhile isDigitCh
              if ds2.isEmpty then none
              else some (ds ++ '.' :: ds2, a2.drop ds2.length)
          | _ => none
        match frac with
        | some pr =>
            (match numEnd pr.2 with
             | some j =>
                 some ((ks.1, PyVal.atom (.afloat pr.1)), pr.2.drop j)
             | none =>
                 match numEnd after with
                 | some j =>
                     some ((ks.1,
                       PyVal.atom (.aint (Int.ofNat (natOfDigits ds)))),
                       after.drop j)
                 | none => none)
        | none =>
            match numEnd after with
            | some j =>
                some ((ks.1, PyVal.atom (.aint (Int.ofNat (natOfDigits ds)))),
                  after.drop j)
            | none => none

def endsWithStr (suf s : Str) : Bool := startsWith suf.reverse s.reverse

def tmImportTemplate (s : Str) : Option Str :=
  match expectLit (("import").data) s with
  | none => none
  | some s1 =>
      match expectSpaces1 s1 with
      | none => none
      | some s2 =>
          match takeQuoted s2 with
          | none => none
          | some qr =>
              if 7 ≤ qr.1.length && endsWithStr ((".kleis").data) qr.1 then
                some qr.1
              else none

def insertAbs (d : List (Str × PyVal)) (kv : Str × PyVal) :
    List (Str × PyVal) :=
  if (alookup d kv.1).isSome then d else aset d kv.1 kv.2

def extract_metadata (content : Str) : List (Str × PyVal) :=
  let m1 := (scanFind tmMetaAuthor content).foldl
    (fun d kv => aset d kv.1 kv.2) []
  let m2 := (scanFind tmMetaListAuthor content).foldl
    (fun d o => match o with
      | some kv => aset d kv.1 kv.2
      | none => d) m1
  let m3 := (scanFind tmMetaStr content).foldl insertAbs m2
  let m4 := (scanFind tmMetaList content).foldl
    (fun d o => match o with
      | some kv => insertAbs d kv
      | none => d) m3
  let m5 := (scanFind tmMetaBool content).foldl insertAbs m4
  let m6 := (scanFind tmMetaNum content).foldl insertAbs m5
  match reSearch tmImportTemplate content with
  | some p => aset m6 (("_template_path").data) (PyVal.atom (.astr p))
  | none => m6

def tryDefineAny (s : Str) : Option (Str × Str) :=
  match expectLit (("define").data) s with
  | none => none
  | some s1 =>
      match expectSpaces1 s1 with
      | none => none
      | some s2 =>
          match takeWord1 s2 with
          | none => none
          | some kv =>
              match expectLit (("=").data) (skipSpaces kv.2) with
              | none => none
              | some s3 => some (kv.1, skipSpaces s3)

def bodyTo (s : Str) : Option (Str × Str) :=
  match findSub (("\n)").data) s with
  | none => none
  | some i => some (s.take i, s.drop (i + 2))

def tryDefineCtor (ctor : Str) (s : Str) : Option (Str × Str × Str) :=
  match tryDefineAny s with
  | none => none
  | some vs =>
      match expectLit ctor vs.2 with
      | none => none
      | some s1 =>
          match bodyTo s1 with
          | none => none
          | some br => some (vs.1, br.1, br.2)

def fieldQuoted (fname : Str) (body : Str) : Option Str :=
  reSearch (fun s =>
    match expectLit fname s with
    | none => none
    | some s1 =>
        match expectLit (("=").data) (skipSpaces s1) with
        | none => none
        | some s2 => (takeQuoted (skipSpaces s2)).map Prod.fst) body

def fieldBool (fname : Str) (body : Str) : Option Bool :=
  reSearch (fun s =>
    match expectLit fname s with
    | none => none
    | some s1 =>
        match expectLit (("=").data) (skipSpaces s1) with
        | none => none
        | some s2 =>
            match expectLit (("true").data) (skipSpaces s2) with
            | some _ => some true
            | none =>
                match expectLit (("false").data) (skipSpaces s2) with
                | some _ => some false
                | none => none) body

def toParenSameLine (s : Str) : Bool :=
  let pre := s.takeWhile (fun c => !(c == ')') && !(c == '\n'))
  match s.drop pre.length with
  | ')' :: _ => true
  | _ => false

def astFieldPresent (body : Str) : Bool :=
  (reSearch (fun s =>
    match expectLit (("ast").data) s with
    | none => none
    | some s1 =>
        match expectLit (("=").data) (skipSpaces s1) with
        | none => none
        | some s2 =>
            let s3 := skipSpaces s2
            if startsWith (("EOp(").data) s3 then
              if toParenSameLine (s3.drop 4) then some () else none
            else if startsWith (("EObject(").data) s3 then
              if toParenSameLine (s3.drop 8) then some () else none
            else if startsWith (("EConst(").data) s3 then
              if toParenSameLine (s3.drop 7) then some () else none
            else if startsWith (("None").data) s3 then some ()
            else none) body).isSome

def parse_kleis_ast (body : Str) : Option AstNode :=
  match findSub (("ast = ").data) body with
  | none => none
  | some i => parse_ast (body.drop (i + 6))

def tmEquation (s : Str) : Option (Option (Str × EqRec) × Str) :=
  match tryDefineCtor (("Equation(").data) s with
  | none => none
  | some vbr =>
      let body := vbr.2.1
      let entry :=
        match fieldQuoted (("label").data) body with
        | none => none
        | some label =>
            some (label,
              ({ id := (fieldQuoted (("id").data) body).getD [],
                 label := label,
                 latex := (fieldQuoted (("latex").data) body).getD [],
                 typst := (fieldQuoted (("typst").data) body).getD [],
                 ast := if astFieldPresent body then parse_kleis_ast body
                        else none,
                 numbered := (fieldBool (("numbered").data) body).getD true,
                 verified := (fieldBool (("verified").data) body).getD false } :
                EqRec))
      some (entry, vbr.2.2)

def extract_equations (content : Str) : List (Str × EqRec) :=
  (scanFind tmEquation content).foldl
    (fun d o => match o with
      | some kv => aset d kv.1 kv.2
      | none => d) []

def tryRegen (s : Str) : Option Str :=
  match expectLit (("Regenerable(").data) s with
  | none => none
  | some s1 => (takeQuoted s1).map Prod.fst

def tryImported (s : Str) : Option Str :=
  match expectLit (("Imported(").data) s with
  | none => none
  | some s1 => (takeQuoted s1).map Prod.fst

def tmFigure (s : Str) : Option (Option (Str × FigRec) × Str) :=
  match tryDefineCtor (("Figure(").data) s with
  | none => none
  | some vbr =>
      let body := vbr.2.1
      let kc := if occurs (("Regenerable(").data) body then
                  reSearch tryRegen body
                else none
      let ip := if occurs (("Regenerable(").data) body then none
                else if occurs (("Imported(").data) body then
                  reSearch tryImported body
                else none
      let entry :=
        match fieldQuoted (("label").data) body with
        | none => none
        | some label =>
            some (label,
              ({ id := (fieldQuoted (("id").data) body).getD [],
                 label := label,
                 caption := (fieldQuoted (("caption").data) body).getD [],
                 kleis_code := kc,
                 svg_cache := none,
                 typst_fragment := none,
                 image_path := ip } : FigRec))
      some (entry, vbr.2.2)

def extract_figures (content : Str) : List (Str × FigRec) :=
  (scanFind tmFigure content).foldl
    (fun d o => match o with
      | some kv => aset d kv.1 kv.2
      | none => d) []

def tryDefineContent (s : Str) : Option (Str × Str) :=
  match expectLit (("define").data) s with
  | none => none
  | some s1 =>
      match expectSpaces1 s1 with
      | none => none
      | some s2 =>
          match expectLit (("content_").data) s2 with
          | none => none
          | some s3 =>
              match takeWord1 s3 with
              | none => none
              | some kv =>
                  match expectLit (("=").data) (skipSpaces kv.2) with
                  | none => none
                  | some s4 => some (kv.1, skipSpaces s4)

def tmContentStr (s : Str) : Option ((Str × PyVal) × Str) :=
  match tryDefineContent s with
  | none => none
  | some ks =>
      match takeQuoted ks.2 with
      | none => none
      | some qv => some ((ks.1, PyVal.atom (.astr qv.1)), qv.2)

def tmContentList (s : Str) : Option ((Str × PyVal) × Str) :=
  match tryDefineContent s with
  | none => none
  | some ks =>
      match expectLit (("List(").data) ks.2 with
      | none => none
      | some s1 =>
          let cap := s1.takeWhile (fun c => !(c == ')'))
          match s1.drop cap.length with
          | ')' :: r2 =>
              let items := scanFind takeQuoted cap
              some ((ks.1, PyVal.vlist (items.map PyAtom.astr)), r2)
          | _ => none

def extract_content_blocks (content : Str) : List (Str × PyVal) :=
  let b1 := (scanFind tmContentStr content).foldl
    (fun d kv => aset d kv.1 kv.2) []
  (scanFind tmContentList content).foldl (fun d kv => aset d kv.1 kv.2) b1

def headersCap (body : Str) : Option Str :=
  reSearch (fun s =>
    match expectLit (("headers").data) s with
    | none => none
    | some s1 =>
        match expectLit (("=").data) (skipSpaces s1) with
        | none => none
        | some s2 =>
            match expectLit (("List(").data) (skipSpaces s2) with
            | none => none
            | some s3 =>
                let cap := s3.takeWhile (fun c => !(c == ')') && !(c == '\n'))
                match s3.drop cap.length with
                | ')' :: _ => some cap
                | _ => none) body

def tmTable (s : Str) : Option (Option (Str × TabRec) × Str) :=
  match tryDefineCtor (("Table(").data) s with
  | none => none
  | some vbr =>
      let body := vbr.2.1
      let entry :=
        match fieldQuoted (("label").data) body with
        | none => none
        | some label =>
            some (label,
              ({ label := label,
                 headers := match headersCap body with
                   | some cap => scanFind takeQuoted cap
                   | none => [],
                 rows := [],
                 caption := (fieldQuoted (("caption").data) body).getD [],
                 kleis_code := none } : TabRec))
      some (entry, vbr.2.2)

def extract_tables (content : Str) : List (Str × TabRec) :=
  (scanFind tmTable content).foldl
    (fun d o => match o with
      | some kv => aset d kv.1 kv.2
      | none => d) []

def tmTheorem (s : Str) : Option (Option (Str × ThmRec) × Str) :=
  match tryDefineCtor (("Theorem(").data) s with
  | none => none
  | some vbr =>
      let body := vbr.2.1
      let entry :=
        match fieldQuoted (("label").data) body with
        | none => none
        | some label =>
            some (label,
              ({ label := label,
                 kind := (fieldQuoted (("kind").data) body).getD
                   (("theorem").data),
                 statement := (fieldQuoted (("statement").data) body).getD [],
                 proof := fieldQuoted (("proof").data) body,
                 name := fieldQuoted (("name").data) body } : ThmRec))
      some (entry, vbr.2.2)

def extract_theorems (content : Str) : List (Str × ThmRec) :=
  (scanFind tmTheorem content).foldl
    (fun d o => match o with
      | some kv => aset d kv.1 kv.2
      | none => d) []

def tmAlgorithm (s : Str) : Option (Option (Str × AlgRec) × Str) :=
  match tryDefineCtor (("Algorithm(").data) s with
  | none => none
  | some vbr =>
      let body := vbr.2.1
      let entry :=
        match fieldQuoted (("label").data) body with
        | none => none
        | some label =>
            some (label,
              ({ label := label,
                 name := (fieldQuoted (("name").data) body).getD [],
                 pseudocode := (fieldQuoted (("pseudocode").data) body).getD [],
                 caption := (fieldQuoted (("caption").data) body).getD [] } :
                AlgRec))
      some (entry, vbr.2.2)

def extract_algorithms (content : Str) : List (Str × AlgRec) :=
  (scanFind tmAlgorithm content).foldl
    (fun d o => match o with
      | some kv => aset d kv.1 kv.2
      | none => d) []

def tryDefineBib (s : Str) : Option Str :=
  match expectLit (("define").data) s with
  | none => none
  | some s1 =>
      match expectSpaces1 s1 with
      | none => none
      | some s2 =>
          match expectLit (("bib_").data) s2 with
          | none => none
          | some s3 =>
              match takeWord1 s3 with
              | none => none
              | some kv =>
                  match expectLit (("=").data) (skipSpaces kv.2) with
                  | none => none
                  | some s4 =>
                      match expectLit (("BibEntry(").data) (skipSpaces s4) with
                      | none => none
                      | some s5 => some s5

def tmBib (s : Str) : Option (Option (Str × BibRec) × Str) :=
  match tryDefineBib s with
  | none => none
  | some s5 =>
      match bodyTo s5 with
      | none => none
      | some br =>
          let body := br.1
          let entry :=
            match fieldQuoted (("key").data) body with
            | none => none
            | some key =>
                some (key,
                  ({ key := key,
                     entry_type := (fieldQuoted (("entry_type").data) body).getD
                       (("article").data),
                     title := (fieldQuoted (("title").data) body).getD [],
                     authors := (fieldQuoted (("authors").data) body).getD [],
                     year := (fieldQuoted (("year").data) body).getD [],
                     journal := (fieldQuoted (("journal").data) body).getD [],
                     volume := (fieldQuoted (("volume").data) body).getD [],
                     pages := (fieldQuoted (("pages").data) body).getD [],
                     publisher := (fieldQuoted (("publisher").data) body).getD [],
                     doi := (fieldQuoted (("doi").data) body).getD [],
                     url := (fieldQuoted (("url").data) body).getD [],
                     note := (fieldQuoted (("note").data) body).getD [] } :
                    BibRec))
          some (entry, br.2)

def extract_bibliography (content : Str) : List (Str × BibRec) :=
  (scanFind tmBib content).foldl
    (fun d o => match o with
      | some kv => aset d kv.1 kv.2
      | none => d) []

def tryDefineCrossRef (s : Str) : Option Str :=
  match expectLit (("define").data) s with
  | none => none
  | some s1 =>
      match expectSpaces1 s1 with
      | none => none
      | some s2 =>
          match expectLit (("crossref_").data) s2 with
          | none => none
          | some s3 =>
              let ds := s3.takeWhile isDigitCh
              if ds.isEmpty then none
              else
                match expectLit (("=").data)
                    (skipSpaces (s3.drop ds.length)) with
                | none => none
                | some s4 =>
                    match expectLit (("CrossRef(").data) (skipSpaces s4) with
                    | none => none
                    | some s5 => some s5

def tmCrossRef (s : Str) : Option (Option CrossRef × Str) :=
  match tryDefineCrossRef s with
  | none => none
  | some s5 =>
      match bodyTo s5 with
      | none => none
      | some br =>
          let body := br.1
          let entry :=
            match fieldQuoted (("ref_type").data) body with
            | none => none
            | some rt =>
                match fieldQuoted (("target").data) body with
                | none => none
                | some tgt =>
                    some (⟨rt, tgt, fieldQuoted (("text").data) body⟩ :
                      CrossRef)
          some (entry, br.2)

def extract_cross_refs (content : Str) : List CrossRef :=
  (scanFind tmCrossRef content).foldl
    (fun l o => match o with
      | some r => l ++ [r]
      | none => l) []

def trySectionVar (s : Str) : Option (Str × Str) :=
  match expectLit (("section_").data) s with
  | none => none
  | some s1 =>
      let w := s1.takeWhile isWordChar
      if w.isEmpty then none
      else some (("section_").data ++ w, s1.drop w.length)

def tryTextItem (s : Str) : Option (Str × Str) :=
  match expectLit (("Text(").data) s with
  | none => none
  | some s1 =>
      match takeQuoted s1 with
      | none => none
      | some qv =>
          match expectLit ((")").data) qv.2 with
          | none => none
          | some r => some (qv.1, r)

def tryEqRefItem (s : Str) : Option (Str × Str) :=
  match expectLit (("EqRef(").data) s with
  | none => none
  | some s1 =>
      match takeQuoted s1 with
      | none => none
      | some qv =>
          match expectLit ((")").data) qv.2 with
          | none => none
          | some r => some (qv.1, r)

def tryFigRefItem (s : Str) : Option (Str × Str) :=
  match expectLit (("FigRef(").data) s with
  | none => none
  | some s1 =>
      match takeQuoted s1 with
      | none => none
      | some qv =>
          match expectLit ((")").data) qv.2 with
          | none => none
          | some r => some (qv.1, r)

def toLastParen (s : Str) : Option Str :=
  match s.reverse.findIdx? (fun c => c == ')') with
  | none => none
  | some k => some (s.take (s.length - 1 - k))

def contentCap (body : Str) : Option Str :=
  reSearch (fun s =>
    match expectLit (("content").data) s with
    | none => none
    | some s1 =>
        match expectLit (("=").data) (skipSpaces s1) with
        | none => none
        | some s2 =>
            match expectLit (("List(").data) (skipSpaces s2) with
            | none => none
            | some s3 => toLastParen s3) body

def fieldNat (fname : Str) (body : Str) : Option Nat :=
  reSearch (fun s =>
    match expectLit fname s with
    | none => none
    | some s1 =>
        match expectLit (("=").data) (skipSpaces s1) with
        | none => none
        | some s2 =>
            let ds := (skipSpaces s2).takeWhile isDigitCh
            if ds.isEmpty then none else some (natOfDigits ds)) body

def secContentItems (cap : Str) (eqs : List (Str × EqRec))
    (figs : List (Str × FigRec)) : List PyItem :=
  ((scanFind tryTextItem cap).map PyItem.text) ++
    ((scanFind tryEqRefItem cap).filterMap (fun l =>
      (alookup eqs l).map PyItem.eqItem)) ++
    ((scanFind tryFigRefItem cap).filterMap (fun l =>
      (alookup figs l).map PyItem.figItem))

def tmSection (eqs : List (Str × EqRec)) (figs : List (Str × FigRec))
    (s : Str) : Option (FlatSec PyItem × Str) :=
  match expectLit (("define").data) s with
  | none => none
  | some s1 =>
      match expectSpaces1 s1 with
      | none => none
      | some s2 =>
          match trySectionVar s2 with
          | none => none
          | some vs =>
              match expectLit (("=").data) (skipSpaces vs.2) with
              | none => none
              | some s3 =>
                  match expectLit (("Section(").data) (skipSpaces s3) with
                  | none => none
                  | some s4 =>
                      match bodyTo s4 with
                      | none => none
                      | some br =>
                          let body := br.1
                          some (⟨(fieldNat (("level").data) body).getD 1,
                            (fieldQuoted (("title").data) body).getD [],
                            match contentCap body with
                            | some cap => secContentItems cap eqs figs
                            | none => []⟩, br.2)

mutual

def streeToPySec (t : STree PyItem) : PySec :=
  match t with
  | .node l ti items => .mk l ti (streeItems items)

def streeItems (items : List (PyItem ⊕ STree PyItem)) : List PyItem :=
  match items with
  | [] => []
  | Sum.inl p :: rest => p :: streeItems rest
  | Sum.inr sub :: rest => PyItem.sub (streeToPySec sub) :: streeItems rest

end

def extract_sections (content : Str) (eqs : List (Str × EqRec))
    (figs : List (Str × FigRec)) : List PySec :=
  (buildHierarchy (scanFind (tmSection eqs figs) content)).map streeToPySec

def aremove {α : Type} : List (Str × α) → Str → List (Str × α)
  | [], _ => []
  | (k2, v) :: rest, k => if k2 = k then rest else (k2, v) :: aremove rest k

def popTemplate (md : List (Str × PyVal)) : Option Str × List (Str × PyVal) :=
  match alookup md (("_template_path").data) with
  | some (.atom (.astr p)) => (some p, aremove md (("_template_path").data))
  | some _ => (some [], aremove md (("_template_path").data))
  | none => (none, md)

def load (content : Str) : Doc :=
  let pr := popTemplate (extract_metadata content)
  let eqs := extract_equations content
  let figs := extract_figures content
  { metadata := pr.2,
    template_path := pr.1,
    sections := extract_sections content eqs figs,
    equations := eqs,
    figures := figs,
    bibliography := extract_bibliography content,
    cross_refs := extract_cross_refs content,
    content_blocks := extract_content_blocks content,
    tables := extract_tables content,
    theorems := extract_theorems content,
    algorithms := extract_algorithms content }

/- ## Generic facts about the scanners. -/

def StepDec {β : Type} (tm : Str → Option (β × Str)) : Prop :=
  ∀ s pr, tm s = some pr → pr.2.length < s.length

theorem scanFind_cons_none {β : Type} (tm : Str → Option (β × Str))
    (hdec : StepDec tm) (c : Char) (rest : Str)
    (h : tm (c :: rest) = none) :
    scanFind tm (c :: rest) = scanFind tm rest := by
  show scanFindF tm ((c :: rest).length + 1) (c :: rest) = scanFind tm rest
  rw [show (c :: rest).length + 1 = rest.length + 2 from by simp]
  show (match tm (c :: rest) with
        | some pr => pr.1 :: scanFindF tm (rest.length + 1) pr.2
        | none => scanFindF tm (rest.length + 1) rest) = scanFind tm rest
  rw [h]
  rfl

theorem scanFind_append_skip {β : Type} (tm : Str → Option (β × Str))
    (hdec : StepDec tm) :
    ∀ (P X : Str), (∀ i, i < P.length → tm (P.drop i ++ X) = none) →
      scanFind tm (P ++ X) = scanFind tm X := by
  intro P
  induction P with
  | nil => intro X _; rfl
  | cons c P2 ih =>
    intro X hfail
    have h0 : tm ((c :: P2) ++ X) = none := by
      have := hfail 0 (by simp)
      simpa using this
    rw [show (c :: P2) ++ X = c :: (P2 ++ X) from rfl] at h0 ⊢
    rw [scanFind_cons_none tm hdec _ _ h0]
    exact ih X (fun i hi => by
      have := hfail (i + 1) (by simp; omega)
      simpa using this)

theorem reSearch_cons_none {β : Type} (tm : Str → Option β) (c : Char)
    (rest : Str) (h : tm (c :: rest) = none) :
    reSearch tm (c :: rest) = reSearch tm rest := by
  show (match tm (c :: rest) with
        | some b => some b
        | none => reSearch tm rest) = reSearch tm rest
  rw [h]

theorem reSearch_cons_some {β : Type} (tm : Str → Option β) (c : Char)
    (rest : Str) (b : β) (h : tm (c :: rest) = some b) :
    reSearch tm (c :: rest) = some b := by
  show (match tm (c :: rest) with
        | some b => some b
        | none => reSearch tm rest) = some b
  rw [h]

theorem reSearch_append_skip {β : Type} (tm : Str → Option β) :
    ∀ (P X : Str), (∀ i, i < P.length → tm (P.drop i ++ X) = none) →
      reSearch tm (P ++ X) = reSearch tm X := by
  intro P
  induction P with
  | nil => intro X _; rfl
  | cons c P2 ih =>
    intro X hfail
    have h0 : tm ((c :: P2) ++ X) = none := by
      have := hfail 0 (by simp)
      simpa using this
    rw [show (c :: P2) ++ X = c :: (P2 ++ X) from rfl] at h0 ⊢
    rw [reSearch_cons_none tm _ _ h0]
    exact ih X (fun i hi => by
      have := hfail (i + 1) (by simp; omega)
      simpa using this)

theorem expectLit_len {lit s r : Str} (h : expectLit lit s = some r) :
    r.length + lit.length = s.length := by
  unfold expectLit at h
  split at h
  · rename_i hsw
    have hpre : lit <+: s := List.isPrefixOf_iff_prefix.mp hsw
    have hle : lit.length ≤ s.length := hpre.length_le
    cases h
    rw [List.length_drop]
    omega
  · cases h

theorem expectSpaces1_lt {s r : Str} (h : expectSpaces1 s = some r) :
    r.length < s.length := by
  cases s with
  | nil => simp [expectSpaces1] at h
  | cons c rest =>
    by_cases hc : isRegexSpace c
    · simp only [expectSpaces1, hc, if_true, Option.some.injEq] at h
      subst h
      have : (rest.dropWhile isRegexSpace).length ≤ rest.length :=
        (List.dropWhile_sublist _).length_le
      simp only [List.length_cons]
      omega
    · simp [expectSpaces1, hc] at h

theorem skipSpaces_le (s : Str) : (skipSpaces s).length ≤ s.length :=
  (List.dropWhile_sublist _).length_le

theorem takeWord1_lt {s : Str} {pr : Str × Str} (h : takeWord1 s = some pr) :
    pr.2.length < s.length := by
  unfold takeWord1 at h
  by_cases hw : (s.takeWhile isWordChar).isEmpty
  · simp only [hw, if_true] at h
    cases h
  · rw [if_neg (by simp [hw])] at h
    rw [Option.some.injEq] at h
    subst h
    have hpos : 0 < (s.takeWhile isWordChar).length := by
      cases hq : s.takeWhile isWordChar with
      | nil => rw [hq] at hw; simp at hw
      | cons a b => simp [hq]
    have hle : (s.takeWhile isWordChar).length ≤ s.length :=
      (List.takeWhile_sublist _).length_le
    rw [List.length_drop]
    omega

theorem takeQuoted_lt {s : Str} {pr : Str × Str} (h : takeQuoted s = some pr) :
    pr.2.length < s.length := by
  unfold takeQuoted at h
  revert h
  split
  · rename_i rest2
    intro h
    dsimp only at h
    revert h
    split
    · rename_i r2 heq
      intro h
      rw [Option.some.injEq] at h
      subst h
      have h2 : (('\"' :: r2) : Str).length ≤
          rest2.length - (rest2.takeWhile notQuote).length := by
        rw [← heq, List.length_drop]
      have h3 : (rest2.takeWhile notQuote).length ≤ rest2.length :=
        (List.takeWhile_sublist _).length_le
      simp only [List.length_cons] at h2 ⊢
      omega
    · intro h
      cases h
  · intro h
    cases h

theorem findSub_bound {pat : Str} (hne : pat ≠ []) :
    ∀ {s : Str} {i : Nat}, findSub pat s = some i → i + pat.length ≤ s.length := by
  intro s
  induction s with
  | nil =>
    intro i h
    cases pat with
    | nil => exact absurd rfl hne
    | cons p ps => simp [findSub, startsWith, List.isPrefixOf] at h
  | cons c rest ih =>
    intro i h
    unfold findSub at h
    split at h
    · rename_i hsw
      cases h
      have hpre : pat <+: (c :: rest) := List.isPrefixOf_iff_prefix.mp hsw
      simpa using hpre.length_le
    · rw [Option.map_eq_some'] at h
      rcases h with ⟨j, hj, rfl⟩
      have := ih hj
      simp only [List.length_cons]
      omega

theorem bodyTo_lt {s : Str} {pr : Str × Str} (h : bodyTo s = some pr) :
    pr.2.length < s.length := by
  unfold bodyTo at h
  cases hf : findSub (("\n)").data) s with
  | none => rw [hf] at h; cases h
  | some i =>
    rw [hf] at h
    rw [Option.some.injEq] at h
    subst h
    have hb := findSub_bound (by decide) hf
    simp only [List.length_drop]
    simp only [show (("\n)").data).length = 2 from rfl] at hb
    omega

theorem tryDefineMeta_lt {s : Str} {pr : Str × Str}
    (h : tryDefineMeta s = some pr) : pr.2.length < s.length := by
  unfold tryDefineMeta at h
  cases h1 : expectLit (("define").data) s with
  | none => simp [h1] at h
  | some s1 =>
    simp only [h1] at h
    cases h2 : expectSpaces1 s1 with
    | none => simp [h2] at h
    | some s2 =>
      simp only [h2] at h
      cases h3 : expectLit (("meta_").data) s2 with
      | none => simp [h3] at h
      | some s3 =>
        simp only [h3] at h
        cases h4 : takeWord1 s3 with
        | none => simp [h4] at h
        | some kv =>
          simp only [h4] at h
          cases h5 : expectLit (("=").data) (skipSpaces kv.2) with
          | none => simp [h5] at h
          | some s4 =>
            simp only [h5] at h
            rw [Option.some.injEq] at h
            subst h
            have e1 := expectLit_len h1
            have e2 := expectSpaces1_lt h2
            have e3 := expectLit_len h3
            have e4 := takeWord1_lt h4
            have e5 := skipSpaces_le kv.2
            have e6 := expectLit_len h5
            have e7 := skipSpaces_le s4
            simp only [show (("define").data).length = 6 from rfl] at e1
            simp only [show (("meta_").data).length = 5 from rfl] at e3
            simp only [show (("=").data).length = 1 from rfl] at e6
            simp only
            omega

theorem tryDefineAny_lt {s : Str} {pr : Str × Str}
    (h : tryDefineAny s = some pr) : pr.2.length < s.length := by
  unfold tryDefineAny at h
  cases h1 : expectLit (("define").data) s with
  | none => simp [h1] at h
  | some s1 =>
    simp only [h1] at h
    cases h2 : expectSpaces1 s1 with
    | none => simp [h2] at h
    | some s2 =>
      simp only [h2] at h
      cases h4 : takeWord1 s2 with
      | none => simp [h4] at h
      | some kv =>
        simp only [h4] at h
        cases h5 : expectLit (("=").data) (skipSpaces kv.2) with
        | none => simp [h5] at h
        | some s4 =>
          simp only [h5] at h
          rw [Option.some.injEq] at h
          subst h
          have e1 := expectLit_len h1
          have e2 := expectSpaces1_lt h2
          have e4 := takeWord1_lt h4
          have e5 := skipSpaces_le kv.2
          have e6 := expectLit_len h5
          have e7 := skipSpaces_le s4
          simp only [show (("define").data).length = 6 from rfl] at e1
          simp only [show (("=").data).length = 1 from rfl] at e6
          simp only
          omega

theorem tryDefineCtor_lt {ctor s : Str} {pr : Str × Str × Str}
    (h : tryDefineCtor ctor s = some pr) : pr.2.2.length < s.length := by
  unfold tryDefineCtor at h
  cases h1 : tryDefineAny s with
  | none => simp [h1] at h
  | some vs =>
    simp only [h1] at h
    cases h2 : expectLit ctor vs.2 with
    | none => simp [h2] at h
    | some s1 =>
      simp only [h2] at h
      cases h3 : bodyTo s1 with
      | none => simp [h3] at h
      | some br =>
        simp only [h3] at h
        rw [Option.some.injEq] at h
        subst h
        have e1 := tryDefineAny_lt h1
        have e2 := expectLit_len h2
        have e3 := bodyTo_lt h3
        simp only
        omega

theorem tryDefineContent_lt {s : Str} {pr : Str × Str}
    (h : tryDefineContent s = some pr) : pr.2.length < s.length := by
  unfold tryDefineContent at h
  cases h1 : expectLit (("define").data) s with
  | none => simp [h1] at h
  | some s1 =>
    simp only [h1] at h
    cases h2 : expectSpaces1 s1 with
    | none => simp [h2] at h
    | some s2 =>
      simp only [h2] at h
      cases h3 : expectLit (("content_").data) s2 with
      | none => simp [h3] at h
      | some s3 =>
        simp only [h3] at h
        cases h4 : takeWord1 s3 with
        | none => simp [h4] at h
        | some kv =>
          simp only [h4] at h
          cases h5 : expectLit (("=").data) (skipSpaces kv.2) with
          | none => simp [h5] at h
          | some s4 =>
            simp only [h5, Option.some.injEq] at h
            subst h
            have e1 := expectLit_len h1
            have e2 := expectSpaces1_lt h2
            have e3 := expectLit_len h3
            have e4 := takeWord1_lt h4
            have e5 := skipSpaces_le kv.2
            have e6 := expectLit_len h5
            have e7 := skipSpaces_le s4
            simp only [show (("define").data).length = 6 from rfl] at e1
            simp only [show (("content_").data).length = 8 from rfl] at e3
            simp only [show (("=").data).length = 1 from rfl] at e6
            simp only
            omega

theorem tryDefineBib_lt {s : Str} {r : Str}
    (h : tryDefineBib s = some r) : r.length < s.length := by
  unfold tryDefineBib at h
  cases h1 : expectLit (("define").data) s with
  | none => simp [h1] at h
  | some s1 =>
    simp only [h1] at h
    cases h2 : expectSpaces1 s1 with
    | none => simp [h2] at h
    | some s2 =>
      simp only [h2] at h
      cases h3 : expectLit (("bib_").data) s2 with
      | none => simp [h3] at h
      | some s3 =>
        simp only [h3] at h
        cases h4 : takeWord1 s3 with
        | none => simp [h4] at h
        | some kv =>
          simp only [h4] at h
          cases h5 : expectLit (("=").data) (skipSpaces kv.2) with
          | none => simp [h5] at h
          | some s4 =>
            simp only [h5] at h
            cases h6 : expectLit (("BibEntry(").data) (skipSpaces s4) with
            | none => simp [h6] at h
            | some s5 =>
              simp only [h6, Option.some.injEq] at h
              subst h
              have e1 := expectLit_len h1
              have e2 := expectSpaces1_lt h2
              have e3 := expectLit_len h3
              have e4 := takeWord1_lt h4
              have e5 := skipSpaces_le kv.2
              have e6 := expectLit_len h5
              have e7 := skipSpaces_le s4
              have e8 := expectLit_len h6
              simp only [show (("define").data).length = 6 from rfl] at e1
              simp only [show (("bib_").data).length = 4 from rfl] at e3
              simp only [show (("=").data).length = 1 from rfl] at e6
              simp only [show (("BibEntry(").data).length = 9 from rfl] at e8
              omega

theorem tryDefineCrossRef_lt {s : Str} {r : Str}
    (h : tryDefineCrossRef s = some r) : r.length < s.length := by
  unfold tryDefineCrossRef at h
  cases h1 : expectLit (("define").data) s with
  | none => simp [h1] at h
  | some s1 =>
    simp only [h1] at h
    cases h2 : expectSpaces1 s1 with
    | none => simp [h2] at h
    | some s2 =>
      simp only [h2] at h
      cases h3 : expectLit (("crossref_").data) s2 with
      | none => simp [h3] at h
      | some s3 =>
        simp only [h3] at h
        by_cases hds : (s3.takeWhile isDigitCh).isEmpty
        · simp [hds] at h
        · simp only [hds, if_false] at h
          cases h5 : expectLit (("=").data)
              (skipSpaces (s3.drop (s3.takeWhile isDigitCh).length)) with
          | none => simp [h5] at h
          | some s4 =>
            simp only [h5] at h
            cases h6 : expectLit (("CrossRef(").data) (skipSpaces s4) with
            | none => simp [h6] at h
            | some s5 =>
              simp only [h6] at h
              rw [if_neg (by simp)] at h
              rw [Option.some.injEq] at h
              subst h
              have e1 := expectLit_len h1
              have e2 := expectSpaces1_lt h2
              have e3 := expectLit_len h3
              have e5a := skipSpaces_le (s3.drop (s3.takeWhile isDigitCh).length)
              have e5b : (s3.drop (s3.takeWhile isDigitCh).length).length ≤ s3.length := by
                rw [List.length_drop]; omega
              have e6 := expectLit_len h5
              have e7 := skipSpaces_le s4
              have e8 := expectLit_len h6
              simp only [show (("define").data).length = 6 from rfl] at e1
              simp only [show (("crossref_").data).length = 9 from rfl] at e3
              simp only [show (("=").data).length = 1 from rfl] at e6
              simp only [show (("CrossRef(").data).length = 9 from rfl] at e8
              omega

theorem tryOptField_lt {fname s : Str} {pr : Str × Str}
    (h : tryOptField fname s = some pr) : pr.2.length < s.length := by
  unfold tryOptField at h
  cases h1 : expectLit ((",").data) s with
  | none => simp [h1] at h
  | some s1 =>
    simp only [h1] at h
    cases h2 : expectLit fname (skipSpaces s1) with
    | none => simp [h2] at h
    | some s2 =>
      simp only [h2] at h
      cases h3 : expectLit (("=").data) (skipSpaces s2) with
      | none => simp [h3] at h
      | some s3 =>
        simp only [h3] at h
        have e1 := expectLit_len h1
        have e1b := skipSpaces_le s1
        have e2 := expectLit_len h2
        have e2b := skipSpaces_le s2
        have e3 := expectLit_len h3
        have e3b := skipSpaces_le s3
        have e4 := takeQuoted_lt h
        simp only [show ((",").data).length = 1 from rfl] at e1
        simp only [show (("=").data).length = 1 from rfl] at e3
        omega

theorem tryAuthorVal_lt {s : Str} {pr : AuthorRec × Str}
    (h : tryAuthorVal s = some pr) : pr.2.length < s.length := by
  unfold tryAuthorVal at h
  cases h1 : expectLit (("Author(").data) s with
  | none => simp [h1] at h
  | some s1 =>
    simp only [h1] at h
    cases h2 : expectLit (("name").data) (skipSpaces s1) with
    | none => simp [h2] at h
    | some s2 =>
      simp only [h2] at h
      cases h3 : expectLit (("=").data) (skipSpaces s2) with
      | none => simp [h3] at h
      | some s3 =>
        simp only [h3] at h
        cases h4 : takeQuoted (skipSpaces s3) with
        | none => simp [h4] at h
        | some nv =>
          simp only [h4] at h
          have hname : nv.2.length < s.length := by
            have e1 := expectLit_len h1
            have e1b := skipSpaces_le s1
            have e2 := expectLit_len h2
            have e2b := skipSpaces_le s2
            have e3 := expectLit_len h3
            have e3b := skipSpaces_le s3
            have e4 := takeQuoted_lt h4
            simp only [show (("Author(").data).length = 7 from rfl] at e1
            simp only [show (("name").data).length = 4 from rfl] at e2
            simp only [show (("=").data).length = 1 from rfl] at e3
            omega
          have hof : ∀ (f u : Str), (optField2 f u).2.length ≤ u.length := by
            intro f u
            unfold optField2
            cases ho : tryOptField f u with
            | none => exact le_refl _
            | some pr2 => exact le_of_lt (tryOptField_lt ho)
          cases h6 : expectLit ((")").data)
              (skipSpaces (optField2 (("role").data)
                (optField2 (("affiliation").data)
                  (optField2 (("email").data) nv.2).2).2).2) with
          | none => simp [h6] at h
          | some s7 =>
            simp only [h6, Option.some.injEq] at h
            subst h
            have e5 := expectLit_len h6
            have e6 := skipSpaces_le (optField2 (("role").data)
                (optField2 (("affiliation").data)
                  (optField2 (("email").data) nv.2).2).2).2
            have e7 := hof (("role").data)
              (optField2 (("affiliation").data)
                (optField2 (("email").data) nv.2).2).2
            have e8 := hof (("affiliation").data)
              (optField2 (("email").data) nv.2).2
            have e9 := hof (("email").data) nv.2
            have hl : (((")").data) : Str).length = 1 := rfl
            rw [hl] at e5
            simp only
            omega

theorem segBeforeParen_len {s : Str} {pr : Str × Str}
    (h : segBeforeParen s = some pr) :
    pr.1.length + 1 + pr.2.length = s.length := by
  unfold segBeforeParen at h
  revert h
  dsimp only
  split
  · rename_i r2 heq
    intro h
    rw [Option.some.injEq] at h
    subst h
    have hlen : (s.drop ((s.takeWhile (fun c => !(c == ')'))).length)).length
        = s.length - ((s.takeWhile (fun c => !(c == ')'))).length) :=
      List.length_drop _ _
    rw [heq] at hlen
    have hle : (s.takeWhile (fun c => !(c == ')'))).length ≤ s.length :=
      (List.takeWhile_sublist _).length_le
    simp only [List.length_cons] at hlen
    simp only
    omega
  · intro h
    cases h

theorem lauF_le : ∀ (fuel : Nat) (s : Str), (lauF fuel s).2.length ≤ s.length := by
  intro fuel
  induction fuel with
  | zero => intro s; exact le_refl _
  | succ f ih =>
    intro s
    show (match segBeforeParen s with
          | none => (([] : Str), s)
          | some ar =>
              if occurs (("Author").data) ar.1 then
                let ws := ar.2.takeWhile isCommaSpace
                let pr := lauF f (ar.2.drop ws.length)
                (ar.1 ++ ')' :: ws ++ pr.1, pr.2)
              else ([], s)).2.length ≤ s.length
    cases hseg : segBeforeParen s with
    | none => exact le_refl _
    | some ar =>
      dsimp only
      by_cases hocc : occurs (("Author").data) ar.1
      · rw [if_pos hocc]
        dsimp only
        have h1 := ih (ar.2.drop (ar.2.takeWhile isCommaSpace).length)
        have h2 : (ar.2.drop (ar.2.takeWhile isCommaSpace).length).length
            ≤ ar.2.length := by
          rw [List.length_drop]; omega
        have h3 := segBeforeParen_len hseg
        omega
      · rw [if_neg hocc]

theorem tmMetaStr_dec : StepDec tmMetaStr := by
  intro s pr h
  unfold tmMetaStr at h
  cases h1 : tryDefineMeta s with
  | none => simp [h1] at h
  | some ks =>
    simp only [h1] at h
    cases h2 : takeQuoted ks.2 with
    | none => simp [h2] at h
    | some qv =>
      simp only [h2, Option.some.injEq] at h
      subst h
      have e1 := tryDefineMeta_lt h1
      have e2 := takeQuoted_lt h2
      simp only
      omega

theorem tmMetaAuthor_dec : StepDec tmMetaAuthor := by
  intro s pr h
  unfold tmMetaAuthor at h
  cases h1 : tryDefineMeta s with
  | none => simp [h1] at h
  | some ks =>
    simp only [h1] at h
    cases h2 : tryAuthorVal ks.2 with
    | none => simp [h2] at h
    | some av =>
      simp only [h2, Option.some.injEq] at h
      subst h
      have e1 := tryDefineMeta_lt h1
      have e2 := tryAuthorVal_lt h2
      simp only
      omega

theorem tmMetaListAuthor_dec : StepDec tmMetaListAuthor := by
  intro s pr h
  unfold tmMetaListAuthor at h
  cases h1 : tryDefineMeta s with
  | none => simp [h1] at h
  | some ks =>
    simp only [h1] at h
    cases h2 : expectLit (("List(").data) ks.2 with
    | none => simp [h2] at h
    | some s1 =>
      simp only [h2] at h
      by_cases h3 : (lauF s1.length s1).1.isEmpty
      · simp [h3] at h
      · simp only [h3, if_false] at h
        cases h4 : expectLit ((")").data) (lauF s1.length s1).2 with
        | none => simp [h4] at h
        | some s2 =>
          simp only [h4] at h
          rw [if_neg (by simp)] at h
          rw [Option.some.injEq] at h
          subst h
          have e1 := tryDefineMeta_lt h1
          have e2 := expectLit_len h2
          have e3 := lauF_le s1.length s1
          have e4 := expectLit_len h4
          have hl : ((("List(").data) : Str).length = 5 := rfl
          have hr : ((((")").data)) : Str).length = 1 := rfl
          rw [hl] at e2
          rw [hr] at e4
          simp only
          omega

theorem tmMetaList_dec : StepDec tmMetaList := by
  intro s pr h
  unfold tmMetaList at h
  cases h1 : tryDefineMeta s with
  | none => simp [h1] at h
  | some ks =>
    simp only [h1] at h
    cases h2 : expectLit (("List(").data) ks.2 with
    | none => simp [h2] at h
    | some s1 =>
      simp only [h2] at h
      revert h
      split
      · rename_i r2 heq
        intro h
        rw [Option.some.injEq] at h
        subst h
        have e1 := tryDefineMeta_lt h1
        have e2 := expectLit_len h2
        have hlen : (s1.drop ((s1.takeWhile (fun c => !(c == ')'))).length)).length
            = s1.length - (s1.takeWhile (fun c => !(c == ')'))).length :=
          List.length_drop _ _
        rw [heq] at hlen
        have hle : (s1.takeWhile (fun c => !(c == ')'))).length ≤ s1.length :=
          (List.takeWhile_sublist _).length_le
        have hl : ((("List(").data) : Str).length = 5 := rfl
        rw [hl] at e2
        simp only [List.length_cons] at hlen
        simp only
        omega
      · intro h
        cases h

theorem tmMetaBool_dec : StepDec tmMetaBool := by
  intro s pr h
  unfold tmMetaBool at h
  cases h1 : tryDefineMeta s with
  | none => simp [h1] at h
  | some ks =>
    simp only [h1] at h
    cases h2 : expectLit (("true").data) ks.2 with
    | some r =>
      simp only [h2, Option.some.injEq] at h
      subst h
      have e1 := tryDefineMeta_lt h1
      have e2 := expectLit_len h2
      have hl : ((("true").data) : Str).length = 4 := rfl
      rw [hl] at e2
      simp only
      omega
    | none =>
      simp only [h2] at h
      cases h3 : expectLit (("false").data) ks.2 with
      | none => simp [h3] at h
      | some r =>
        simp only [h3, Option.some.injEq] at h
        subst h
        have e1 := tryDefineMeta_lt h1
        have e2 := expectLit_len h3
        have hl : ((("false").data) : Str).length = 5 := rfl
        rw [hl] at e2
        simp only
        omega

theorem tmMetaNum_dec : StepDec tmMetaNum := by
  intro s pr h
  unfold tmMetaNum at h
  cases h1 : tryDefineMeta s with
  | none => simp [h1] at h
  | some ks =>
    simp only [h1] at h
    by_cases h2 : (ks.2.takeWhile isDigitCh).isEmpty
    · simp [h2] at h
    · simp only [h2, if_false] at h
      rw [if_neg (by simp)] at h
      have e1 := tryDefineMeta_lt h1
      have hds : 0 < (ks.2.takeWhile isDigitCh).length := by
        cases hq : ks.2.takeWhile isDigitCh with
        | nil => rw [hq] at h2; simp at h2
        | cons a b => simp [hq]
      have hdw : (ks.2.takeWhile isDigitCh).length ≤ ks.2.length :=
        (List.takeWhile_sublist _).length_le
      have hafter : (ks.2.drop (ks.2.takeWhile isDigitCh).length).length
          < ks.2.length := by
        rw [List.length_drop]; omega
      cases hfr : (match ks.2.drop (ks.2.takeWhile isDigitCh).length with
          | '.' :: a2 =>
              if (a2.takeWhile isDigitCh).isEmpty then none
              else some (ks.2.takeWhile isDigitCh ++
                '.' :: a2.takeWhile isDigitCh,
                a2.drop (a2.takeWhile isDigitCh).length)
          | _ => none) with
      | none =>
        rw [hfr] at h
        cases h6 : numEnd (ks.2.drop (ks.2.takeWhile isDigitCh).length) with
        | none => simp [h6] at h
        | some j =>
          simp only [h6, Option.some.injEq] at h
          subst h
          have h7 : ((ks.2.drop (ks.2.takeWhile isDigitCh).length).drop j).length
              ≤ (ks.2.drop (ks.2.takeWhile isDigitCh).length).length := by
            rw [List.length_drop]; omega
          simp only
          omega
      | some fr =>
        rw [hfr] at h
        have hfr2 : fr.2.length
            < (ks.2.drop (ks.2.takeWhile isDigitCh).length).length := by
          revert hfr
          split
          · rename_i a2 heqa
            intro hfr
            split at hfr
            · cases hfr
            · rw [Option.some.injEq] at hfr
              subst hfr
              rw [heqa]
              simp only [List.length_cons]
              rw [List.length_drop]
              have : (a2.takeWhile isDigitCh).length ≤ a2.length :=
                (List.takeWhile_sublist _).length_le
              omega
          · intro hfr
            cases hfr
        cases h5 : numEnd fr.2 with
        | none =>
          simp only [h5] at h
          cases h6 : numEnd (ks.2.drop (ks.2.takeWhile isDigitCh).length) with
          | none => simp [h6] at h
          | some j =>
            simp only [h6, Option.some.injEq] at h
            subst h
            have h7 : ((ks.2.drop (ks.2.takeWhile isDigitCh).length).drop j).length
                ≤ (ks.2.drop (ks.2.takeWhile isDigitCh).length).length := by
              rw [List.length_drop]; omega
            simp only
            omega
        | some j =>
          simp only [h5, Option.some.injEq] at h
          subst h
          have h7 : (fr.2.drop j).length ≤ fr.2.length := by
            rw [List.length_drop]; omega
          simp only
          omega

theorem tmEquation_dec : StepDec tmEquation := by
  intro s pr h
  unfold tmEquation at h
  cases h1 : tryDefineCtor (("Equation(").data) s with
  | none => simp [h1] at h
  | some vbr =>
    simp only [h1, Option.some.injEq] at h
    subst h
    exact tryDefineCtor_lt h1

theorem tmFigure_dec : StepDec tmFigure := by
  intro s pr h
  unfold tmFigure at h
  cases h1 : tryDefineCtor (("Figure(").data) s with
  | none => simp [h1] at h
  | some vbr =>
    simp only [h1, Option.some.injEq] at h
    subst h
    exact tryDefineCtor_lt h1

theorem tmTable_dec : StepDec tmTable := by
  intro s pr h
  unfold tmTable at h
  cases h1 : tryDefineCtor (("Table(").data) s with
  | none => simp [h1] at h
  | some vbr =>
    simp only [h1, Option.some.injEq] at h
    subst h
    exact tryDefineCtor_lt h1

theorem tmTheorem_dec : StepDec tmTheorem := by
  intro s pr h
  unfold tmTheorem at h
  cases h1 : tryDefineCtor (("Theorem(").data) s with
  | none => simp [h1] at h
  | some vbr =>
    simp only [h1, Option.some.injEq] at h
    subst h
    exact tryDefineCtor_lt h1

theorem tmAlgorithm_dec : StepDec tmAlgorithm := by
  intro s pr h
  unfold tmAlgorithm at h
  cases h1 : tryDefineCtor (("Algorithm(").data) s with
  | none => simp [h1] at h
  | some vbr =>
    simp only [h1, Option.some.injEq] at h
    subst h
    exact tryDefineCtor_lt h1

theorem tmBib_dec : StepDec tmBib := by
  intro s pr h
  unfold tmBib at h
  cases h1 : tryDefineBib s with
  | none => simp [h1] at h
  | some s5 =>
    simp only [h1] at h
    cases h2 : bodyTo s5 with
    | none => simp [h2] at h
    | some br =>
      simp only [h2, Option.some.injEq] at h
      subst h
      have e1 := tryDefineBib_lt h1
      have e2 := bodyTo_lt h2
      simp only
      omega

theorem tmCrossRef_dec : StepDec tmCrossRef := by
  intro s pr h
  unfold tmCrossRef at h
  cases h1 : tryDefineCrossRef s with
  | none => simp [h1] at h
  | some s5 =>
    simp only [h1] at h
    cases h2 : bodyTo s5 with
    | none => simp [h2] at h
    | some br =>
      simp only [h2, Option.some.injEq] at h
      subst h
      have e1 := tryDefineCrossRef_lt h1
      have e2 := bodyTo_lt h2
      simp only
      omega

theorem tmContentStr_dec : StepDec tmContentStr := by
  intro s pr h
  unfold tmContentStr at h
  cases h1 : tryDefineContent s with
  | none => simp [h1] at h
  | some ks =>
    simp only [h1] at h
    cases h2 : takeQuoted ks.2 with
    | none => simp [h2] at h
    | some qv =>
      simp only [h2, Option.some.injEq] at h
      subst h
      have e1 := tryDefineContent_lt h1
      have e2 := takeQuoted_lt h2
      simp only
      omega

theorem tmContentList_dec : StepDec tmContentList := by
  intro s pr h
  unfold tmContentList at h
  cases h1 : tryDefineContent s with
  | none => simp [h1] at h
  | some ks =>
    simp only [h1] at h
    cases h2 : expectLit (("List(").data) ks.2 with
    | none => simp [h2] at h
    | some s1 =>
      simp only [h2] at h
      revert h
      split
      · rename_i r2 heq
        intro h
        rw [Option.some.injEq] at h
        subst h
        have e1 := tryDefineContent_lt h1
        have e2 := expectLit_len h2
        have hlen : (s1.drop ((s1.takeWhile (fun c => !(c == ')'))).length)).length
            = s1.length - ((s1.takeWhile (fun c => !(c == ')'))).length) :=
          List.length_drop _ _
        rw [heq] at hlen
        have hle : (s1.takeWhile (fun c => !(c == ')'))).length ≤ s1.length :=
          (List.takeWhile_sublist _).length_le
        have hl : ((("List(").data) : Str).length = 5 := rfl
        rw [hl] at e2
        simp only [List.length_cons] at hlen
        simp only
        omega
      · intro h
        cases h

theorem trySectionVar_lt {s : Str} {pr : Str × Str}
    (h : trySectionVar s = some pr) : pr.2.length < s.length := by
  unfold trySectionVar at h
  cases h1 : expectLit (("section_").data) s with
  | none => simp [h1] at h
  | some s1 =>
    simp only [h1] at h
    by_cases h2 : (s1.takeWhile isWordChar).isEmpty
    · simp [h2] at h
    · rw [if_neg (by simp [h2])] at h
      rw [Option.some.injEq] at h
      subst h
      have e1 := expectLit_len h1
      have hl : ((("section_").data) : Str).length = 8 := rfl
      rw [hl] at e1
      have h3 : (s1.drop ((s1.takeWhile isWordChar).length)).length ≤ s1.length := by
        rw [List.length_drop]; omega
      simp only
      omega

theorem tmSection_dec (eqs : List (Str × EqRec)) (figs : List (Str × FigRec)) :
    StepDec (tmSection eqs figs) := by
  intro s pr h
  unfold tmSection at h
  cases h1 : expectLit (("define").data) s with
  | none => simp [h1] at h
  | some s1 =>
    simp only [h1] at h
    cases h2 : expectSpaces1 s1 with
    | none => simp [h2] at h
    | some s2 =>
      simp only [h2] at h
      cases h3 : trySectionVar s2 with
      | none => simp [h3] at h
      | some vs =>
        simp only [h3] at h
        cases h4 : expectLit (("=").data) (skipSpaces vs.2) with
        | none => simp [h4] at h
        | some s3 =>
          simp only [h4] at h
          cases h5 : expectLit (("Section(").data) (skipSpaces s3) with
          | none => simp [h5] at h
          | some s4 =>
            simp only [h5] at h
            cases h6 : bodyTo s4 with
            | none => simp [h6] at h
            | some br =>
              simp only [h6, Option.some.injEq] at h
              subst h
              have e1 := expectLit_len h1
              have e2 := expectSpaces1_lt h2
              have e3 := trySectionVar_lt h3
              have e3b := skipSpaces_le vs.2
              have e4 := expectLit_len h4
              have e4b := skipSpaces_le s3
              have e5 := expectLit_len h5
              have e6 := bodyTo_lt h6
              have hq1 : ((("define").data) : Str).length = 6 := rfl
              have hq2 : ((("=").data) : Str).length = 1 := rfl
              have hq3 : ((("Section(").data) : Str).length = 8 := rfl
              rw [hq1] at e1
              rw [hq2] at e4
              rw [hq3] at e5
              simp only
              omega

theorem tryTextItem_lt {s : Str} {pr : Str × Str}
    (h : tryTextItem s = some pr) : pr.2.length < s.length := by
  unfold tryTextItem at h
  cases h1 : expectLit (("Text(").data) s with
  | none => simp [h1] at h
  | some s1 =>
    simp only [h1] at h
    cases h2 : takeQuoted s1 with
    | none => simp [h2] at h
    | some qv =>
      simp only [h2] at h
      cases h3 : expectLit ((")").data) qv.2 with
      | none => simp [h3] at h
      | some r =>
        simp only [h3, Option.some.injEq] at h
        subst h
        have e1 := expectLit_len h1
        have e2 := takeQuoted_lt h2
        have e3 := expectLit_len h3
        have hq1 : ((("Text(").data) : Str).length = 5 := rfl
        have hq3 : (((")").data) : Str).length = 1 := rfl
        rw [hq1] at e1
        rw [hq3] at e3
        simp only
        omega

theorem tryEqRefItem_lt {s : Str} {pr : Str × Str}
    (h : tryEqRefItem s = some pr) : pr.2.length < s.length := by
  unfold tryEqRefItem at h
  cases h1 : expectLit (("EqRef(").data) s with
  | none => simp [h1] at h
  | some s1 =>
    simp only [h1] at h
    cases h2 : takeQuoted s1 with
    | none => simp [h2] at h
    | some qv =>
      simp only [h2] at h
      cases h3 : expectLit ((")").data) qv.2 with
      | none => simp [h3] at h
      | some r =>
        simp only [h3, Option.some.injEq] at h
        subst h
        have e1 := expectLit_len h1
        have e2 := takeQuoted_lt h2
        have e3 := expectLit_len h3
        have hq1 : ((("EqRef(").data) : Str).length = 6 := rfl
        have hq3 : (((")").data) : Str).length = 1 := rfl
        rw [hq1] at e1
        rw [hq3] at e3
        simp only
        omega

theorem tryFigRefItem_lt {s : Str} {pr : Str × Str}
    (h : tryFigRefItem s = some pr) : pr.2.length < s.length := by
  unfold tryFigRefItem at h
  cases h1 : expectLit (("FigRef(").data) s with
  | none => simp [h1] at h
  | some s1 =>
    simp only [h1] at h
    cases h2 : takeQuoted s1 with
    | none => simp [h2] at h
    | some qv =>
      simp only [h2] at h
      cases h3 : expectLit ((")").data) qv.2 with
      | none => simp [h3] at h
      | some r =>
        simp only [h3, Option.some.injEq] at h
        subst h
        have e1 := expectLit_len h1
        have e2 := takeQuoted_lt h2
        have e3 := expectLit_len h3
        have hq1 : ((("FigRef(").data) : Str).length = 7 := rfl
        have hq3 : (((")").data) : Str).length = 1 := rfl
        rw [hq1] at e1
        rw [hq3] at e3
        simp only
        omega

theorem tryAuthorVal_dec : StepDec tryAuthorVal := fun _ _ h => tryAuthorVal_lt h

theorem tryTextItem_dec : StepDec tryTextItem := fun _ _ h => tryTextItem_lt h

theorem tryEqRefItem_dec : StepDec tryEqRefItem := fun _ _ h => tryEqRefItem_lt h

theorem tryFigRefItem_dec : StepDec tryFigRefItem := fun _ _ h => tryFigRefItem_lt h

def versionLine : Str := ("// kleisdoc-format-version: 99\n").data

theorem extract_metadata_version (content : Str) :
    extract_metadata (versionLine ++ content) = extract_metadata content := by
  have hva : scanFind tmMetaAuthor (versionLine ++ content)
      = scanFind tmMetaAuthor content :=
    scanFind_append_skip _ tmMetaAuthor_dec _ _ (by
      intro i hi
      have hi2 : i < 31 := by simpa [versionLine] using hi
      interval_cases i <;> rfl)
  have hvla : scanFind tmMetaListAuthor (versionLine ++ content)
      = scanFind tmMetaListAuthor content :=
    scanFind_append_skip _ tmMetaListAuthor_dec _ _ (by
      intro i hi
      have hi2 : i < 31 := by simpa [versionLine] using hi
      interval_cases i <;> rfl)
  have hvs : scanFind tmMetaStr (versionLine ++ content)
      = scanFind tmMetaStr content :=
    scanFind_append_skip _ tmMetaStr_dec _ _ (by
      intro i hi
      have hi2 : i < 31 := by simpa [versionLine] using hi
      interval_cases i <;> rfl)
  have hvl : scanFind tmMetaList (versionLine ++ content)
      = scanFind tmMetaList content :=
    scanFind_append_skip _ tmMetaList_dec _ _ (by
      intro i hi
      have hi2 : i < 31 := by simpa [versionLine] using hi
      interval_cases i <;> rfl)
  have hvb : scanFind tmMetaBool (versionLine ++ content)
      = scanFind tmMetaBool content :=
    scanFind_append_skip _ tmMetaBool_dec _ _ (by
      intro i hi
      have hi2 : i < 31 := by simpa [versionLine] using hi
      interval_cases i <;> rfl)
  have hvn : scanFind tmMetaNum (versionLine ++ content)
      = scanFind tmMetaNum content :=
    scanFind_append_skip _ tmMetaNum_dec _ _ (by
      intro i hi
      have hi2 : i < 31 := by simpa [versionLine] using hi
      interval_cases i <;> rfl)
  have hvi : reSearch tmImportTemplate (versionLine ++ content)
      = reSearch tmImportTemplate content :=
    reSearch_append_skip _ _ _ (by
      intro i hi
      have hi2 : i < 31 := by simpa [versionLine] using hi
      interval_cases i <;> rfl)
  unfold extract_metadata
  rw [hva, hvla, hvs, hvl, hvb, hvn, hvi]

theorem load_ignores_version (content : Str) :
    load (versionLine ++ content) = load content := by
  have heq : extract_equations (versionLine ++ content)
      = extract_equations content := by
    unfold extract_equations
    rw [scanFind_append_skip _ tmEquation_dec _ _ (by
      intro i hi
      have hi2 : i < 31 := by simpa [versionLine] using hi
      interval_cases i <;> rfl)]
  have hfig : extract_figures (versionLine ++ content)
      = extract_figures content := by
    unfold extract_figures
    rw [scanFind_append_skip _ tmFigure_dec _ _ (by
      intro i hi
      have hi2 : i < 31 := by simpa [versionLine] using hi
      interval_cases i <;> rfl)]
  have hcb : extract_content_blocks (versionLine ++ content)
      = extract_content_blocks content := by
    unfold extract_content_blocks
    rw [scanFind_append_skip _ tmContentStr_dec _ _ (by
      intro i hi
      have hi2 : i < 31 := by simpa [versionLine] using hi
      interval_cases i <;> rfl)]
    rw [scanFind_append_skip _ tmContentList_dec _ _ (by
      intro i hi
      have hi2 : i < 31 := by simpa [versionLine] using hi
      interval_cases i <;> rfl)]
  have htab : extract_tables (versionLine ++ content)
      = extract_tables content := by
    unfold extract_tables
    rw [scanFind_append_skip _ tmTable_dec _ _ (by
      intro i hi
      have hi2 : i < 31 := by simpa [versionLine] using hi
      interval_cases i <;> rfl)]
  have hthm : extract_theorems (versionLine ++ content)
      = extract_theorems content := by
    unfold extract_theorems
    rw [scanFind_append_skip _ tmTheorem_dec _ _ (by
      intro i hi
      have hi2 : i < 31 := by simpa [versionLine] using hi
      interval_cases i <;> rfl)]
  have halg : extract_algorithms (versionLine ++ content)
      = extract_algorithms content := by
    unfold extract_algorithms
    rw [scanFind_append_skip _ tmAlgorithm_dec _ _ (by
      intro i hi
      have hi2 : i < 31 := by simpa [versionLine] using hi
      interval_cases i <;> rfl)]
  have hbib : extract_bibliography (versionLine ++ content)
      = extract_bibliography content := by
    unfold extract_bibliography
    rw [scanFind_append_skip _ tmBib_dec _ _ (by
      intro i hi
      have hi2 : i < 31 := by simpa [versionLine] using hi
      interval_cases i <;> rfl)]
  have hcr : extract_cross_refs (versionLine ++ content)
      = extract_cross_refs content := by
    unfold extract_cross_refs
    rw [scanFind_append_skip _ tmCrossRef_dec _ _ (by
      intro i hi
      have hi2 : i < 31 := by simpa [versionLine] using hi
      interval_cases i <;> rfl)]
  have hsec : ∀ eqs figs, extract_sections (versionLine ++ content) eqs figs
      = extract_sections content eqs figs := by
    intro eqs figs
    unfold extract_sections
    rw [scanFind_append_skip _ (tmSection_dec eqs figs) _ _ (by
      intro i hi
      have hi2 : i < 31 := by simpa [versionLine] using hi
      interval_cases i <;> rfl)]
  unfold load
  simp only [extract_metadata_version, heq, hfig, hcb, htab, hthm, halg, hbib,
    hcr, hsec]

/-- C9 (amended): `load` performs no format-version validation at all:
prepending a line that declares an unsupported format version changes
nothing about the result, and `load` is a total function that always
returns a fully assembled document, so there is no fail-fast version
mismatch signal (see the counterexample). -/
theorem claim_C9_no_version_check (content : Str) :
    load (versionLine ++ content) = load content :=
  load_ignores_version content

/-- C9 counterexample: a file declaring an unsupported format version is
loaded anyway — `load` returns a document already populated with the
file's metadata instead of failing fast before any mutation. -/
theorem claim_C9_counterexample :
    (load (versionLine ++ (("define meta_title = \"T\"").data))).metadata
      = [((("title").data), PyVal.atom (.astr (("T").data)))] ∧
    (load (versionLine ++ (("define meta_title = \"T\"").data))).template_path
      = none ∧
    (load (versionLine ++ (("define meta_title = \"T\"").data))).equations
      = [] :=
  ⟨rfl, rfl, rfl⟩

def tameChar (c : Char) : Bool :=
  !(c == '\"') && !(c == '\\') && !(c == '\n') && !(c == '=')

def tame (s : Str) : Bool := s.all tameChar

theorem tame_subset {u2 u : Str} (hs : u2 ⊆ u) (h : tame u = true) :
    tame u2 = true := by
  rw [tame, List.all_eq_true]
  intro x hx
  exact List.all_eq_true.mp h x (hs hx)

theorem posFacts_tame_zone {β : Type} (tm : Str → Option (β × Str))
    (htz : ∀ u c z, tame u = true → (c = '\"' ∨ c = ')') →
      tm (u ++ c :: z) = none)
    (v : Str) (hv : tame v = true) {c : Char} (hc : c = '\"' ∨ c = ')')
    (z : Str) :
    ∀ i, i < v.length → tm (v.drop i ++ (c :: z)) = none := fun i _ =>
  htz _ _ _ (tame_subset (List.drop_subset _ _) hv) hc

theorem alookup_some_mem {α : Type} {d : List (Str × α)} {k : Str} {v : α}
    (h : alookup d k = some v) : (k, v) ∈ d := by
  induction d with
  | nil => cases h
  | cons p rest ih =>
    obtain ⟨k2, v2⟩ := p
    by_cases hk : k2 = k
    · rw [show alookup ((k2, v2) :: rest) k
        = (if k2 = k then some v2 else alookup rest k) from rfl,
        if_pos hk, Option.some.injEq] at h
      subst hk
      subst h
      exact List.mem_cons_self _ _
    · rw [show alookup ((k2, v2) :: rest) k
        = (if k2 = k then some v2 else alookup rest k) from rfl,
        if_neg hk] at h
      exact List.mem_cons_of_mem _ (ih h)

theorem mem_keys_of_alookup_ne {α : Type} {d : List (Str × α)} {k : Str}
    (h : alookup d k ≠ none) : k ∈ d.map Prod.fst := by
  cases hq : alookup d k with
  | none => exact absurd hq h
  | some v =>
    have := alookup_some_mem hq
    exact List.mem_map.mpr ⟨(k, v), this, rfl⟩

end Kleisdoc
